import Mathlib

/-!
# refactor-assets-tool: path classifier, CSV loader and index builders

A shallow embedding of `main.go`.

* A Go `string` is a sequence of bytes; it is embedded as `Str = List Char`, one list
  element per byte.  Every string operation the program uses (`strings.Split` on a
  one-byte separator, `strings.HasPrefix`, `strings.HasSuffix`, `strings.Count` of a
  one-byte pattern, indexing, slicing, `len`) is an operation on that sequence.
* A Go `int` has 64 bits; integers are embedded as `Int`, and the one place where the
  width matters, the range check of `strconv.Atoi`, is explicit.
* A Go function that may panic at run time (index or slice out of range, nil
  dereference) returns an `Option`: `none` is the panic.
* The Go result triple `(HeroId, *record, error)` is kept as a triple, `nil` being
  `none`.
* A Go `map` is an association list read with `goGet?` and written with `goSet`; `range`
  over a map visits the entries in an unspecified order, which is the order of the list.
* File input is outside the embedding: `getSkillId` is a function of what `os.ReadFile`
  returned.
-/

namespace RefactorAssets

/-- A Go `string`: its bytes in order. -/
abbrev Str := List Char

/-- Go type `HeroId string`. -/
abbrev HeroId := Str

/-- Go `type ExtensionType int32` with its four `iota` constants. -/
inductive ExtensionType where
  | PNG
  | JSON
  | ATLAS
  | UNDEFINED
  deriving DecidableEq, Repr

/-- Numeric value of an `ExtensionType` constant (`iota` numbering), as used by
`int(extension)`. -/
def ExtensionType.toInt : ExtensionType → Int
  | .PNG => 0
  | .JSON => 1
  | .ATLAS => 2
  | .UNDEFINED => 3

/-- Go `struct HeroSkill`. -/
structure HeroSkill where
  Number : Int
  AbsolutePath : Str
  deriving DecidableEq, Repr

/-- Go `struct Skin`. -/
structure Skin where
  Number : Int
  AbsolutePath : Str
  FileName : Str
  FileExtension : Str
  deriving DecidableEq, Repr

/-- The two sentinel errors of package `strconv`. -/
inductive NumErrKind where
  | errSyntax
  | errRange
  deriving DecidableEq, Repr

/-- A Go `error` value as this program produces them: `errors.New(msg)` or the
`*strconv.NumError` returned by `strconv.Atoi` (function name, offending input, cause). -/
inductive GoError where
  | errorsNew (msg : Str)
  | numError (fn : Str) (num : Str) (err : NumErrKind)
  deriving DecidableEq, Repr

/-! ## Package `strings` -/

/-- Go `strings.Split(s, sep)` for a one-byte separator `sep`: the pieces of `s` between
consecutive occurrences of `sep`; always at least one piece. -/
def stringsSplit (sep : Char) : Str → List Str
  | [] => [[]]
  | c :: cs =>
    if c = sep then [] :: stringsSplit sep cs
    else
      match stringsSplit sep cs with
      | [] => [[c]]
      | piece :: rest => (c :: piece) :: rest

/-- Go `strings.HasPrefix(s, p)`. -/
def hasPrefix (s p : Str) : Bool := p.isPrefixOf s

/-- Go `strings.HasSuffix(s, p)`. -/
def hasSuffix (s p : Str) : Bool := p.isSuffixOf s

/-- Go `strings.Count(s, sep)` for a one-byte `sep`. -/
def stringsCount (s : Str) (sep : Char) : Nat := s.count sep

/-- Go slice expression `s[lo:hi]` on a string; `none` is the run-time panic
"slice bounds out of range". -/
def goSlice (s : Str) (lo hi : Int) : Option Str :=
  if 0 ≤ lo ∧ lo ≤ hi ∧ hi ≤ (s.length : Int) then
    some ((s.take hi.toNat).drop lo.toNat)
  else none

/-- Go index expression `xs[i]`; `none` is the run-time panic "index out of range". -/
def goIndex {α : Type} (xs : List α) (i : Int) : Option α :=
  if 0 ≤ i then xs.get? i.toNat else none

/-! ## Package `strconv` (standard library, embedded from its documented behaviour) -/

/-- Value of a decimal digit byte, `none` for any other byte. -/
def digitVal (c : Char) : Option Nat :=
  if '0'.toNat ≤ c.toNat ∧ c.toNat ≤ '9'.toNat then some (c.toNat - '0'.toNat) else none

/-- The digit loop of `strconv.ParseUint(s, 10, 64)`: a byte that is not a decimal digit
is a syntax error, a value that leaves `uint64` is a range error; whichever is met first
while reading left to right. -/
def parseUintLoop : Str → Nat → Except NumErrKind Nat
  | [], n => .ok n
  | c :: cs, n =>
    match digitVal c with
    | none => .error .errSyntax
    | some d =>
      if 2 ^ 64 ≤ n * 10 + d then .error .errRange
      else parseUintLoop cs (n * 10 + d)

/-- Go `strconv.ParseUint(s, 10, 64)`. -/
def parseUint (s : Str) : Except NumErrKind Nat :=
  if s = [] then .error .errSyntax else parseUintLoop s 0

/-- The part of `strconv.ParseInt(s, 10, 0)` after the sign has been read, on a platform
whose `int` has 64 bits: the digits `body` go through `ParseUint`, the magnitude is checked
against the `int64` range and the sign is applied. -/
def parseIntSigned (neg : Bool) (body : Str) : Except NumErrKind Int :=
  match parseUint body with
  | .error e => .error e
  | .ok un =>
    if neg = false ∧ 2 ^ 63 ≤ un then .error .errRange
    else if neg = true ∧ 2 ^ 63 < un then .error .errRange
    else .ok (if neg then -(un : Int) else (un : Int))

/-- Go `strconv.ParseInt(s, 10, 0)`: an optional sign `+` or `-`, then one or more decimal
digits; the value must fit `int64`. -/
def parseInt (s : Str) : Except NumErrKind Int :=
  match s with
  | [] => .error .errSyntax
  | c :: cs => parseIntSigned (decide (c = '-')) (if c = '+' ∨ c = '-' then cs else s)

/-- Go `strconv.Atoi(s)`: "equivalent to ParseInt(s, 10, 0), converted to type int"; its
error is a `*NumError` with `Func = "Atoi"` and `Num = s`. -/
def atoi (s : Str) : Except GoError Int :=
  match parseInt s with
  | .ok n => .ok n
  | .error k => .error (.numError "Atoi".toList s k)

/-! ## The path classifier -/

/-- Go `getExtensionType`. -/
def getExtensionType (path : Str) : ExtensionType :=
  if hasSuffix path ".json".toList then .JSON
  else if hasSuffix path ".atlas".toList then .ATLAS
  else if hasSuffix path ".png".toList then .PNG
  else .UNDEFINED

/-- The loop `for pos < len(s) && s[pos] != '_' { pos++ }`, run on the bytes of `s` from
index `pos` on (first argument: `s[pos:]`); the result is the final value of `pos`. -/
def scanUnderscore : Str → Nat → Nat
  | [], pos => pos
  | c :: cs, pos => if c ≠ '_' then scanUnderscore cs (pos + 1) else pos

/-- The three results of a classifier, as in Go: hero id, record pointer, error. -/
abbrev SkillResult := HeroId × Option HeroSkill × Option GoError

/-- See `SkillResult`. -/
abbrev SkinResult := HeroId × Option Skin × Option GoError

/-- The trailing loop of `skillFromPath`, which computes the local `start`:
`for i := 0; i < len(components)-2; i++ { start += len(components[i]) }` and then
`start += len(components) - 3`.  It runs only where `len(components) >= 2`; `none` is the
panic of an index out of range. -/
def startOffset (components : List Str) : Option Int :=
  ((List.range (components.length - 2)).foldlM
    (fun (start : Int) (i : Nat) => do
      let component ← goIndex components (i : Int)
      some (start + component.length))
    0).map (fun start => start + ((components.length : Int) - 3))

/-- Go `skillFromPath`; `none` is a run-time panic.  The local `start` is computed and
never read. -/
def skillFromPath (path : Str) : Option SkillResult :=
  let components := stringsSplit '\\' path
  let extension := getExtensionType path
  if components.length < 2 ∨ extension ≠ .PNG then
    some ([], none, some (.errorsNew "undefined path".toList))
  else do
    -- just take last component to work
    let lastComponent ← goIndex components ((components.length : Int) - 1)
    if ¬ hasPrefix lastComponent "icon_skill_".toList ∨ stringsCount lastComponent '_' ≠ 3 then
      some ([], none, some (.errorsNew "wrong format".toList))
    else do
      let lastComponent ← goSlice lastComponent 11 ((lastComponent.length : Int) - 4)
      let pos := scanUnderscore lastComponent 0
      if pos = 0 then
        some ([], none, some (.errorsNew "wrong format".toList))
      else do
        let id ← goSlice lastComponent 0 pos
        let numText ← goSlice lastComponent ((pos : Int) + 1) lastComponent.length
        match atoi numText with
        | .error err => some ([], none, some err)
        | .ok skillNumber => do
          let _ ← startOffset components
          some (id, some { Number := skillNumber, AbsolutePath := path }, none)

/-- The loop `for _, component := range components` of `skinFromPath`: the state is the
pair `(heroComponent, skinComponent)`, both `""` at the start; each is overwritten by
every component that passes its test. -/
def scanComponents (components : List Str) : Str × Str :=
  components.foldl
    (fun st component =>
      let heroComponent :=
        if hasPrefix component "hero_".toList && stringsCount component '_' == 2
        then component else st.1
      let skinComponent :=
        if hasPrefix component "Skin".toList && decide (component.length > 4)
        then component else st.2
      (heroComponent, skinComponent))
    ([], [])

/-- Go `skinFromPath`; `none` is a run-time panic. -/
def skinFromPath (path : Str) : Option SkinResult :=
  let components := stringsSplit '\\' path
  let extension := getExtensionType path
  if components.length < 3 ∨ extension = .UNDEFINED then
    some ([], none, some (.errorsNew "undefined path".toList))
  else
    let heroComponent := (scanComponents components).1
    let skinComponent := (scanComponents components).2
    if heroComponent = [] ∨ skinComponent = [] then
      some ([], none, some (.errorsNew "undefined path".toList))
    else
      let i := scanUnderscore heroComponent 0
      let j := scanUnderscore (heroComponent.drop (i + 1)) (i + 1)
      -- `i >= len || j >= len || heroComponent[i] != '_' || heroComponent[j] != '_'`,
      -- evaluated left to right
      if i ≥ heroComponent.length ∨ j ≥ heroComponent.length then
        some ([], none, some (.errorsNew "undefined path".toList))
      else do
        let ci ← goIndex heroComponent i
        if ci ≠ '_' then
          some ([], none, some (.errorsNew "undefined path".toList))
        else do
          let cj ← goIndex heroComponent j
          if cj ≠ '_' then
            some ([], none, some (.errorsNew "undefined path".toList))
          else do
            let heroId ← goSlice heroComponent ((i : Int) + 1) j
            let numText ← goSlice skinComponent 4 skinComponent.length
            match atoi numText with
            | .error _ =>
              some ([], none, some (.errorsNew
                "wrong format: can't convert skin number, folder should be in form 'SkinX'".toList))
            | .ok skinNumber => do
              let lastComponent ← goIndex components ((components.length : Int) - 1)
              let fileName ← goSlice lastComponent 0
                ((lastComponent.length : Int) - extension.toInt - 4)
              let fileExtension ← goSlice lastComponent ((fileName.length : Int) + 1)
                lastComponent.length
              some (heroId,
                some { Number := skinNumber, AbsolutePath := path,
                       FileName := fileName, FileExtension := fileExtension },
                none)

/-- The last backslash-separated component of a path (`[]` never arises: a split has at
least one piece). -/
def lastComponentOf (path : Str) : Str :=
  ((stringsSplit '\\' path).getLast?).getD []

/-- What is left of the last component of a skill path once the 11 bytes of
`icon_skill_` and the last 4 bytes are taken away. -/
def skillRemainder (path : Str) : Str :=
  ((lastComponentOf path).take ((lastComponentOf path).length - 4)).drop 11

/-- The text between the prefix `icon_skill_` and the next underscore. -/
def skillIdText (path : Str) : Str :=
  (skillRemainder path).takeWhile (fun c => c != '_')

/-- The text between that underscore and the final `.png`. -/
def skillNumberText (path : Str) : Str :=
  ((skillRemainder path).dropWhile (fun c => c != '_')).drop 1

/-- A component of the form `hero_<id>_<name>`: prefix `hero_`, exactly two underscores. -/
def isHeroComponent (c : Str) : Bool := "hero_".toList.isPrefixOf c && c.count '_' == 2

/-- A component that starts with `Skin` and is longer than 4 bytes. -/
def isSkinComponent (c : Str) : Bool := "Skin".toList.isPrefixOf c && decide (4 < c.length)

/-- The last component of the path, in path order, of the form `hero_<id>_<name>`. -/
def heroComponentOf (path : Str) : Option Str :=
  ((stringsSplit '\\' path).filter isHeroComponent).getLast?

/-- The last component of the path, in path order, that starts with `Skin` and is longer
than 4 bytes. -/
def skinComponentOf (path : Str) : Option Str :=
  ((stringsSplit '\\' path).filter isSkinComponent).getLast?

/-- A component of the form `Skin<n>`: `Skin` followed by a non-empty string of decimal
digits. -/
def isSkinDigitsComponent (c : Str) : Bool :=
  "Skin".toList.isPrefixOf c && (decide (c.drop 4 ≠ []) && (c.drop 4).all
    (fun d => decide (48 ≤ d.toNat ∧ d.toNat ≤ 57)))

/-- The text between the first and the second underscore of `hero_<id>_<name>`. -/
def heroIdText (hero : Str) : Str := (hero.drop 5).takeWhile (fun c => c != '_')

/-- The literal extension an `ExtensionType` stands for. -/
def extensionText : ExtensionType → Str
  | .PNG => "png".toList
  | .JSON => "json".toList
  | .ATLAS => "atlas".toList
  | .UNDEFINED => []

/-! ## Go maps -/

/-- A Go `map[K]V` as an association list: one entry per key when built with `goSet`.
`for k, v := range m` visits the entries in an order Go leaves unspecified; here it is the
order of the list, and statements quantify over every list. -/
abbrev GoMap (K V : Type) := List (K × V)

/-- Go `v, ok := m[k]`. -/
def goGet? {K V : Type} [DecidableEq K] : GoMap K V → K → Option V
  | [], _ => none
  | (k', v) :: rest, k => if k' = k then some v else goGet? rest k

/-- Go `m[k]` as a value: the zero value of `V` when the key is absent. -/
def goGetD {K V : Type} [DecidableEq K] (m : GoMap K V) (k : K) (zero : V) : V :=
  (goGet? m k).getD zero

/-- Go `m[k] = v`. -/
def goSet {K V : Type} [DecidableEq K] : GoMap K V → K → V → GoMap K V
  | [], k, v => [(k, v)]
  | (k', v') :: rest, k, v =>
    if k' = k then (k, v) :: rest else (k', v') :: goSet rest k v

/-- Go `strconv.FormatInt(int64(n), 10)`: the decimal digits of `n`, after a `-` when `n`
is negative. -/
def formatInt : Int → Str
  | .ofNat m => Nat.toDigits 10 m
  | .negSucc m => '-' :: Nat.toDigits 10 (m + 1)

/-! ## The CSV loader -/

/-- Go `getSkillId`, as a function of what `os.ReadFile(csvPath)` returned. -/
def getSkillId (file : Except GoError Str) : Except GoError (GoMap Str Str) :=
  match file with
  | .error err => .error err
  | .ok data =>
    let rows := stringsSplit '\n' data
    .ok (rows.enum.foldl
      (fun ret (ir : Nat × Str) =>
        if ir.1 = 0 then ret
        else
          let columns := stringsSplit ',' ir.2
          if h : columns.length ≥ 2 then goSet ret columns[0] columns[1] else ret)
      [])

/-- The data entries of a CSV text, in the words of the specification: split the text on
newline, discard the first line, split each remaining line on comma, and keep
`(column 0, column 1)` of every line with at least 2 columns, in line order. -/
def csvEntries (text : Str) : List (Str × Str) :=
  (((stringsSplit '\n' text).drop 1).map (stringsSplit ',')).filterMap
    (fun columns =>
      match columns with
      | c0 :: c1 :: _ => some (c0, c1)
      | _ => none)

/-- The table of the specification: starting from the empty table, set
`table[column 0] = column 1` for every data entry, in line order. -/
def csvTableSpec (text : Str) : GoMap Str Str :=
  (csvEntries text).foldl (fun table e => goSet table e.1 e.2) []

/-! ## The index builders of `main` -/

/-- Go `map[HeroId][]*HeroSkill` (`skillInfo`); a nil pointer is `none`. -/
abbrev SkillIndex := GoMap HeroId (List (Option HeroSkill))

/-- Go `map[HeroId][]*Skin` (`skinInfo`); a nil pointer is `none`. -/
abbrev SkinIndex := GoMap HeroId (List (Option Skin))

/-- The lookup key `heroId + "_" + strconv.FormatInt(int64(n), 10)`. -/
def lookupKey (heroId : HeroId) (n : Int) : Str :=
  heroId ++ "_".toList ++ formatInt n

/-- The body of the inner loop `for _, skin := range skins` that fills `heroSpine`. -/
def heroSpineStep (heroId : HeroId) (spine : GoMap Str Str) (skin : Option Skin) :
    GoMap Str Str :=
  match skin with
  | some sk =>
    if sk.FileExtension = "json".toList then
      goSet spine (lookupKey heroId sk.Number) sk.FileName
    else spine
  | none => spine

/-- The `heroSpine` map of `main`: the two nested `range` loops over `skinInfo`, from the
empty map. -/
def heroSpine (skinInfo : SkinIndex) : GoMap Str Str :=
  skinInfo.foldl (fun spine entry => entry.2.foldl (heroSpineStep entry.1) spine) []

/-- The two results of the last loop of `main`: the `heroSkill` map (`nil` is `none`) and
the `wrongSynchronizedData` list. -/
structure SkillReport where
  heroSkill : GoMap HeroId (List (Option Str))
  wrongSynchronizedData : List Str
  deriving DecidableEq, Repr

/-- The `hasSkillIcon` map of one hero: `hasSkillIcon[skill.Number] = true` for each of
its skills; `none` is the nil-pointer panic of `skill.Number`. -/
def hasSkillIconOf (skills : List (Option HeroSkill)) : Option (GoMap Int Bool) :=
  skills.foldlM
    (fun m skill =>
      match skill with
      | some sk => some (goSet m sk.Number true)
      | none => none)
    []

/-- One turn of `for i := 1; i <= 4; i++` in the last loop of `main`. -/
def skillNumberStep (heroId : HeroId) (skillName : GoMap Str Str)
    (hasSkillIcon : GoMap Int Bool) (st : SkillReport) (i : Int) : SkillReport :=
  let sValue := goGetD skillName (lookupKey heroId i) []
  if goGetD hasSkillIcon i false = true then
    -- have skill icon but doesn't have skill name
    { wrongSynchronizedData :=
        if sValue = [] then st.wrongSynchronizedData ++ [heroId] else st.wrongSynchronizedData
      heroSkill := goSet st.heroSkill heroId (goGetD st.heroSkill heroId [] ++ [some sValue]) }
  else
    -- have skill name but doesn't have skill icon
    { wrongSynchronizedData :=
        if sValue ≠ [] then st.wrongSynchronizedData ++ [heroId] else st.wrongSynchronizedData
      heroSkill := goSet st.heroSkill heroId (goGetD st.heroSkill heroId [] ++ [none]) }

/-- The last loop of `main`, `for heroId, skills := range skillInfo`, from empty
`heroSkill` and `wrongSynchronizedData`; `none` is a panic. -/
def heroSkillLoop (skillInfo : SkillIndex) (skillName : GoMap Str Str) : Option SkillReport :=
  skillInfo.foldlM
    (fun st entry => do
      let hasSkillIcon ← hasSkillIconOf entry.2
      some ([1, 2, 3, 4].foldl (skillNumberStep entry.1 skillName hasSkillIcon) st))
    { heroSkill := [], wrongSynchronizedData := [] }

/-- Icon presence: the hero has a `HeroSkill` with `Number = n`. -/
def hasIcon (skills : List (Option HeroSkill)) (n : Int) : Bool :=
  skills.any (fun skill =>
    match skill with
    | some sk => decide (sk.Number = n)
    | none => false)

/-- The entry for skill number `n` in a hero's sequence, as the loop computes it: the
table's value for `<heroId>_<n>` (the empty string when the table has none) when the hero
has an icon with that number, the nil marker otherwise. -/
def heroSkillEntry (skills : List (Option HeroSkill)) (skillName : GoMap Str Str)
    (heroId : HeroId) (n : Int) : Option Str :=
  if hasIcon skills n = true then some (goGetD skillName (lookupKey heroId n) []) else none

/-! ## The classification loops of `main` -/

/-- Go `Error()` of the two sentinel errors of package `strconv`. -/
def NumErrKind.text : NumErrKind → Str
  | .errSyntax => "invalid syntax".toList
  | .errRange => "value out of range".toList

/-- Go `err.Error()`: the message of `errors.New(msg)` is `msg`; the message of a
`*strconv.NumError` is `"strconv." + Func + ": parsing " + strconv.Quote(Num) + ": " +
Err.Error()`.  The standard-library function `strconv.Quote` is the parameter `quote`. -/
def errorText (quote : Str → Str) : GoError → Str
  | .errorsNew msg => msg
  | .numError fn num err =>
    "strconv.".toList ++ fn ++ ": parsing ".toList ++ quote num ++ ": ".toList ++ err.text

/-- The body of a classification loop of `main`, for the classifier `fromPath`: an error
appends the line `path + " (" + err.Error() + ")"` to the unknown-path list, a success
appends the record to the hero's sequence in the index; `none` is a panic of the
classifier. -/
def classifyStep {R : Type} (quote : Str → Str)
    (fromPath : Str → Option (HeroId × Option R × Option GoError))
    (st : GoMap HeroId (List (Option R)) × List Str) (path : Str) :
    Option (GoMap HeroId (List (Option R)) × List Str) := do
  let result ← fromPath path
  match result.2.2 with
  | some err =>
    some (st.1, st.2 ++ [path ++ " (".toList ++ errorText quote err ++ ")".toList])
  | none =>
    some (goSet st.1 result.1 (goGetD st.1 result.1 [] ++ [result.2.1]), st.2)

/-- What `strconv.Quote` returns on a text of printable ASCII bytes with no double quote
and no backslash: the text between double quotes. -/
def quotePlain (s : Str) : Str := Char.ofNat 34 :: (s ++ [Char.ofNat 34])

/-- A classification loop of `main` over the walked paths, from an empty index and an
empty unknown-path list. -/
def classifyLoop {R : Type} (quote : Str → Str)
    (fromPath : Str → Option (HeroId × Option R × Option GoError)) (paths : List Str) :
    Option (GoMap HeroId (List (Option R)) × List Str) :=
  paths.foldlM (classifyStep quote fromPath) ([], [])

/-- The loop of `main` over `lstSkillPath`: `skillInfo` and `unknownSkillPath`. -/
def classifySkills (quote : Str → Str) (lstSkillPath : List Str) :
    Option (SkillIndex × List Str) :=
  classifyLoop quote skillFromPath lstSkillPath

/-- The loop of `main` over `lstSkinPath`: `skinInfo` and `unknownSkinPath`. -/
def classifySkins (quote : Str → Str) (lstSkinPath : List Str) :
    Option (SkinIndex × List Str) :=
  classifyLoop quote skinFromPath lstSkinPath

/-- The report line a path contributes: `path + " (" + error message + ")"` when the
classifier returns an error, nothing otherwise. -/
def failureLine {R : Type} (quote : Str → Str)
    (fromPath : Str → Option (HeroId × Option R × Option GoError)) (path : Str) :
    Option Str :=
  match fromPath path with
  | some (_, _, some err) => some (path ++ " (".toList ++ errorText quote err ++ ")".toList)
  | _ => none

/-- The record a path contributes to the sequence of hero `h`: the classifier's record
when it succeeds with hero id `h`, nothing otherwise. -/
def recordFor {R : Type} (fromPath : Str → Option (HeroId × Option R × Option GoError))
    (h : HeroId) (path : Str) : Option (Option R) :=
  match fromPath path with
  | some (h', record, none) => if h' = h then some record else none
  | _ => none

/-- The total number of records in an index. -/
def totalRecords {R : Type} (idx : GoMap HeroId (List (Option R))) : Nat :=
  (idx.map (fun e => e.2.length)).sum

/-- What it is for an index and a report list to partition the walked paths. -/
def ClassificationPartition {R : Type} (quote : Str → Str)
    (fromPath : Str → Option (HeroId × Option R × Option GoError))
    (absolutePath : R → Str) (paths : List Str)
    (idx : GoMap HeroId (List (Option R))) (unknown : List Str) : Prop :=
  -- the report lines are those of the failing paths, in walk order
  unknown = paths.filterMap (failureLine quote fromPath) ∧
  -- each hero's sequence lists the records of its paths, in walk order
  (∀ h, goGetD idx h [] = paths.filterMap (recordFor fromPath h)) ∧
  -- the index is a map, and a hero is a key only when it has a record
  (idx.map Prod.fst).Nodup ∧
  (∀ h, (goGet? idx h).isSome = true → goGetD idx h [] ≠ []) ∧
  -- records plus report lines are as many as the paths
  totalRecords idx + unknown.length = paths.length ∧
  -- each path gives one record with its own path under one hero, or one report line
  (∀ path ∈ paths,
    (∃ h record, failureLine quote fromPath path = none ∧
      recordFor fromPath h path = some (some record) ∧ absolutePath record = path ∧
      ∀ h', h' ≠ h → recordFor fromPath h' path = none) ∨
    (∃ err, failureLine quote fromPath path
        = some (path ++ " (".toList ++ errorText quote err ++ ")".toList) ∧
      ∀ h, recordFor fromPath h path = none))

/-! ## Decimal numerals, as the specification reads them -/

/-- A decimal digit byte, `'0'` to `'9'`. -/
def isDecimalDigit (c : Char) : Bool := decide (48 ≤ c.toNat ∧ c.toNat ≤ 57)

/-- A non-empty string of decimal digits. -/
def isDigitString (s : Str) : Bool := decide (s ≠ []) && s.all isDecimalDigit

/-- Base-10 value of a string of decimal digits. -/
def decimalValue (s : Str) : Nat := s.foldl (fun n c => n * 10 + (c.toNat - 48)) 0

/-- A base-10 integer numeral: an optional sign `+` or `-`, then a non-empty string of
decimal digits. -/
def isDecimalInteger (s : Str) : Bool :=
  match s with
  | [] => false
  | c :: cs => if c = '+' ∨ c = '-' then isDigitString cs else isDigitString (c :: cs)

/-- The integer a base-10 numeral denotes. -/
def decimalIntegerValue (s : Str) : Int :=
  match s with
  | [] => 0
  | c :: cs =>
    if c = '-' then -(decimalValue cs : Int)
    else if c = '+' then (decimalValue cs : Int)
    else (decimalValue (c :: cs) : Int)

/-- The values of a 64-bit Go `int`. -/
def fitsInt (v : Int) : Bool := decide (-(2 : Int) ^ 63 ≤ v ∧ v < (2 : Int) ^ 63)

/-- A base-10 integer numeral whose value a Go `int` can hold. -/
def isIntNumeral (s : Str) : Bool := isDecimalInteger s && fitsInt (decimalIntegerValue s)

/-- The path `D + "\\" + "icon_skill_" + id + "_" + n + ".png"`. -/
def skillPath (D id n : Str) : Str :=
  D ++ "\\".toList ++ "icon_skill_".toList ++ id ++ "_".toList ++ n ++ ".png".toList

/-- A numeral with no `-` sign that holds a decimal digit `'1'` to `'9'`. -/
def isPositiveNumeral (s : Str) : Bool :=
  (s.head? != some '-') && s.any (fun c => decide (49 ≤ c.toNat ∧ c.toNat ≤ 57))

/-- Name presence: the table has a non-empty name for the key. -/
def namePresent (skillName : GoMap Str Str) (key : Str) : Bool :=
  match goGet? skillName key with
  | some name => decide (name ≠ [])
  | none => false

/-- The skill numbers 1..4 of a hero for which icon presence differs from name
presence. -/
def mismatchNumbers (skills : List (Option HeroSkill)) (skillName : GoMap Str Str)
    (heroId : HeroId) : List Int :=
  [1, 2, 3, 4].filter (fun n => hasIcon skills n != namePresent skillName (lookupKey heroId n))

/-- The text between the first and the second underscore of a string. -/
def betweenUnderscores (s : Str) : Str :=
  ((s.dropWhile (fun c => c != '_')).drop 1).takeWhile (fun c => c != '_')

/-! ## Lemmas on strings -/

theorem stringsSplit_ne_nil (sep : Char) (s : Str) : stringsSplit sep s ≠ [] := by
  cases s with
  | nil => simp [stringsSplit]
  | cons c cs =>
    unfold stringsSplit
    split
    · simp
    · split <;> simp

theorem stringsSplit_of_not_mem (sep : Char) (s : Str) (h : sep ∉ s) :
    stringsSplit sep s = [s] := by
  induction s with
  | nil => rfl
  | cons c cs ih =>
    have hc : c ≠ sep := fun e => h (by simp [e])
    have hcs : sep ∉ cs := fun e => h (by simp [e])
    rw [stringsSplit, if_neg hc, ih hcs]

theorem stringsSplit_append_sep (sep : Char) (a b : Str) :
    stringsSplit sep (a ++ sep :: b) = stringsSplit sep a ++ stringsSplit sep b := by
  induction a with
  | nil => simp [stringsSplit]
  | cons c cs ih =>
    by_cases hc : c = sep
    · simp [stringsSplit, hc, ih]
    · cases hs : stringsSplit sep cs with
      | nil => exact absurd hs (stringsSplit_ne_nil sep cs)
      | cons p r =>
        rw [List.cons_append, stringsSplit, if_neg hc, ih, stringsSplit, if_neg hc, hs]
        rfl

theorem lastComponentOf_append_sep (a b : Str) (h : '\\' ∉ b) :
    lastComponentOf (a ++ '\\' :: b) = b := by
  simp [lastComponentOf, stringsSplit_append_sep, stringsSplit_of_not_mem _ b h]

theorem length_stringsSplit_append_sep (sep : Char) (a b : Str) :
    2 ≤ (stringsSplit sep (a ++ sep :: b)).length := by
  rw [stringsSplit_append_sep, List.length_append]
  have h1 := List.length_pos.mpr (stringsSplit_ne_nil sep a)
  have h2 := List.length_pos.mpr (stringsSplit_ne_nil sep b)
  omega

/-- A suffix of the path that holds no separator lies inside the last component. -/
theorem suffix_lastComponentOf (sfx : Str) (hs : '\\' ∉ sfx) (path : Str)
    (h : sfx <:+ path) : sfx <:+ lastComponentOf path := by
  induction path with
  | nil =>
    have : sfx = [] := by simpa using h
    subst this
    exact List.nil_suffix
  | cons c cs ih =>
    rcases List.suffix_cons_iff.mp h with heq | hsuf
    · have hnot : '\\' ∉ c :: cs := heq ▸ hs
      rw [heq]
      simp [lastComponentOf, stringsSplit_of_not_mem _ _ hnot]
    · have ih2 := ih hsuf
      unfold lastComponentOf at ih2 ⊢
      by_cases hc : c = '\\'
      · rw [stringsSplit, if_pos hc]
        cases hsp : stringsSplit '\\' cs with
        | nil => exact absurd hsp (stringsSplit_ne_nil _ cs)
        | cons p r => rw [hsp] at ih2; simpa using ih2
      · rw [stringsSplit, if_neg hc]
        cases hsp : stringsSplit '\\' cs with
        | nil => exact absurd hsp (stringsSplit_ne_nil _ cs)
        | cons p r =>
          rw [hsp] at ih2
          cases r with
          | nil =>
            simp only [List.getLast?_singleton, Option.getD_some] at ih2 ⊢
            exact ih2.trans (List.suffix_cons c p)
          | cons q r => simpa using ih2

theorem goIndex_lastComponentOf (path : Str) :
    goIndex (stringsSplit '\\' path) (((stringsSplit '\\' path).length : Int) - 1)
      = some (lastComponentOf path) := by
  have hne := stringsSplit_ne_nil '\\' path
  have hpos := List.length_pos.mpr hne
  have h0 : (0 : Int) ≤ ((stringsSplit '\\' path).length : Int) - 1 := by omega
  have h1 : (((stringsSplit '\\' path).length : Int) - 1).toNat
      = (stringsSplit '\\' path).length - 1 := by omega
  unfold goIndex lastComponentOf
  rw [if_pos h0, h1, List.get?_eq_getElem?, ← List.getLast?_eq_getElem?,
    List.getLast?_eq_getLast _ hne]
  rfl

theorem goSlice_eq (s : Str) (lo hi : Nat) (h1 : lo ≤ hi) (h2 : hi ≤ s.length) :
    goSlice s lo hi = some ((s.take hi).drop lo) := by
  unfold goSlice
  rw [if_pos ⟨by omega, by omega, by omega⟩]
  simp

theorem getExtensionType_png (path : Str) :
    getExtensionType path = .PNG ↔ ".png".toList <:+ path := by
  unfold getExtensionType hasSuffix
  simp only [List.isSuffixOf_iff_suffix]
  constructor
  · intro h
    split at h
    · cases h
    · split at h
      · cases h
      · split at h
        · assumption
        · cases h
  · intro h
    have hj : ¬ ".json".toList <:+ path := fun hj =>
      absurd (List.suffix_of_suffix_length_le h hj (by decide)) (by decide)
    have ha : ¬ ".atlas".toList <:+ path := fun ha =>
      absurd (List.suffix_of_suffix_length_le h ha (by decide)) (by decide)
    rw [if_neg hj, if_neg ha, if_pos h]

/-- A string that starts with `icon_skill_` and ends with `.png` has at least 15 bytes:
the two cannot overlap. -/
theorem length_ge_of_icon_png (l : Str) (hp : "icon_skill_".toList <+: l)
    (hs : ".png".toList <:+ l) : 15 ≤ l.length := by
  obtain ⟨t, rfl⟩ := hp
  by_contra hlt
  have ht : t.length < 4 := by
    simp only [List.length_append] at hlt
    have : "icon_skill_".toList.length = 11 := by decide
    omega
  have e1 : "icon_skill_".toList = ['i', 'c', 'o', 'n', '_', 's', 'k', 'i', 'l', 'l', '_'] := rfl
  have e2 : ".png".toList = ['.', 'p', 'n', 'g'] := rfl
  rw [List.suffix_iff_eq_drop, e1, e2] at hs
  match t, ht with
  | [], _ => simp at hs
  | [a], _ => simp at hs
  | [a, b], _ => simp at hs
  | [a, b, c], _ => simp at hs

theorem scanUnderscore_eq (s : Str) (pos : Nat) :
    scanUnderscore s pos = pos + (s.takeWhile (fun c => c != '_')).length := by
  induction s generalizing pos with
  | nil => rfl
  | cons c cs ih =>
    by_cases hc : c = '_'
    · simp [scanUnderscore, hc]
    · simp [scanUnderscore, hc, ih]
      omega

theorem length_takeWhile_lt_of_count (s : Str) (h : 0 < s.count '_') :
    (s.takeWhile (fun c => c != '_')).length < s.length := by
  induction s with
  | nil => simp at h
  | cons c cs ih =>
    by_cases hc : c = '_'
    · simp [hc]
    · have hc2 : ¬ ('_' = c) := fun e => hc e.symm
      have : 0 < cs.count '_' := by
        rw [List.count_cons] at h
        simpa [hc] using h
      simpa [hc] using ih this

theorem take_length_takeWhile (s : Str) (p : Char → Bool) :
    s.take (s.takeWhile p).length = s.takeWhile p := by
  induction s with
  | nil => rfl
  | cons c cs ih =>
    by_cases hc : p c
    · simp [List.takeWhile_cons, hc, ih]
    · simp [List.takeWhile_cons, hc]

theorem drop_length_takeWhile (s : Str) (p : Char → Bool) :
    s.drop (s.takeWhile p).length = s.dropWhile p := by
  induction s with
  | nil => rfl
  | cons c cs ih =>
    by_cases hc : p c
    · simp [List.takeWhile_cons, List.dropWhile_cons, hc, ih]
    · simp [List.takeWhile_cons, List.dropWhile_cons, hc]

/-- A string that starts with `icon_skill_` and ends with `.png` is the prefix, a middle
part and the suffix. -/
theorem icon_png_decomp (l : Str) (hp : "icon_skill_".toList <+: l)
    (hs : ".png".toList <:+ l) :
    l = "icon_skill_".toList ++ (((l.take (l.length - 4)).drop 11) ++ ".png".toList) := by
  have hlen := length_ge_of_icon_png l hp hs
  obtain ⟨u, hu⟩ := hs
  have hul : u.length = l.length - 4 := by
    have := congrArg List.length hu
    simp only [List.length_append] at this
    have e : ".png".toList.length = 4 := by decide
    omega
  have hpu : "icon_skill_".toList <+: u := by
    refine List.prefix_of_prefix_length_le hp (hu ▸ List.prefix_append u _) ?_
    have e : "icon_skill_".toList.length = 11 := by decide
    omega
  obtain ⟨r, hr⟩ := hpu
  have htake : l.take (l.length - 4) = u := by
    rw [← hul, ← hu, List.take_left]
  have hdrop : u.drop 11 = r := by
    rw [← hr]
    exact List.drop_left' (by decide)
  rw [htake, hdrop, ← List.append_assoc, hr, hu]

theorem foldlM_start_isSome (components : List Str) (l : List Nat)
    (hl : ∀ i ∈ l, i < components.length) (a : Int) :
    ∃ r, l.foldlM
        (fun (start : Int) (i : Nat) => do
          let component ← goIndex components (i : Int)
          some (start + component.length))
        a = some r := by
  induction l generalizing a with
  | nil => exact ⟨a, rfl⟩
  | cons i l ih =>
    have hi : i < components.length := hl i (List.mem_cons_self _ _)
    have hget : goIndex components (i : Int) = some (components[i]) := by
      unfold goIndex
      rw [if_pos (by omega), Int.toNat_ofNat, List.get?_eq_getElem?, List.getElem?_eq_getElem hi]
    obtain ⟨r, hr⟩ := ih (fun j hj => hl j (List.mem_cons_of_mem _ hj))
      (a + (components[i]).length)
    refine ⟨r, ?_⟩
    rw [List.foldlM_cons, hget]
    exact hr

/-- The trailing loop of `skillFromPath` never indexes out of range. -/
theorem startOffset_isSome (components : List Str) :
    ∃ start, startOffset components = some start := by
  obtain ⟨r, hr⟩ := foldlM_start_isSome components (List.range (components.length - 2))
    (fun i hi => by have := List.mem_range.mp hi; omega) 0
  exact ⟨_, by rw [startOffset, hr]; rfl⟩

theorem skillFromPath_undefined (path : Str)
    (h : (stringsSplit '\\' path).length < 2 ∨ ¬ ".png".toList <:+ path) :
    skillFromPath path = some ([], none, some (.errorsNew "undefined path".toList)) := by
  have h2 : (stringsSplit '\\' path).length < 2 ∨ getExtensionType path ≠ .PNG := by
    rw [Ne, getExtensionType_png]; exact h
  unfold skillFromPath
  simp only [if_pos h2]

/-- The run of `skillFromPath` past its first two checks. -/
theorem skillFromPath_core (path : Str) (hA : 2 ≤ (stringsSplit '\\' path).length)
    (hpng : ".png".toList <:+ path)
    (hpre : "icon_skill_".toList <+: lastComponentOf path)
    (hcount : (lastComponentOf path).count '_' = 3) :
    skillFromPath path =
      if skillIdText path = [] then some ([], none, some (.errorsNew "wrong format".toList))
      else
        match atoi (skillNumberText path) with
        | .error err => some ([], none, some err)
        | .ok n => some (skillIdText path, some { Number := n, AbsolutePath := path }, none) := by
  have h2 : ¬ ((stringsSplit '\\' path).length < 2 ∨ getExtensionType path ≠ .PNG) := by
    rintro (h | h)
    · omega
    · exact h ((getExtensionType_png path).mpr hpng)
  have h3 : ¬ (¬ hasPrefix (lastComponentOf path) "icon_skill_".toList = true
      ∨ stringsCount (lastComponentOf path) '_' ≠ 3) := by
    rintro (h | h)
    · exact h (List.isPrefixOf_iff_prefix.mpr hpre)
    · exact h hcount
  have hsuf : ".png".toList <:+ lastComponentOf path :=
    suffix_lastComponentOf _ (by decide) path hpng
  have hlen := length_ge_of_icon_png _ hpre hsuf
  unfold skillFromPath
  simp only [if_neg h2, goIndex_lastComponentOf, Option.bind_eq_bind, Option.some_bind, if_neg h3]
  have hdec := icon_png_decomp _ hpre hsuf
  have e1 : goSlice (lastComponentOf path) 11 (((lastComponentOf path).length : Int) - 4)
      = some (skillRemainder path) := by
    have t1 : (((lastComponentOf path).length : Int) - 4).toNat
        = (lastComponentOf path).length - 4 := by omega
    unfold goSlice
    rw [if_pos ⟨by omega, by omega, by omega⟩, t1]
    rfl
  have hc1 : 0 < (skillRemainder path).count '_' := by
    have hc := hcount
    rw [hdec, List.count_append, List.count_append] at hc
    have c1 : "icon_skill_".toList.count '_' = 2 := by decide
    have c2 : ".png".toList.count '_' = 0 := by decide
    change _ + ((skillRemainder path).count '_' + _) = 3 at hc
    omega
  have hlt := length_takeWhile_lt_of_count _ hc1
  rw [e1, Option.some_bind, scanUnderscore_eq, Nat.zero_add]
  change (if (skillIdText path).length = 0 then _ else _) = _
  by_cases hid : skillIdText path = []
  · rw [if_pos hid, if_pos (by rw [hid]; rfl)]
  · have hid2 : (skillIdText path).length ≠ 0 := fun e => hid (List.length_eq_zero.mp e)
    rw [if_neg hid, if_neg hid2]
    have e2 : goSlice (skillRemainder path) 0
        ((skillRemainder path).takeWhile (fun c => c != '_')).length
        = some (skillIdText path) := by
      have := goSlice_eq (skillRemainder path) 0
        ((skillRemainder path).takeWhile (fun c => c != '_')).length (Nat.zero_le _)
        (Nat.le_of_lt hlt)
      rw [List.drop_zero, take_length_takeWhile] at this
      exact this
    have e3 : goSlice (skillRemainder path)
        ((((skillRemainder path).takeWhile (fun c => c != '_')).length : Int) + 1)
        (skillRemainder path).length = some (skillNumberText path) := by
      have := goSlice_eq (skillRemainder path)
        (((skillRemainder path).takeWhile (fun c => c != '_')).length + 1)
        (skillRemainder path).length hlt (Nat.le_refl _)
      rw [List.take_length, ← List.drop_drop, drop_length_takeWhile] at this
      exact this
    rw [e2, Option.some_bind, e3, Option.some_bind]
    cases atoi (skillNumberText path) with
    | error err => rfl
    | ok n =>
      obtain ⟨start, hstart⟩ := startOffset_isSome (stringsSplit '\\' path)
      simp only [hstart, Option.some_bind]

/-! ## Lemmas on `strconv.Atoi` -/

theorem digitVal_of_digit (c : Char) (h : isDecimalDigit c = true) :
    digitVal c = some (c.toNat - 48) := by
  simp only [isDecimalDigit, decide_eq_true_eq] at h
  unfold digitVal
  rw [if_pos (by simpa using h)]
  rfl

theorem digitVal_of_not_digit (c : Char) (h : isDecimalDigit c = false) :
    digitVal c = none := by
  simp only [isDecimalDigit, decide_eq_false_iff_not] at h
  unfold digitVal
  rw [if_neg (by simpa using h)]

theorem le_foldl_decimal (s : Str) (n : Nat) :
    n ≤ s.foldl (fun n c => n * 10 + (c.toNat - 48)) n := by
  induction s generalizing n with
  | nil => exact Nat.le_refl n
  | cons c cs ih =>
    rw [List.foldl_cons]
    exact Nat.le_trans (by omega) (ih _)

theorem parseUintLoop_digits (s : Str) (n : Nat) (hn : n < 2 ^ 64)
    (h : s.all isDecimalDigit = true) :
    parseUintLoop s n =
      if s.foldl (fun n c => n * 10 + (c.toNat - 48)) n < 2 ^ 64
      then .ok (s.foldl (fun n c => n * 10 + (c.toNat - 48)) n)
      else .error .errRange := by
  induction s generalizing n with
  | nil => rw [parseUintLoop, List.foldl_nil, if_pos hn]
  | cons c cs ih =>
    rw [List.all_cons, Bool.and_eq_true] at h
    rw [parseUintLoop, digitVal_of_digit c h.1, List.foldl_cons]
    by_cases hr : 2 ^ 64 ≤ n * 10 + (c.toNat - 48)
    · have := le_foldl_decimal cs (n * 10 + (c.toNat - 48))
      simp only [if_pos hr]
      rw [if_neg (by omega)]
    · simp only [if_neg hr]
      exact ih _ (by omega) h.2

theorem parseUintLoop_not_digits (s : Str) (n : Nat) (h : s.all isDecimalDigit = false) :
    ∃ k, parseUintLoop s n = .error k := by
  induction s generalizing n with
  | nil => simp at h
  | cons c cs ih =>
    rw [parseUintLoop]
    cases hc : isDecimalDigit c with
    | false => rw [digitVal_of_not_digit c hc]; exact ⟨_, rfl⟩
    | true =>
      rw [digitVal_of_digit c hc]
      rw [List.all_cons, hc, Bool.true_and] at h
      by_cases hr : 2 ^ 64 ≤ n * 10 + (c.toNat - 48)
      · simp only [if_pos hr]; exact ⟨_, rfl⟩
      · simp only [if_neg hr]; exact ih _ h

theorem parseUint_digits (s : Str) (h : isDigitString s = true) :
    parseUint s = if decimalValue s < 2 ^ 64 then .ok (decimalValue s) else .error .errRange := by
  simp only [isDigitString, Bool.and_eq_true, decide_eq_true_eq] at h
  unfold parseUint
  rw [if_neg h.1]
  exact parseUintLoop_digits s 0 (by norm_num) h.2

theorem parseUint_not_digits (s : Str) (h : isDigitString s = false) :
    ∃ k, parseUint s = .error k := by
  unfold parseUint
  by_cases hs : s = []
  · rw [if_pos hs]; exact ⟨_, rfl⟩
  · rw [if_neg hs]
    refine parseUintLoop_not_digits s 0 ?_
    simpa [isDigitString, hs] using h

theorem parseIntSigned_ok (neg : Bool) (body : Str) (hd : isDigitString body = true)
    (hf : fitsInt (if neg then -(decimalValue body : Int) else (decimalValue body : Int)) = true) :
    parseIntSigned neg body
      = .ok (if neg then -(decimalValue body : Int) else (decimalValue body : Int)) := by
  simp only [fitsInt, decide_eq_true_eq] at hf
  unfold parseIntSigned
  cases neg with
  | false =>
    simp only [Bool.false_eq_true, if_false] at hf
    have h64 : decimalValue body < 2 ^ 64 := by omega
    rw [parseUint_digits body hd, if_pos h64]
    simp only [true_and, Bool.false_eq_true, false_and, if_false]
    rw [if_neg (by omega)]
  | true =>
    simp only [if_true] at hf
    have h64 : decimalValue body < 2 ^ 64 := by omega
    rw [parseUint_digits body hd, if_pos h64]
    simp only [Bool.true_eq_false, false_and, if_false, true_and, if_true]
    rw [if_neg (by omega)]

theorem parseIntSigned_error (neg : Bool) (body : Str)
    (h : ¬ (isDigitString body = true ∧
      fitsInt (if neg then -(decimalValue body : Int) else (decimalValue body : Int)) = true)) :
    ∃ k, parseIntSigned neg body = .error k := by
  unfold parseIntSigned
  cases hd : isDigitString body with
  | false =>
    obtain ⟨k, hk⟩ := parseUint_not_digits body hd
    rw [hk]; exact ⟨k, rfl⟩
  | true =>
    have hf : ¬ fitsInt (if neg then -(decimalValue body : Int) else (decimalValue body : Int))
        = true := fun hf => h ⟨hd, hf⟩
    simp only [fitsInt, decide_eq_true_eq] at hf
    rw [parseUint_digits body hd]
    by_cases h64 : decimalValue body < 2 ^ 64
    · rw [if_pos h64]
      cases neg with
      | false =>
        simp only [Bool.false_eq_true, if_false] at hf
        simp only [true_and, Bool.false_eq_true, false_and, if_false]
        rw [if_pos (by omega)]; exact ⟨_, rfl⟩
      | true =>
        simp only [if_true] at hf
        simp only [Bool.true_eq_false, false_and, if_false, true_and]
        rw [if_pos (by omega)]; exact ⟨_, rfl⟩
    · rw [if_neg h64]; exact ⟨_, rfl⟩

/-- Shape of `parseInt`, `isDecimalInteger` and `decimalIntegerValue` on a non-empty
string: all three read the same sign and the same digits. -/
theorem signed_view (c : Char) (cs : Str) :
    ∃ (neg : Bool) (body : Str),
      parseInt (c :: cs) = parseIntSigned neg body ∧
      isDecimalInteger (c :: cs) = isDigitString body ∧
      decimalIntegerValue (c :: cs)
        = (if neg then -(decimalValue body : Int) else (decimalValue body : Int)) := by
  by_cases hm : c = '-'
  · refine ⟨true, cs, ?_, ?_, ?_⟩
    · simp [parseInt, hm]
    · simp [isDecimalInteger, hm]
    · simp [decimalIntegerValue, hm]
  · by_cases hp : c = '+'
    · refine ⟨false, cs, ?_, ?_, ?_⟩
      · simp [parseInt, hp]
      · simp [isDecimalInteger, hp]
      · simp [decimalIntegerValue, hp]
    · refine ⟨false, c :: cs, ?_, ?_, ?_⟩
      · simp [parseInt, hm, hp]
      · simp [isDecimalInteger, hm, hp]
      · simp [decimalIntegerValue, hm, hp]

theorem atoi_ok (s : Str) (h : isIntNumeral s = true) :
    atoi s = .ok (decimalIntegerValue s) := by
  cases s with
  | nil => simp [isIntNumeral, isDecimalInteger] at h
  | cons c cs =>
    obtain ⟨neg, body, h1, h2, h3⟩ := signed_view c cs
    simp only [isIntNumeral, Bool.and_eq_true] at h
    rw [h2, h3] at h
    unfold atoi
    rw [h1, parseIntSigned_ok neg body h.1 h.2, h3]

theorem atoi_error (s : Str) (h : isIntNumeral s = false) :
    ∃ k, atoi s = .error (.numError "Atoi".toList s k) := by
  cases s with
  | nil => exact ⟨.errSyntax, rfl⟩
  | cons c cs =>
    obtain ⟨neg, body, h1, h2, h3⟩ := signed_view c cs
    have hn : ¬ (isDigitString body = true ∧
        fitsInt (if neg then -(decimalValue body : Int) else (decimalValue body : Int)) = true) := by
      intro hh
      rw [← h2, ← h3] at hh
      simp [isIntNumeral, hh.1, hh.2] at h
    obtain ⟨k, hk⟩ := parseIntSigned_error neg body hn
    refine ⟨k, ?_⟩
    unfold atoi
    rw [h1, hk]

theorem not_mem_of_all_digits (s : Str) (h : s.all isDecimalDigit = true) (c : Char)
    (hc : isDecimalDigit c = false) : c ∉ s := by
  intro hmem
  have := List.all_eq_true.mp h c hmem
  rw [hc] at this
  cases this

theorem isIntNumeral_of_digits (n : Str) (hn : isDigitString n = true)
    (hr : decimalValue n < 2 ^ 63) :
    isIntNumeral n = true ∧ decimalIntegerValue n = (decimalValue n : Int) := by
  have hn2 := hn
  simp only [isDigitString, Bool.and_eq_true, decide_eq_true_eq] at hn2
  cases n with
  | nil => exact absurd rfl hn2.1
  | cons c cs =>
    have hm : c ≠ '-' := fun e =>
      not_mem_of_all_digits _ hn2.2 '-' (by decide) (by simp [e])
    have hp : c ≠ '+' := fun e =>
      not_mem_of_all_digits _ hn2.2 '+' (by decide) (by simp [e])
    have hv : decimalIntegerValue (c :: cs) = (decimalValue (c :: cs) : Int) := by
      simp [decimalIntegerValue, hm, hp]
    refine ⟨?_, hv⟩
    have hd : isDecimalInteger (c :: cs) = true := by
      simp only [isDecimalInteger, hm, hp, or_self, if_false]
      exact hn
    have hf : fitsInt (decimalIntegerValue (c :: cs)) = true := by
      rw [hv]
      simp only [fitsInt, decide_eq_true_eq]
      omega
    simp [isIntNumeral, hd, hf]

theorem takeWhile_underscore_append (a b : Str) (h : '_' ∉ a) :
    (a ++ '_' :: b).takeWhile (fun c => c != '_') = a := by
  induction a with
  | nil => simp
  | cons c cs ih =>
    have hc : c ≠ '_' := fun e => h (by simp [e])
    have hcs : '_' ∉ cs := fun e => h (by simp [e])
    simp [List.takeWhile_cons, hc, ih hcs]

theorem dropWhile_underscore_append (a b : Str) (h : '_' ∉ a) :
    (a ++ '_' :: b).dropWhile (fun c => c != '_') = '_' :: b := by
  induction a with
  | nil => simp
  | cons c cs ih =>
    have hc : c ≠ '_' := fun e => h (by simp [e])
    have hcs : '_' ∉ cs := fun e => h (by simp [e])
    simp [List.dropWhile_cons, hc, ih hcs]

/-- The classifier's view of a path `D\icon_skill_<id>_<n>.png`. -/
theorem skillPath_view (D id n : Str) (hid_ : '_' ∉ id) (hidb : '\\' ∉ id)
    (hn : n.all isDecimalDigit = true) :
    2 ≤ (stringsSplit '\\' (skillPath D id n)).length ∧
    ".png".toList <:+ skillPath D id n ∧
    "icon_skill_".toList <+: lastComponentOf (skillPath D id n) ∧
    (lastComponentOf (skillPath D id n)).count '_' = 3 ∧
    skillIdText (skillPath D id n) = id ∧
    skillNumberText (skillPath D id n) = n := by
  have hnb : '\\' ∉ n := not_mem_of_all_digits n hn _ (by decide)
  have hn_ : '_' ∉ n := not_mem_of_all_digits n hn _ (by decide)
  have hp : skillPath D id n
      = D ++ '\\' :: ("icon_skill_".toList ++ ((id ++ '_' :: n) ++ ".png".toList)) := by
    simp [skillPath]
  have hnot : '\\' ∉ "icon_skill_".toList ++ ((id ++ '_' :: n) ++ ".png".toList) := by
    simp only [List.mem_append, List.mem_cons, not_or]
    exact ⟨by decide, ⟨hidb, by decide, hnb⟩, by decide⟩
  have hlast : lastComponentOf (skillPath D id n)
      = "icon_skill_".toList ++ ((id ++ '_' :: n) ++ ".png".toList) := by
    rw [hp]; exact lastComponentOf_append_sep _ _ hnot
  have hpre : "icon_skill_".toList <+: lastComponentOf (skillPath D id n) := by
    rw [hlast]; exact List.prefix_append _ _
  have hsuf : ".png".toList <:+ lastComponentOf (skillPath D id n) := by
    rw [hlast, ← List.append_assoc]; exact List.suffix_append _ _
  have hrem : skillRemainder (skillPath D id n) = id ++ '_' :: n := by
    have hdec := icon_png_decomp _ hpre hsuf
    rw [hlast] at hdec
    rw [skillRemainder, hlast]
    exact (List.append_cancel_right (List.append_cancel_left hdec)).symm
  refine ⟨?_, ?_, hpre, ?_, ?_, ?_⟩
  · rw [hp]; exact length_stringsSplit_append_sep _ _ _
  · unfold skillPath; exact List.suffix_append _ _
  · rw [hlast]
    simp only [List.count_append, List.count_cons, List.count_eq_zero_of_not_mem hid_,
      List.count_eq_zero_of_not_mem hn_]
    rfl
  · rw [skillIdText, hrem, takeWhile_underscore_append _ _ hid_]
  · rw [skillNumberText, hrem, dropWhile_underscore_append _ _ hid_]
    rfl

/-! ## Lemmas on `skinFromPath` -/

theorem foldl_scanComponents (components : List Str) (h0 s0 : Str) :
    components.foldl
      (fun st component =>
        ((if hasPrefix component "hero_".toList && stringsCount component '_' == 2
          then component else st.1),
         (if hasPrefix component "Skin".toList && decide (component.length > 4)
          then component else st.2)))
      (h0, s0)
    = (((components.filter isHeroComponent).getLast?).getD h0,
       ((components.filter isSkinComponent).getLast?).getD s0) := by
  induction components generalizing h0 s0 with
  | nil => rfl
  | cons c cs ih =>
    rw [List.foldl_cons, ih]
    have e1 : (hasPrefix c "hero_".toList && stringsCount c '_' == 2) = isHeroComponent c := rfl
    have e2 : (hasPrefix c "Skin".toList && decide (c.length > 4)) = isSkinComponent c := rfl
    rw [e1, e2]
    cases hh : isHeroComponent c <;> cases hs : isSkinComponent c <;>
      simp [List.filter_cons, hh, hs, List.getLast?_cons]

theorem scanComponents_eq (path : Str) :
    scanComponents (stringsSplit '\\' path)
      = ((heroComponentOf path).getD [], (skinComponentOf path).getD []) :=
  foldl_scanComponents _ [] []

theorem isHeroComponent_of_heroComponentOf (path hero : Str)
    (h : heroComponentOf path = some hero) : isHeroComponent hero = true := by
  have := List.mem_of_getLast?_eq_some h
  exact (List.mem_filter.mp this).2

theorem isSkinComponent_of_skinComponentOf (path skin : Str)
    (h : skinComponentOf path = some skin) : isSkinComponent skin = true := by
  have := List.mem_of_getLast?_eq_some h
  exact (List.mem_filter.mp this).2

theorem head?_dropWhile_underscore (s : Str) (h : 0 < s.count '_') :
    (s.dropWhile (fun c => c != '_')).head? = some '_' := by
  induction s with
  | nil => simp at h
  | cons c cs ih =>
    by_cases hc : c = '_'
    · simp [hc]
    · have : 0 < cs.count '_' := by
        rw [List.count_cons] at h
        simpa [hc] using h
      simpa [List.dropWhile_cons, hc] using ih this

/-- The two underscore scans of `skinFromPath` on a component `hero_` ++ `t` in which `t`
holds an underscore. -/
theorem hero_scan (t : Str) (ht : 0 < t.count '_') :
    scanUnderscore ("hero_".toList ++ t) 0 = 4 ∧
    scanUnderscore (("hero_".toList ++ t).drop (4 + 1)) (4 + 1)
      = 5 + (t.takeWhile (fun c => c != '_')).length ∧
    5 + (t.takeWhile (fun c => c != '_')).length < ("hero_".toList ++ t).length ∧
    goIndex ("hero_".toList ++ t) ((4 : Nat) : Int) = some '_' ∧
    goIndex ("hero_".toList ++ t) ((5 + (t.takeWhile (fun c => c != '_')).length : Nat) : Int)
      = some '_' ∧
    goSlice ("hero_".toList ++ t) (((4 : Nat) : Int) + 1)
      ((5 + (t.takeWhile (fun c => c != '_')).length : Nat) : Int)
      = some (t.takeWhile (fun c => c != '_')) := by
  have e : "hero_".toList ++ t = 'h' :: 'e' :: 'r' :: 'o' :: '_' :: t := rfl
  have hlt := length_takeWhile_lt_of_count t ht
  rw [e]
  refine ⟨by simp [scanUnderscore], ?_, ?_, by simp [goIndex], ?_, ?_⟩
  · simp only [List.drop_succ_cons, List.drop_zero, scanUnderscore_eq]
  · simp only [List.length_cons]; omega
  · unfold goIndex
    rw [if_pos (by omega), Int.toNat_ofNat, List.get?_eq_getElem?, Nat.add_comm]
    simp only [List.getElem?_cons_succ]
    rw [← List.head?_drop, drop_length_takeWhile]
    exact head?_dropWhile_underscore t ht
  · have := goSlice_eq ('h' :: 'e' :: 'r' :: 'o' :: '_' :: t) 5
      (5 + (t.takeWhile (fun c => c != '_')).length) (by omega)
      (by simp only [List.length_cons]; omega)
    rw [List.drop_take, Nat.add_sub_cancel_left] at this
    simp only [List.drop_succ_cons, List.drop_zero, take_length_takeWhile] at this
    exact this

theorem extension_suffix (path : Str) (h : getExtensionType path ≠ .UNDEFINED) :
    ('.' :: extensionText (getExtensionType path)) <:+ path ∧
    ((extensionText (getExtensionType path)).length : Int)
      = (getExtensionType path).toInt + 3 := by
  unfold getExtensionType hasSuffix at h ⊢
  simp only [List.isSuffixOf_iff_suffix] at h ⊢
  by_cases hj : ".json".toList <:+ path
  · rw [if_pos hj]; exact ⟨hj, rfl⟩
  · rw [if_neg hj] at h ⊢
    by_cases ha : ".atlas".toList <:+ path
    · rw [if_pos ha]; exact ⟨ha, rfl⟩
    · rw [if_neg ha] at h ⊢
      by_cases hp : ".png".toList <:+ path
      · rw [if_pos hp]; exact ⟨hp, rfl⟩
      · rw [if_neg hp] at h; exact absurd rfl h

/-- The two slices that cut the last component into file name and extension. -/
theorem file_slices (u x : Str) (e : Int) (hx : (x.length : Int) = e + 3) :
    goSlice (u ++ '.' :: x) 0 (((u ++ '.' :: x).length : Int) - e - 4) = some u ∧
    goSlice (u ++ '.' :: x) ((u.length : Int) + 1) (u ++ '.' :: x).length = some x := by
  have hl : (u ++ '.' :: x).length = u.length + (x.length + 1) := by simp
  constructor
  · have e1 : (((u ++ '.' :: x).length : Int) - e - 4) = ((u.length : Nat) : Int) := by
      rw [hl]; push_cast; omega
    rw [e1]
    have := goSlice_eq (u ++ '.' :: x) 0 u.length (Nat.zero_le _) (by omega)
    rw [List.drop_zero, List.take_left] at this
    exact this
  · have := goSlice_eq (u ++ '.' :: x) (u.length + 1) (u ++ '.' :: x).length (by omega)
      (Nat.le_refl _)
    rw [List.take_length, ← List.drop_drop, List.drop_left] at this
    exact this

/-- The run of `skinFromPath` past its two "undefined path" checks: what is returned is
decided by `strconv.Atoi` on the text after `Skin`. -/
theorem skinFromPath_core (path hero skin : Str)
    (hlen : 3 ≤ (stringsSplit '\\' path).length)
    (hext : getExtensionType path ≠ .UNDEFINED)
    (hh : heroComponentOf path = some hero) (hs : skinComponentOf path = some skin) :
    ∃ fileName : Str,
      lastComponentOf path = fileName ++ '.' :: extensionText (getExtensionType path) ∧
      skinFromPath path =
        match atoi (skin.drop 4) with
        | .error _ =>
          some ([], none, some (.errorsNew
            "wrong format: can't convert skin number, folder should be in form 'SkinX'".toList))
        | .ok n =>
          some (heroIdText hero,
            some { Number := n, AbsolutePath := path, FileName := fileName,
                   FileExtension := extensionText (getExtensionType path) },
            none) := by
  obtain ⟨hsfx, hxl⟩ := extension_suffix path hext
  have hnb : '\\' ∉ '.' :: extensionText (getExtensionType path) := by
    cases getExtensionType path <;> decide
  obtain ⟨fileName, hfile⟩ := suffix_lastComponentOf _ hnb path hsfx
  refine ⟨fileName, hfile.symm, ?_⟩
  have hhero := isHeroComponent_of_heroComponentOf path hero hh
  have hskin := isSkinComponent_of_skinComponentOf path skin hs
  simp only [isHeroComponent, Bool.and_eq_true, List.isPrefixOf_iff_prefix, beq_iff_eq] at hhero
  simp only [isSkinComponent, Bool.and_eq_true, decide_eq_true_eq] at hskin
  obtain ⟨⟨t, ht⟩, hcount⟩ := hhero
  have htc : 0 < t.count '_' := by
    rw [← ht, List.count_append] at hcount
    have c1 : "hero_".toList.count '_' = 1 := by decide
    omega
  obtain ⟨hi, hj, hjlt, hci, hcj, hid⟩ := hero_scan t htc
  have h1 : ¬ ((stringsSplit '\\' path).length < 3 ∨ getExtensionType path = .UNDEFINED) := by
    rintro (h | h)
    · omega
    · exact hext h
  have hne1 : hero ≠ [] := by rw [← ht]; simp
  have hne2 : skin ≠ [] := by
    intro e; rw [e] at hskin; simp at hskin
  have h2 : ¬ (hero = [] ∨ skin = []) := by
    rintro (h | h)
    · exact hne1 h
    · exact hne2 h
  have hnum : goSlice skin 4 skin.length = some (skin.drop 4) := by
    have := goSlice_eq skin 4 skin.length (by omega) (Nat.le_refl _)
    rw [List.take_length] at this
    exact this
  have hidt : heroIdText hero = t.takeWhile (fun c => c != '_') := by
    rw [heroIdText, ← ht]; rfl
  obtain ⟨hf1, hf2⟩ := file_slices fileName _ _ hxl
  rw [hfile] at hf1 hf2
  unfold skinFromPath
  simp only [if_neg h1, scanComponents_eq, hh, hs, Option.getD_some, if_neg h2]
  rw [← ht, hi, hj]
  have h3 : ¬ (4 ≥ ("hero_".toList ++ t).length ∨
      5 + (t.takeWhile (fun c => c != '_')).length ≥ ("hero_".toList ++ t).length) := by
    omega
  rw [if_neg h3, hci]
  simp only [Option.bind_eq_bind, Option.some_bind, ne_eq, not_true_eq_false, if_false, hcj, hid,
    hnum, hidt]
  cases atoi (skin.drop 4) with
  | error e => rfl
  | ok n =>
    simp only [goIndex_lastComponentOf, Option.some_bind, hf1, hf2]
    rfl

/-! ## Case analyses of the two classifiers -/

theorem skillFromPath_wrong_prefix (path : Str) (hA : 2 ≤ (stringsSplit '\\' path).length)
    (hpng : ".png".toList <:+ path)
    (hB : ¬ "icon_skill_".toList <+: lastComponentOf path ∨
      (lastComponentOf path).count '_' ≠ 3) :
    skillFromPath path = some ([], none, some (.errorsNew "wrong format".toList)) := by
  have h2 : ¬ ((stringsSplit '\\' path).length < 2 ∨ getExtensionType path ≠ .PNG) := by
    rintro (h | h)
    · omega
    · exact h ((getExtensionType_png path).mpr hpng)
  have h3 : ¬ hasPrefix (lastComponentOf path) "icon_skill_".toList = true
      ∨ stringsCount (lastComponentOf path) '_' ≠ 3 := by
    rcases hB with h | h
    · exact Or.inl (fun hp => h (List.isPrefixOf_iff_prefix.mp hp))
    · exact Or.inr h
  unfold skillFromPath
  simp only [if_neg h2, goIndex_lastComponentOf, Option.bind_eq_bind, Option.some_bind, if_pos h3]

/-- Every run of `skillFromPath` is one of four: the two `errors.New` failures, the
`strconv.Atoi` failure, or success. -/
theorem skillFromPath_cases (path : Str) :
    (((stringsSplit '\\' path).length < 2 ∨ ¬ ".png".toList <:+ path) ∧
      skillFromPath path = some ([], none, some (.errorsNew "undefined path".toList))) ∨
    (¬ ((stringsSplit '\\' path).length < 2 ∨ ¬ ".png".toList <:+ path) ∧
      (¬ "icon_skill_".toList <+: lastComponentOf path ∨
        (lastComponentOf path).count '_' ≠ 3 ∨ skillIdText path = []) ∧
      skillFromPath path = some ([], none, some (.errorsNew "wrong format".toList))) ∨
    (¬ ((stringsSplit '\\' path).length < 2 ∨ ¬ ".png".toList <:+ path) ∧
      ¬ (¬ "icon_skill_".toList <+: lastComponentOf path ∨
        (lastComponentOf path).count '_' ≠ 3 ∨ skillIdText path = []) ∧
      isIntNumeral (skillNumberText path) = false ∧
      ∃ k, skillFromPath path
        = some ([], none, some (.numError "Atoi".toList (skillNumberText path) k))) ∨
    (¬ ((stringsSplit '\\' path).length < 2 ∨ ¬ ".png".toList <:+ path) ∧
      ¬ (¬ "icon_skill_".toList <+: lastComponentOf path ∨
        (lastComponentOf path).count '_' ≠ 3 ∨ skillIdText path = []) ∧
      isIntNumeral (skillNumberText path) = true ∧
      skillFromPath path
        = some (skillIdText path,
            some { Number := decimalIntegerValue (skillNumberText path), AbsolutePath := path },
            none)) := by
  by_cases hA : (stringsSplit '\\' path).length < 2 ∨ ¬ ".png".toList <:+ path
  · exact Or.inl ⟨hA, skillFromPath_undefined path hA⟩
  · have hlen : 2 ≤ (stringsSplit '\\' path).length := by
      by_contra h; exact hA (Or.inl (by omega))
    have hpng : ".png".toList <:+ path := by
      by_contra h; exact hA (Or.inr h)
    by_cases hB1 : ¬ "icon_skill_".toList <+: lastComponentOf path ∨
        (lastComponentOf path).count '_' ≠ 3
    · refine Or.inr (Or.inl ⟨hA, ?_, skillFromPath_wrong_prefix path hlen hpng hB1⟩)
      rcases hB1 with h | h
      · exact Or.inl h
      · exact Or.inr (Or.inl h)
    · have hpre : "icon_skill_".toList <+: lastComponentOf path := by
        by_contra h; exact hB1 (Or.inl h)
      have hcount : (lastComponentOf path).count '_' = 3 := by
        by_contra h; exact hB1 (Or.inr h)
      have hcore := skillFromPath_core path hlen hpng hpre hcount
      by_cases hid : skillIdText path = []
      · rw [if_pos hid] at hcore
        exact Or.inr (Or.inl ⟨hA, Or.inr (Or.inr hid), hcore⟩)
      · rw [if_neg hid] at hcore
        have hB : ¬ (¬ "icon_skill_".toList <+: lastComponentOf path ∨
            (lastComponentOf path).count '_' ≠ 3 ∨ skillIdText path = []) := by
          rintro (h | h | h)
          · exact h hpre
          · exact h hcount
          · exact hid h
        cases hN : isIntNumeral (skillNumberText path) with
        | false =>
          obtain ⟨k, hk⟩ := atoi_error _ hN
          rw [hk] at hcore
          exact Or.inr (Or.inr (Or.inl ⟨hA, hB, rfl, k, hcore⟩))
        | true =>
          rw [atoi_ok _ hN] at hcore
          exact Or.inr (Or.inr (Or.inr ⟨hA, hB, rfl, hcore⟩))

theorem skinFromPath_undefined (path : Str)
    (h : (stringsSplit '\\' path).length < 3 ∨ getExtensionType path = .UNDEFINED ∨
      heroComponentOf path = none ∨ skinComponentOf path = none) :
    skinFromPath path = some ([], none, some (.errorsNew "undefined path".toList)) := by
  unfold skinFromPath
  by_cases h1 : (stringsSplit '\\' path).length < 3 ∨ getExtensionType path = .UNDEFINED
  · simp only [if_pos h1]
  · have h2 : (heroComponentOf path).getD [] = [] ∨ (skinComponentOf path).getD [] = [] := by
      rcases h with h | h | h | h
      · exact absurd (Or.inl h) h1
      · exact absurd (Or.inr h) h1
      · exact Or.inl (by rw [h]; rfl)
      · exact Or.inr (by rw [h]; rfl)
    simp only [if_neg h1, scanComponents_eq, if_pos h2]

/-- Every run of `skinFromPath` is one of three: "undefined path", the skin number that
does not convert, or success. -/
theorem skinFromPath_cases (path : Str) :
    (((stringsSplit '\\' path).length < 3 ∨ getExtensionType path = .UNDEFINED ∨
        heroComponentOf path = none ∨ skinComponentOf path = none) ∧
      skinFromPath path = some ([], none, some (.errorsNew "undefined path".toList))) ∨
    (∃ hero skin fileName,
      3 ≤ (stringsSplit '\\' path).length ∧ getExtensionType path ≠ .UNDEFINED ∧
      heroComponentOf path = some hero ∧ skinComponentOf path = some skin ∧
      lastComponentOf path = fileName ++ '.' :: extensionText (getExtensionType path) ∧
      ((isIntNumeral (skin.drop 4) = false ∧
        skinFromPath path = some ([], none, some (.errorsNew
          "wrong format: can't convert skin number, folder should be in form 'SkinX'".toList))) ∨
       (isIntNumeral (skin.drop 4) = true ∧
        skinFromPath path = some (heroIdText hero,
          some { Number := decimalIntegerValue (skin.drop 4), AbsolutePath := path,
                 FileName := fileName,
                 FileExtension := extensionText (getExtensionType path) },
          none)))) := by
  by_cases hA : (stringsSplit '\\' path).length < 3 ∨ getExtensionType path = .UNDEFINED ∨
      heroComponentOf path = none ∨ skinComponentOf path = none
  · exact Or.inl ⟨hA, skinFromPath_undefined path hA⟩
  · right
    have hlen : 3 ≤ (stringsSplit '\\' path).length := by
      by_contra h; exact hA (Or.inl (by omega))
    have hext : getExtensionType path ≠ .UNDEFINED := fun h => hA (Or.inr (Or.inl h))
    cases hh : heroComponentOf path with
    | none => exact absurd (Or.inr (Or.inr (Or.inl hh))) hA
    | some hero =>
      cases hs : skinComponentOf path with
      | none => exact absurd (Or.inr (Or.inr (Or.inr hs))) hA
      | some skin =>
        obtain ⟨fileName, hfile, hcore⟩ := skinFromPath_core path hero skin hlen hext hh hs
        refine ⟨hero, skin, fileName, hlen, hext, rfl, rfl, hfile, ?_⟩
        cases hN : isIntNumeral (skin.drop 4) with
        | false =>
          obtain ⟨k, hk⟩ := atoi_error _ hN
          rw [hk] at hcore
          exact Or.inl ⟨rfl, hcore⟩
        | true =>
          rw [atoi_ok _ hN] at hcore
          exact Or.inr ⟨rfl, hcore⟩

/-! ## Claims on `skillFromPath` -/

/-- C1: for every path `D + "\\" + "icon_skill_" + id + "_" + n + ".png"`, where `id` is
non-empty and holds no underscore and no backslash and `n` is a non-empty string of decimal
digits whose value is in the `int` range, `skillFromPath` succeeds (no panic, nil error)
and returns `HeroId = id` and a `HeroSkill` with `Number` the base-10 value of `n` and
`AbsolutePath` the path itself. -/
theorem skillFromPath_valid (D id n : Str) (hid : id ≠ []) (hid_ : '_' ∉ id)
    (hidb : '\\' ∉ id) (hn : isDigitString n = true) (hr : decimalValue n < 2 ^ 63) :
    skillFromPath (skillPath D id n)
      = some (id, some { Number := (decimalValue n : Int), AbsolutePath := skillPath D id n },
          none) := by
  have hall : n.all isDecimalDigit = true := by
    simp only [isDigitString, Bool.and_eq_true] at hn
    exact hn.2
  obtain ⟨hA, hpng, hpre, hcount, hidt, hnum⟩ := skillPath_view D id n hid_ hidb hall
  obtain ⟨hint, hval⟩ := isIntNumeral_of_digits n hn hr
  rw [skillFromPath_core _ hA hpng hpre hcount, hidt, hnum, if_neg hid, atoi_ok n hint, hval]

/-- C1, the example of the specification: `C:\skill\hero_0001\icon_skill_0001_2.png`
gives hero id `0001` and skill number 2. -/
theorem skillFromPath_valid_witness :
    skillFromPath "C:\\skill\\hero_0001\\icon_skill_0001_2.png".toList
      = some ("0001".toList,
          some { Number := 2,
                 AbsolutePath := "C:\\skill\\hero_0001\\icon_skill_0001_2.png".toList },
          none) :=
  skillFromPath_valid "C:\\skill\\hero_0001".toList "0001".toList "2".toList
    (by decide) (by decide) (by decide) (by decide) (by decide)

/-! ## Claims on `skinFromPath` -/

/-- C2, as stated, fails on the code.  Both paths have at least 3 components, end in
`.json`, hold exactly one component `hero_<id>_<name>` and exactly one component
`Skin<n>` with `n` a non-empty digit string, and both are rejected: in the first the file
name `SkinFoo.json` also starts with `Skin`, is longer than 4 bytes and comes last, so it
is the component whose tail goes to `strconv.Atoi`; in the second the value of `n` does
not fit an `int`. -/
theorem skinFromPath_valid_counterexample :
    (3 ≤ (stringsSplit '\\' "C:\\hero_0001_Aurora\\Skin3\\SkinFoo.json".toList).length ∧
     getExtensionType "C:\\hero_0001_Aurora\\Skin3\\SkinFoo.json".toList = .JSON ∧
     (stringsSplit '\\' "C:\\hero_0001_Aurora\\Skin3\\SkinFoo.json".toList).filter
        isHeroComponent = ["hero_0001_Aurora".toList] ∧
     (stringsSplit '\\' "C:\\hero_0001_Aurora\\Skin3\\SkinFoo.json".toList).filter
        isSkinDigitsComponent = ["Skin3".toList] ∧
     skinFromPath "C:\\hero_0001_Aurora\\Skin3\\SkinFoo.json".toList
       = some ([], none, some (.errorsNew
          "wrong format: can't convert skin number, folder should be in form 'SkinX'".toList))) ∧
    (3 ≤ (stringsSplit '\\' "C:\\hero_1_A\\Skin99999999999999999999\\a.json".toList).length ∧
     getExtensionType "C:\\hero_1_A\\Skin99999999999999999999\\a.json".toList = .JSON ∧
     (stringsSplit '\\' "C:\\hero_1_A\\Skin99999999999999999999\\a.json".toList).filter
        isHeroComponent = ["hero_1_A".toList] ∧
     (stringsSplit '\\' "C:\\hero_1_A\\Skin99999999999999999999\\a.json".toList).filter
        isSkinDigitsComponent = ["Skin99999999999999999999".toList] ∧
     skinFromPath "C:\\hero_1_A\\Skin99999999999999999999\\a.json".toList
       = some ([], none, some (.errorsNew
          "wrong format: can't convert skin number, folder should be in form 'SkinX'".toList))) := by
  decide

theorem getLast?_filter_of_split {α : Type} (p : α → Bool) (l pre post : List α) (x : α)
    (hl : l = pre ++ x :: post) (hx : p x = true) (hpost : ∀ c ∈ post, p c = false) :
    (l.filter p).getLast? = some x := by
  have hnil : post.filter p = [] := by
    rw [List.filter_eq_nil_iff]
    intro c hc
    rw [hpost c hc]
    exact Bool.false_ne_true
  rw [hl, List.filter_append, List.filter_cons, if_pos hx, hnil, List.getLast?_append]
  rfl

/-- C2, amended: for every skin path with at least 3 backslash-separated components whose
extension is `.json`, `.atlas` or `.png`, which holds exactly one component of the form
`hero_<id>_<name>` (prefix `hero_`, exactly two underscores) and exactly one component of
the form `Skin<n>` (`Skin` followed by a non-empty string of decimal digits `n`), where
the value of `n` is in the `int` range and no component after `Skin<n>` starts with `Skin`
and is longer than 4 bytes, `skinFromPath` succeeds and returns `HeroId = id` and
`Skin.Number` the base-10 value of `n`. -/
theorem skinFromPath_valid (path id name n : Str) (pre post : List Str)
    (hlen : 3 ≤ (stringsSplit '\\' path).length)
    (hext : getExtensionType path ≠ .UNDEFINED)
    (hhero : (stringsSplit '\\' path).filter isHeroComponent
      = ["hero_".toList ++ id ++ "_".toList ++ name])
    (hskin : (stringsSplit '\\' path).filter isSkinDigitsComponent = ["Skin".toList ++ n])
    (hsplit : stringsSplit '\\' path = pre ++ ("Skin".toList ++ n) :: post)
    (hpost : ∀ c ∈ post, isSkinComponent c = false)
    (hr : decimalValue n < 2 ^ 63) :
    ∃ skin : Skin, skinFromPath path = some (id, some skin, none) ∧
      skin.Number = (decimalValue n : Int) ∧ skin.AbsolutePath = path := by
  have hdrop : ("Skin".toList ++ n).drop 4 = n := List.drop_left' (by decide)
  have hn : isDigitString n = true := by
    have hmem : "Skin".toList ++ n ∈ (stringsSplit '\\' path).filter isSkinDigitsComponent := by
      rw [hskin]; exact List.mem_singleton.mpr rfl
    have hp := (List.mem_filter.mp hmem).2
    unfold isSkinDigitsComponent at hp
    rw [hdrop, Bool.and_eq_true] at hp
    exact hp.2
  have hnne : n ≠ [] := by
    simp only [isDigitString, Bool.and_eq_true, decide_eq_true_eq] at hn
    exact hn.1
  have hskinPat : isSkinComponent ("Skin".toList ++ n) = true := by
    have hlen4 : 4 < ("Skin".toList ++ n).length := by
      rw [List.length_append]
      have e : "Skin".toList.length = 4 := by decide
      have := List.length_pos.mpr hnne
      omega
    unfold isSkinComponent
    rw [Bool.and_eq_true]
    exact ⟨List.isPrefixOf_iff_prefix.mpr (List.prefix_append _ _), decide_eq_true hlen4⟩
  have hh : heroComponentOf path = some ("hero_".toList ++ id ++ "_".toList ++ name) := by
    rw [heroComponentOf, hhero]; rfl
  have hs : skinComponentOf path = some ("Skin".toList ++ n) :=
    getLast?_filter_of_split _ _ pre post _ hsplit hskinPat hpost
  have hid_ : '_' ∉ id := by
    have := isHeroComponent_of_heroComponentOf path _ hh
    simp only [isHeroComponent, Bool.and_eq_true, beq_iff_eq, List.count_append] at this
    have c1 : "hero_".toList.count '_' = 1 := by decide
    have c2 : "_".toList.count '_' = 1 := by decide
    exact List.count_eq_zero.mp (by omega)
  have hidt : heroIdText ("hero_".toList ++ id ++ "_".toList ++ name) = id := by
    have e : "hero_".toList ++ id ++ "_".toList ++ name
        = 'h' :: 'e' :: 'r' :: 'o' :: '_' :: (id ++ '_' :: name) := by
      simp
    rw [heroIdText, e]
    exact takeWhile_underscore_append id name hid_
  obtain ⟨hint, hval⟩ := isIntNumeral_of_digits n hn hr
  rcases skinFromPath_cases path with ⟨hA, _⟩ | ⟨hero, skin, fileName, _, _, hh2, hs2, _, hres⟩
  · rcases hA with h | h | h | h
    · omega
    · exact absurd h hext
    · rw [hh] at h; cases h
    · rw [hs] at h; cases h
  · rw [hh] at hh2
    rw [hs] at hs2
    cases hh2
    cases hs2
    rw [hdrop] at hres
    rcases hres with ⟨hf, _⟩ | ⟨_, hres⟩
    · rw [hint] at hf; cases hf
    · rw [hidt, hval] at hres
      exact ⟨_, hres, rfl, rfl⟩

/-- C2, the example of the specification:
`C:\skin\hero_0001_Aurora\web_idle\Skin3\Aurora.json` gives hero id `0001`, skin number
3, file name `Aurora` and file extension `json`; and a path with an earlier component
that starts with `Skin`, `C:\SkinPack\hero_1_A\Skin3\a.json`, gives hero id `1` and skin
number 3. -/
theorem skinFromPath_valid_witness :
    (∃ skin : Skin,
      skinFromPath "C:\\skin\\hero_0001_Aurora\\web_idle\\Skin3\\Aurora.json".toList
        = some ("0001".toList, some skin, none) ∧
      skin.Number = (decimalValue "3".toList : Int) ∧
      skin.AbsolutePath = "C:\\skin\\hero_0001_Aurora\\web_idle\\Skin3\\Aurora.json".toList) ∧
    skinFromPath "C:\\skin\\hero_0001_Aurora\\web_idle\\Skin3\\Aurora.json".toList
      = some ("0001".toList,
          some { Number := 3,
                 AbsolutePath :=
                   "C:\\skin\\hero_0001_Aurora\\web_idle\\Skin3\\Aurora.json".toList,
                 FileName := "Aurora".toList, FileExtension := "json".toList },
          none) ∧
    (∃ skin : Skin,
      skinFromPath "C:\\SkinPack\\hero_1_A\\Skin3\\a.json".toList
        = some ("1".toList, some skin, none) ∧
      skin.Number = (decimalValue "3".toList : Int) ∧
      skin.AbsolutePath = "C:\\SkinPack\\hero_1_A\\Skin3\\a.json".toList) :=
  ⟨skinFromPath_valid "C:\\skin\\hero_0001_Aurora\\web_idle\\Skin3\\Aurora.json".toList
      "0001".toList "Aurora".toList "3".toList
      ["C:".toList, "skin".toList, "hero_0001_Aurora".toList, "web_idle".toList]
      ["Aurora.json".toList]
      (by decide) (by decide) (by decide) (by decide) (by decide) (by decide) (by decide),
   by decide,
   skinFromPath_valid "C:\\SkinPack\\hero_1_A\\Skin3\\a.json".toList
      "1".toList "A".toList "3".toList
      ["C:".toList, "SkinPack".toList, "hero_1_A".toList] ["a.json".toList]
      (by decide) (by decide) (by decide) (by decide) (by decide) (by decide) (by decide)⟩

/-! ## Absence of panics -/

/-- C3: `skillFromPath` never panics.  For every input string the run returns (every
index and slice operation is in bounds), and what it returns is either a success (a
record and a nil error) or an error (empty hero id, nil record).  In particular, on a
path that ends in `.png` a last component that starts with `icon_skill_` has at least 15
bytes, and when it also holds exactly 3 underscores the underscore scan stops at an
index strictly inside the stripped remainder. -/
theorem skillFromPath_no_panic (path : Str) :
    (∃ (id : HeroId) (rec : Option HeroSkill) (err : Option GoError),
      skillFromPath path = some (id, rec, err) ∧
      ((err = none ∧ ∃ skill, rec = some skill) ∨
       (id = [] ∧ rec = none ∧ ∃ e, err = some e))) ∧
    (".png".toList <:+ path → "icon_skill_".toList <+: lastComponentOf path →
      15 ≤ (lastComponentOf path).length) ∧
    (".png".toList <:+ path → "icon_skill_".toList <+: lastComponentOf path →
      (lastComponentOf path).count '_' = 3 →
      scanUnderscore (skillRemainder path) 0 < (skillRemainder path).length) := by
  refine ⟨?_, ?_, ?_⟩
  · rcases skillFromPath_cases path with ⟨_, h⟩ | ⟨_, _, h⟩ | ⟨_, _, _, k, h⟩ | ⟨_, _, _, h⟩
    · exact ⟨_, _, _, h, Or.inr ⟨rfl, rfl, _, rfl⟩⟩
    · exact ⟨_, _, _, h, Or.inr ⟨rfl, rfl, _, rfl⟩⟩
    · exact ⟨_, _, _, h, Or.inr ⟨rfl, rfl, _, rfl⟩⟩
    · exact ⟨_, _, _, h, Or.inl ⟨rfl, _, rfl⟩⟩
  · intro hpng hpre
    exact length_ge_of_icon_png _ hpre (suffix_lastComponentOf _ (by decide) path hpng)
  · intro hpng hpre hcount
    have hsuf := suffix_lastComponentOf _ (by decide) path hpng
    have hdec := icon_png_decomp _ hpre hsuf
    have hc1 : 0 < (skillRemainder path).count '_' := by
      have hc := hcount
      rw [hdec, List.count_append, List.count_append] at hc
      have c1 : "icon_skill_".toList.count '_' = 2 := by decide
      have c2 : ".png".toList.count '_' = 0 := by decide
      change _ + ((skillRemainder path).count '_' + _) = 3 at hc
      omega
    rw [scanUnderscore_eq, Nat.zero_add]
    exact length_takeWhile_lt_of_count _ hc1

/-- C3 at a concrete path: the shortest last component that passes both tests,
`icon_skill__.png` (16 bytes, remainder `_`): no panic, the scan stops at index 0 of a
remainder of length 1, and the result is the "wrong format" error. -/
theorem skillFromPath_no_panic_witness :
    skillFromPath "C:\\icon_skill__.png".toList
      = some ([], none, some (.errorsNew "wrong format".toList)) ∧
    (lastComponentOf "C:\\icon_skill__.png".toList).length = 16 ∧
    scanUnderscore (skillRemainder "C:\\icon_skill__.png".toList) 0 = 0 ∧
    (skillRemainder "C:\\icon_skill__.png".toList).length = 1 ∧
    scanUnderscore (skillRemainder "C:\\icon_skill__.png".toList) 0
      < (skillRemainder "C:\\icon_skill__.png".toList).length :=
  ⟨by decide, by decide, by decide, by decide,
   (skillFromPath_no_panic "C:\\icon_skill__.png".toList).2.2
     (by decide) (by decide) (by decide)⟩

/-- C4: `skinFromPath` never panics.  For every input string the run returns (every
slice operation is in bounds), and what it returns is either a success (a record and a
nil error) or an error with an empty hero id and a nil record. -/
theorem skinFromPath_no_panic (path : Str) :
    ∃ (id : HeroId) (rec : Option Skin) (err : Option GoError),
      skinFromPath path = some (id, rec, err) ∧
      ((err = none ∧ ∃ skin, rec = some skin) ∨
       (id = [] ∧ rec = none ∧ ∃ e, err = some e)) := by
  rcases skinFromPath_cases path with ⟨_, h⟩ | ⟨_, _, _, _, _, _, _, _, ⟨_, h⟩ | ⟨_, h⟩⟩
  · exact ⟨_, _, _, h, Or.inr ⟨rfl, rfl, _, rfl⟩⟩
  · exact ⟨_, _, _, h, Or.inr ⟨rfl, rfl, _, rfl⟩⟩
  · exact ⟨_, _, _, h, Or.inl ⟨rfl, _, rfl⟩⟩

/-! ## Failures of `skillFromPath` -/

/-- C5, as stated, fails on the code: in `C:\icon_skill_1_99999999999999999999.png` the
text between the underscore and `.png` is a base-10 integer (20 decimal digits), and
`skillFromPath` returns the numeric-parse error of `strconv.Atoi` (value out of range). -/
theorem skillFromPath_failures_counterexample :
    isDecimalInteger (skillNumberText "C:\\icon_skill_1_99999999999999999999.png".toList)
      = true ∧
    skillNumberText "C:\\icon_skill_1_99999999999999999999.png".toList
      = "99999999999999999999".toList ∧
    skillFromPath "C:\\icon_skill_1_99999999999999999999.png".toList
      = some ([], none,
          some (.numError "Atoi".toList "99999999999999999999".toList .errRange)) := by
  decide

/-- C5, amended: for every path, `skillFromPath` returns "undefined path" if and only if
the path has fewer than 2 backslash-separated components or does not end in `.png`;
otherwise "wrong format" if and only if the last component does not start with
`icon_skill_`, or does not hold exactly 3 underscores, or the hero id text is empty;
otherwise the numeric-parse error of `strconv.Atoi` if and only if the text between that
underscore and `.png` is not a base-10 integer (optional sign, decimal digits) whose value
fits the `int` type; otherwise it succeeds. -/
theorem skillFromPath_failures (path : Str) :
    (skillFromPath path = some ([], none, some (.errorsNew "undefined path".toList)) ↔
      ((stringsSplit '\\' path).length < 2 ∨ ¬ ".png".toList <:+ path)) ∧
    (skillFromPath path = some ([], none, some (.errorsNew "wrong format".toList)) ↔
      (¬ ((stringsSplit '\\' path).length < 2 ∨ ¬ ".png".toList <:+ path) ∧
       (¬ "icon_skill_".toList <+: lastComponentOf path ∨
         (lastComponentOf path).count '_' ≠ 3 ∨ skillIdText path = []))) ∧
    ((∃ fn num k, skillFromPath path = some ([], none, some (.numError fn num k))) ↔
      (¬ ((stringsSplit '\\' path).length < 2 ∨ ¬ ".png".toList <:+ path) ∧
       ¬ (¬ "icon_skill_".toList <+: lastComponentOf path ∨
         (lastComponentOf path).count '_' ≠ 3 ∨ skillIdText path = []) ∧
       isIntNumeral (skillNumberText path) = false)) ∧
    ((∃ id skill, skillFromPath path = some (id, some skill, none)) ↔
      (¬ ((stringsSplit '\\' path).length < 2 ∨ ¬ ".png".toList <:+ path) ∧
       ¬ (¬ "icon_skill_".toList <+: lastComponentOf path ∨
         (lastComponentOf path).count '_' ≠ 3 ∨ skillIdText path = []) ∧
       isIntNumeral (skillNumberText path) = true)) := by
  have d1 : (GoError.errorsNew "undefined path".toList) ≠ .errorsNew "wrong format".toList := by
    decide
  rcases skillFromPath_cases path with ⟨hA, h⟩ | ⟨hA, hB, h⟩ | ⟨hA, hB, hN, k, h⟩ |
      ⟨hA, hB, hN, h⟩
  · rw [h]
    refine ⟨⟨fun _ => hA, fun _ => rfl⟩, ⟨fun e => ?_, fun c => absurd hA c.1⟩,
      ⟨fun e => ?_, fun c => absurd hA c.1⟩, ⟨fun e => ?_, fun c => absurd hA c.1⟩⟩
    · simp only [Option.some.injEq, Prod.mk.injEq, true_and, GoError.errorsNew.injEq] at e
      exact absurd (congrArg GoError.errorsNew e) d1
    · obtain ⟨_, _, _, e⟩ := e
      simp at e
    · obtain ⟨_, _, e⟩ := e
      simp at e
  · rw [h]
    refine ⟨⟨fun e => ?_, fun c => absurd c hA⟩, ⟨fun _ => ⟨hA, hB⟩, fun _ => rfl⟩,
      ⟨fun e => ?_, fun c => absurd hB c.2.1⟩, ⟨fun e => ?_, fun c => absurd hB c.2.1⟩⟩
    · simp only [Option.some.injEq, Prod.mk.injEq, true_and, GoError.errorsNew.injEq] at e
      exact absurd (congrArg GoError.errorsNew e.symm) d1
    · obtain ⟨_, _, _, e⟩ := e
      simp at e
    · obtain ⟨_, _, e⟩ := e
      simp at e
  · rw [h]
    refine ⟨⟨fun e => ?_, fun c => absurd c hA⟩, ⟨fun e => ?_, fun c => absurd c.2 hB⟩,
      ⟨fun _ => ⟨hA, hB, hN⟩, fun _ => ⟨_, _, _, rfl⟩⟩,
      ⟨fun e => ?_, fun c => ?_⟩⟩
    · simp at e
    · simp at e
    · obtain ⟨_, _, e⟩ := e
      simp at e
    · rw [hN] at c; exact absurd c.2.2 (by decide)
  · rw [h]
    refine ⟨⟨fun e => ?_, fun c => absurd c hA⟩, ⟨fun e => ?_, fun c => absurd c.2 hB⟩,
      ⟨fun e => ?_, fun c => ?_⟩, ⟨fun _ => ⟨hA, hB, hN⟩, fun _ => ⟨_, _, rfl⟩⟩⟩
    · simp at e
    · simp at e
    · obtain ⟨_, _, _, e⟩ := e
      simp at e
    · rw [hN] at c; exact absurd c.2.2 (by decide)

/-! ## File name and extension of a skin -/

/-- C6: for every path on which `skinFromPath` succeeds, `FileName + "." + FileExtension`
is the last backslash-separated component of the path, and `FileExtension` is the literal
extension: `json` when the path ends in `.json`, `atlas` when it ends in `.atlas`, `png`
when it ends in `.png` (one of the three holds).  Nothing is assumed on the file name: it
may hold further dots or have an empty base name. -/
theorem skinFromPath_file_split (path : Str) (id : HeroId) (skin : Skin)
    (h : skinFromPath path = some (id, some skin, none)) :
    skin.FileName ++ ".".toList ++ skin.FileExtension = lastComponentOf path ∧
    (".json".toList <:+ path ∨ ".atlas".toList <:+ path ∨ ".png".toList <:+ path) ∧
    (".json".toList <:+ path → skin.FileExtension = "json".toList) ∧
    (".atlas".toList <:+ path → skin.FileExtension = "atlas".toList) ∧
    (".png".toList <:+ path → skin.FileExtension = "png".toList) := by
  rcases skinFromPath_cases path with ⟨_, h2⟩ |
      ⟨hero, comp, fileName, _, hext, _, _, hfile, ⟨_, h2⟩ | ⟨_, h2⟩⟩
  · rw [h2] at h; simp at h
  · rw [h2] at h; simp at h
  · rw [h2] at h
    simp only [Option.some.injEq, Prod.mk.injEq, and_true] at h
    obtain ⟨_, hskin⟩ := h
    subst hskin
    obtain ⟨hsfx, _⟩ := extension_suffix path hext
    have hj : ".json".toList <:+ path → getExtensionType path = .JSON := by
      intro hj
      unfold getExtensionType hasSuffix
      rw [if_pos (List.isSuffixOf_iff_suffix.mpr hj)]
    have ha : ".atlas".toList <:+ path → getExtensionType path = .ATLAS := by
      intro ha
      have hnj : ¬ ".json".toList <:+ path := fun hj =>
        absurd (List.suffix_of_suffix_length_le hj ha (by decide)) (by decide)
      unfold getExtensionType hasSuffix
      rw [if_neg (fun e => hnj (List.isSuffixOf_iff_suffix.mp e)),
        if_pos (List.isSuffixOf_iff_suffix.mpr ha)]
    have hp : ".png".toList <:+ path → getExtensionType path = .PNG :=
      (getExtensionType_png path).mpr
    refine ⟨?_, ?_, ?_, ?_, ?_⟩
    · rw [hfile]; simp
    · cases hty : getExtensionType path with
      | PNG => rw [hty] at hsfx; exact Or.inr (Or.inr hsfx)
      | JSON => rw [hty] at hsfx; exact Or.inl hsfx
      | ATLAS => rw [hty] at hsfx; exact Or.inr (Or.inl hsfx)
      | UNDEFINED => exact absurd hty hext
    · intro e; show extensionText (getExtensionType path) = _; rw [hj e]; rfl
    · intro e; show extensionText (getExtensionType path) = _; rw [ha e]; rfl
    · intro e; show extensionText (getExtensionType path) = _; rw [hp e]; rfl

/-- C6 at a concrete path whose file name holds a further dot:
`C:\hero_0001_Aurora\Skin3\Aurora.v2.atlas` splits into `Aurora.v2` and `atlas`. -/
theorem skinFromPath_file_split_witness :
    skinFromPath "C:\\hero_0001_Aurora\\Skin3\\Aurora.v2.atlas".toList
      = some ("0001".toList,
          some { Number := 3,
                 AbsolutePath := "C:\\hero_0001_Aurora\\Skin3\\Aurora.v2.atlas".toList,
                 FileName := "Aurora.v2".toList, FileExtension := "atlas".toList },
          none) ∧
    "Aurora.v2".toList ++ ".".toList ++ "atlas".toList
      = lastComponentOf "C:\\hero_0001_Aurora\\Skin3\\Aurora.v2.atlas".toList :=
  ⟨by decide,
   (skinFromPath_file_split "C:\\hero_0001_Aurora\\Skin3\\Aurora.v2.atlas".toList
      "0001".toList
      { Number := 3,
        AbsolutePath := "C:\\hero_0001_Aurora\\Skin3\\Aurora.v2.atlas".toList,
        FileName := "Aurora.v2".toList, FileExtension := "atlas".toList }
      (by decide)).1⟩

/-! ## The numbers a classifier returns -/

theorem one_le_foldl_decimal (s : Str) (a : Nat) (h : s.all isDecimalDigit = true) :
    1 ≤ s.foldl (fun n c => n * 10 + (c.toNat - 48)) a ↔
      (1 ≤ a ∨ s.any (fun c => decide (49 ≤ c.toNat ∧ c.toNat ≤ 57)) = true) := by
  induction s generalizing a with
  | nil => simp
  | cons c cs ih =>
    rw [List.all_cons, Bool.and_eq_true] at h
    have hc := h.1
    simp only [isDecimalDigit, decide_eq_true_eq] at hc
    rw [List.foldl_cons, ih _ h.2, List.any_cons, Bool.or_eq_true, decide_eq_true_eq]
    constructor
    · rintro (h1 | h1)
      · by_cases ha : 1 ≤ a
        · exact Or.inl ha
        · exact Or.inr (Or.inl (by omega))
      · exact Or.inr (Or.inr h1)
    · rintro (h1 | h1 | h1)
      · exact Or.inl (by omega)
      · exact Or.inl (by omega)
      · exact Or.inr h1

theorem intNumeral_facts (s : Str) (h : isIntNumeral s = true) :
    -(2 : Int) ^ 63 ≤ decimalIntegerValue s ∧ decimalIntegerValue s < (2 : Int) ^ 63 ∧
    (1 ≤ decimalIntegerValue s ↔ isPositiveNumeral s = true) := by
  simp only [isIntNumeral, Bool.and_eq_true, fitsInt, decide_eq_true_eq] at h
  obtain ⟨hd, hlo, hhi⟩ := h
  refine ⟨hlo, hhi, ?_⟩
  cases s with
  | nil => simp [isDecimalInteger] at hd
  | cons c cs =>
    by_cases hm : c = '-'
    · subst hm
      have e1 : decimalIntegerValue ('-' :: cs) = -(decimalValue cs : Int) := by
        simp [decimalIntegerValue]
      have e2 : isPositiveNumeral ('-' :: cs) = false := by
        simp [isPositiveNumeral]
      rw [e1, e2]
      constructor
      · intro h1; omega
      · intro h1; cases h1
    · by_cases hp : c = '+'
      · subst hp
        have e1 : decimalIntegerValue ('+' :: cs) = (decimalValue cs : Int) := by
          simp [decimalIntegerValue]
        have hcs : cs.all isDecimalDigit = true := by
          simp only [isDecimalInteger, true_or, if_true, isDigitString, Bool.and_eq_true] at hd
          exact hd.2
        have e2 : isPositiveNumeral ('+' :: cs)
            = cs.any (fun c => decide (49 ≤ c.toNat ∧ c.toNat ≤ 57)) := by
          have : ¬ (49 ≤ '+'.toNat ∧ '+'.toNat ≤ 57) := by decide
          simp [isPositiveNumeral, this]
        rw [e1, e2]
        have key : 1 ≤ decimalValue cs ↔
            cs.any (fun c => decide (49 ≤ c.toNat ∧ c.toNat ≤ 57)) = true := by
          have := one_le_foldl_decimal cs 0 hcs
          constructor
          · intro h1
            rcases this.mp h1 with h2 | h2
            · omega
            · exact h2
          · intro h1; exact this.mpr (Or.inr h1)
        rw [← key]
        constructor <;> intro h1 <;> omega
      · have e1 : decimalIntegerValue (c :: cs) = (decimalValue (c :: cs) : Int) := by
          simp [decimalIntegerValue, hm, hp]
        have hcs : (c :: cs).all isDecimalDigit = true := by
          simp only [isDecimalInteger, hm, hp, or_self, if_false, isDigitString,
            Bool.and_eq_true] at hd
          exact hd.2
        have e2 : isPositiveNumeral (c :: cs)
            = (c :: cs).any (fun c => decide (49 ≤ c.toNat ∧ c.toNat ≤ 57)) := by
          simp [isPositiveNumeral, hm]
        rw [e1, e2]
        have key : 1 ≤ decimalValue (c :: cs) ↔
            (c :: cs).any (fun c => decide (49 ≤ c.toNat ∧ c.toNat ≤ 57)) = true := by
          have := one_le_foldl_decimal (c :: cs) 0 hcs
          constructor
          · intro h1
            rcases this.mp h1 with h2 | h2
            · omega
            · exact h2
          · intro h1; exact this.mpr (Or.inr h1)
        rw [← key]
        constructor <;> intro h1 <;> omega

/-- C7, as stated, fails on the code: `skillFromPath` succeeds on
`C:\icon_skill_0001_0.png` with skill number 0, and `skinFromPath` succeeds on
`C:\hero_1_x\Skin-7\a.png` with skin number -7. -/
theorem numbers_positive_counterexample :
    skillFromPath "C:\\icon_skill_0001_0.png".toList
      = some ("0001".toList,
          some { Number := 0, AbsolutePath := "C:\\icon_skill_0001_0.png".toList }, none) ∧
    skinFromPath "C:\\hero_1_x\\Skin-7\\a.png".toList
      = some ("1".toList,
          some { Number := -7, AbsolutePath := "C:\\hero_1_x\\Skin-7\\a.png".toList,
                 FileName := "a".toList, FileExtension := "png".toList },
          none) := by
  decide

/-- C7, amended: skill numbers and skin numbers are integers of the `int` range, zero and
negative ones included.  For every path on which `skillFromPath` succeeds, the text
between the hero id's underscore and `.png` is a base-10 numeral (optional sign, decimal
digits), `HeroSkill.Number` is its value, between `-2^63` and `2^63 - 1`, and it is
at least 1 exactly when the numeral has no `-` sign and holds a digit from 1 to 9.  For
every path on which `skinFromPath` succeeds the same holds of `Skin.Number` and the text
after `Skin` in the last component that starts with `Skin` and is longer than 4 bytes. -/
theorem numbers_are_int_numerals (path : Str) :
    (∀ (id : HeroId) (skill : HeroSkill),
      skillFromPath path = some (id, some skill, none) →
        isIntNumeral (skillNumberText path) = true ∧
        skill.Number = decimalIntegerValue (skillNumberText path) ∧
        -(2 : Int) ^ 63 ≤ skill.Number ∧ skill.Number < (2 : Int) ^ 63 ∧
        (1 ≤ skill.Number ↔ isPositiveNumeral (skillNumberText path) = true)) ∧
    (∀ (id : HeroId) (skin : Skin),
      skinFromPath path = some (id, some skin, none) →
        ∃ comp, skinComponentOf path = some comp ∧
          isIntNumeral (comp.drop 4) = true ∧
          skin.Number = decimalIntegerValue (comp.drop 4) ∧
          -(2 : Int) ^ 63 ≤ skin.Number ∧ skin.Number < (2 : Int) ^ 63 ∧
          (1 ≤ skin.Number ↔ isPositiveNumeral (comp.drop 4) = true)) := by
  constructor
  · intro id skill h
    rcases skillFromPath_cases path with ⟨_, h2⟩ | ⟨_, _, h2⟩ | ⟨_, _, _, k, h2⟩ |
        ⟨_, _, hN, h2⟩
    · rw [h2] at h; simp at h
    · rw [h2] at h; simp at h
    · rw [h2] at h; simp at h
    · rw [h2] at h
      simp only [Option.some.injEq, Prod.mk.injEq, and_true] at h
      obtain ⟨_, hskill⟩ := h
      subst hskill
      obtain ⟨f1, f2, f3⟩ := intNumeral_facts _ hN
      exact ⟨hN, rfl, f1, f2, f3⟩
  · intro id skin h
    rcases skinFromPath_cases path with ⟨_, h2⟩ |
        ⟨hero, comp, fileName, _, _, _, hs, _, ⟨_, h2⟩ | ⟨hN, h2⟩⟩
    · rw [h2] at h; simp at h
    · rw [h2] at h; simp at h
    · rw [h2] at h
      simp only [Option.some.injEq, Prod.mk.injEq, and_true] at h
      obtain ⟨_, hskin⟩ := h
      subst hskin
      obtain ⟨f1, f2, f3⟩ := intNumeral_facts _ hN
      exact ⟨comp, hs, hN, rfl, f1, f2, f3⟩

/-- C7 at two concrete paths: skill number 2 of the specification's example is at least
1, its numeral `2` being positive; skin number -7 is not, its numeral `-7` having a `-`
sign. -/
theorem numbers_are_int_numerals_witness :
    ((1 : Int) ≤ 2 ↔
      isPositiveNumeral
        (skillNumberText "C:\\skill\\hero_0001\\icon_skill_0001_2.png".toList) = true) ∧
    (∃ comp, skinComponentOf "C:\\hero_1_x\\Skin-7\\a.png".toList = some comp ∧
      isIntNumeral (comp.drop 4) = true ∧
      (-7 : Int) = decimalIntegerValue (comp.drop 4) ∧
      -(2 : Int) ^ 63 ≤ -7 ∧ (-7 : Int) < (2 : Int) ^ 63 ∧
      ((1 : Int) ≤ -7 ↔ isPositiveNumeral (comp.drop 4) = true)) :=
  ⟨((numbers_are_int_numerals
        "C:\\skill\\hero_0001\\icon_skill_0001_2.png".toList).1 "0001".toList
      { Number := 2,
        AbsolutePath := "C:\\skill\\hero_0001\\icon_skill_0001_2.png".toList }
      (by decide)).2.2.2.2,
   (numbers_are_int_numerals "C:\\hero_1_x\\Skin-7\\a.png".toList).2 "1".toList
      { Number := -7, AbsolutePath := "C:\\hero_1_x\\Skin-7\\a.png".toList,
        FileName := "a".toList, FileExtension := "png".toList }
      (by decide)⟩

/-! ## Lemmas on Go maps -/

theorem goGet?_goSet {K V : Type} [DecidableEq K] (m : GoMap K V) (k k' : K) (v : V) :
    goGet? (goSet m k v) k' = if k = k' then some v else goGet? m k' := by
  induction m with
  | nil => simp [goSet, goGet?]
  | cons e rest ih =>
    obtain ⟨a, b⟩ := e
    by_cases hak : a = k
    · subst hak
      by_cases hk : a = k'
      · simp [goSet, goGet?, hk]
      · simp [goSet, goGet?, hk]
    · by_cases hk : k = k'
      · subst hk
        simp [goSet, goGet?, hak, ih]
      · simp [goSet, goGet?, hak, ih, hk]

theorem goGet?_foldl_goSet {K V : Type} [DecidableEq K] (es : List (K × V))
    (m : GoMap K V) (k : K) :
    goGet? (es.foldl (fun t e => goSet t e.1 e.2) m) k =
      match (es.filter (fun e => decide (e.1 = k))).getLast? with
      | some e => some e.2
      | none => goGet? m k := by
  induction es generalizing m with
  | nil => rfl
  | cons e es ih =>
    rw [List.foldl_cons, ih, List.filter_cons]
    by_cases hk : e.1 = k
    · simp only [hk, decide_True, if_true, List.getLast?_cons]
      cases (es.filter (fun e => decide (e.1 = k))).getLast? with
      | none => simp [goGet?_goSet, hk]
      | some x => rfl
    · simp only [hk, decide_False, Bool.false_eq_true, if_false]
      cases (es.filter (fun e => decide (e.1 = k))).getLast? with
      | none => simp [goGet?_goSet, hk]
      | some x => rfl

/-! ## The CSV loader -/

theorem foldl_enumFrom_rows (rows : List Str) (n : Nat) (hn : 0 < n) (m : GoMap Str Str) :
    (rows.enumFrom n).foldl
      (fun ret (ir : Nat × Str) =>
        if ir.1 = 0 then ret
        else
          if h : (stringsSplit ',' ir.2).length ≥ 2 then
            goSet ret (stringsSplit ',' ir.2)[0] (stringsSplit ',' ir.2)[1]
          else ret)
      m
    = ((rows.map (stringsSplit ',')).filterMap
        (fun columns =>
          match columns with
          | c0 :: c1 :: _ => some (c0, c1)
          | _ => none)).foldl (fun table e => goSet table e.1 e.2) m := by
  induction rows generalizing n m with
  | nil => rfl
  | cons r rs ih =>
    rw [List.enumFrom_cons, List.foldl_cons, ih (n + 1) (Nat.succ_pos n), List.map_cons,
      List.filterMap_cons]
    have hn0 : ¬ (n = 0) := by omega
    simp only [hn0, if_false]
    match hcols : stringsSplit ',' r with
    | [] => simp [hcols]
    | [c0] => simp [hcols]
    | c0 :: c1 :: rest => simp [hcols]

theorem foldl_enum_rows (rows : List Str) (hne : rows ≠ []) :
    rows.enum.foldl
      (fun ret (ir : Nat × Str) =>
        if ir.1 = 0 then ret
        else
          if h : (stringsSplit ',' ir.2).length ≥ 2 then
            goSet ret (stringsSplit ',' ir.2)[0] (stringsSplit ',' ir.2)[1]
          else ret)
      ([] : GoMap Str Str)
    = (((rows.drop 1).map (stringsSplit ',')).filterMap
        (fun columns =>
          match columns with
          | c0 :: c1 :: _ => some (c0, c1)
          | _ => none)).foldl (fun table e => goSet table e.1 e.2) [] := by
  cases rows with
  | nil => exact absurd rfl hne
  | cons r rs =>
    simp only [List.enum, List.enumFrom_cons, List.foldl_cons, if_true, List.drop_succ_cons,
      List.drop_zero]
    exact foldl_enumFrom_rows rs (0 + 1) (Nat.succ_pos 0) []

theorem getSkillId_eq_spec (text : Str) :
    getSkillId (.ok text) = .ok (csvTableSpec text) :=
  congrArg Except.ok (foldl_enum_rows _ (stringsSplit_ne_nil '\n' text))

/-- C8: for every CSV text, the table built by `getSkillId` is the table of the
specification (split on newline, discard the first line, split each remaining line on
comma, and in line order set `table[column 0] = column 1` for every line with at least 2
columns).  Consequently a key is in the table exactly when some data line has it, the
value it holds is that of the last such line, and the first line contributes nothing: the
table is the same whatever the first line is. -/
theorem getSkillId_table (text : Str) :
    getSkillId (.ok text) = .ok (csvTableSpec text) ∧
    (∀ k : Str, goGet? (csvTableSpec text) k
      = (((csvEntries text).filter (fun e => decide (e.1 = k))).getLast?).map (fun e => e.2)) ∧
    (∀ header rest : Str, '\n' ∉ header → text = header ++ '\n' :: rest →
      getSkillId (.ok text) = getSkillId (.ok ('\n' :: rest))) ∧
    ('\n' ∉ text → getSkillId (.ok text) = .ok []) := by
  refine ⟨getSkillId_eq_spec text, ?_, ?_, ?_⟩
  · intro k
    unfold csvTableSpec
    rw [goGet?_foldl_goSet]
    cases ((csvEntries text).filter (fun e => decide (e.1 = k))).getLast? <;> rfl
  · intro header rest hh ht
    have e1 : (stringsSplit '\n' text).drop 1 = stringsSplit '\n' rest := by
      rw [ht, stringsSplit_append_sep, stringsSplit_of_not_mem _ _ hh]; rfl
    have e2 : (stringsSplit '\n' ('\n' :: rest)).drop 1 = stringsSplit '\n' rest := by
      simp [stringsSplit]
    rw [getSkillId_eq_spec, getSkillId_eq_spec]
    unfold csvTableSpec csvEntries
    rw [e1, e2]
  · intro hn
    rw [getSkillId_eq_spec]
    unfold csvTableSpec csvEntries
    rw [stringsSplit_of_not_mem _ _ hn]
    rfl

/-- C8 at a concrete text: the header `0001_1,Header` leaves no entry, the line `bad` has
one column and is skipped, a third column is ignored, and of the two lines with key
`0001_1` the last one, `Ice`, is the value held. -/
theorem getSkillId_table_witness :
    getSkillId (.ok "0001_1,Header\n0001_1,Fire\n0001_2,Flame Strike,x\nbad\n0001_1,Ice".toList)
      = .ok [("0001_1".toList, "Ice".toList), ("0001_2".toList, "Flame Strike".toList)] ∧
    getSkillId (.ok "0001_1,Header\n0001_1,Fire\n0001_2,Flame Strike,x\nbad\n0001_1,Ice".toList)
      = getSkillId (.ok "\n0001_1,Fire\n0001_2,Flame Strike,x\nbad\n0001_1,Ice".toList) :=
  ⟨(getSkillId_table
      "0001_1,Header\n0001_1,Fire\n0001_2,Flame Strike,x\nbad\n0001_1,Ice".toList).1.trans
     (congrArg Except.ok (by decide)),
   (getSkillId_table
      "0001_1,Header\n0001_1,Fire\n0001_2,Flame Strike,x\nbad\n0001_1,Ice".toList).2.2.1
     "0001_1,Header".toList "0001_1,Fire\n0001_2,Flame Strike,x\nbad\n0001_1,Ice".toList
     (by decide) (by decide)⟩

/-! ## The hero spine -/

theorem heroSpineStep_sound (h : HeroId) (skins : List (Option Skin)) (m : GoMap Str Str)
    (k v : Str) (hk : goGet? (skins.foldl (heroSpineStep h) m) k = some v) :
    goGet? m k = some v ∨
      ∃ sk, some sk ∈ skins ∧ sk.FileExtension = "json".toList ∧
        k = lookupKey h sk.Number ∧ v = sk.FileName := by
  induction skins generalizing m with
  | nil => exact Or.inl hk
  | cons skin skins ih =>
    rw [List.foldl_cons] at hk
    rcases ih _ hk with h1 | ⟨sk, hmem, hj, hkey, hv⟩
    · cases skin with
      | none => exact Or.inl h1
      | some sk =>
        by_cases hj : sk.FileExtension = "json".toList
        · simp only [heroSpineStep, hj, if_true, goGet?_goSet] at h1
          by_cases hkey : lookupKey h sk.Number = k
          · rw [if_pos hkey] at h1
            exact Or.inr ⟨sk, List.mem_cons_self _ _, hj, hkey.symm,
              (Option.some.inj h1).symm⟩
          · rw [if_neg hkey] at h1
            exact Or.inl h1
        · simp only [heroSpineStep, hj, if_false] at h1
          exact Or.inl h1
    · exact Or.inr ⟨sk, List.mem_cons_of_mem _ hmem, hj, hkey, hv⟩

theorem heroSpineStep_mono (h : HeroId) (skins : List (Option Skin)) (m : GoMap Str Str)
    (k : Str) (hk : (goGet? m k).isSome = true) :
    (goGet? (skins.foldl (heroSpineStep h) m) k).isSome = true := by
  induction skins generalizing m with
  | nil => exact hk
  | cons skin skins ih =>
    rw [List.foldl_cons]
    apply ih
    cases skin with
    | none => exact hk
    | some sk =>
      by_cases hj : sk.FileExtension = "json".toList
      · simp only [heroSpineStep, hj, if_true, goGet?_goSet]
        by_cases hkey : lookupKey h sk.Number = k
        · rw [if_pos hkey]; rfl
        · rw [if_neg hkey]; exact hk
      · simp only [heroSpineStep, hj, if_false]
        exact hk

theorem heroSpineStep_complete (h : HeroId) (skins : List (Option Skin)) (m : GoMap Str Str)
    (sk : Skin) (hmem : some sk ∈ skins) (hj : sk.FileExtension = "json".toList) :
    (goGet? (skins.foldl (heroSpineStep h) m) (lookupKey h sk.Number)).isSome = true := by
  induction skins generalizing m with
  | nil => cases hmem
  | cons skin skins ih =>
    rw [List.foldl_cons]
    rcases List.mem_cons.mp hmem with heq | hin
    · subst heq
      apply heroSpineStep_mono
      simp only [heroSpineStep, hj, if_true, goGet?_goSet]
      rfl
    · exact ih _ hin

theorem heroSpine_sound (idx : SkinIndex) (m : GoMap Str Str) (k v : Str)
    (hk : goGet? (idx.foldl (fun spine entry => entry.2.foldl (heroSpineStep entry.1) spine) m) k
      = some v) :
    goGet? m k = some v ∨
      ∃ h skins sk, (h, skins) ∈ idx ∧ some sk ∈ skins ∧
        sk.FileExtension = "json".toList ∧ k = lookupKey h sk.Number ∧ v = sk.FileName := by
  induction idx generalizing m with
  | nil => exact Or.inl hk
  | cons e es ih =>
    rw [List.foldl_cons] at hk
    rcases ih _ hk with h1 | ⟨h, skins, sk, hmem, hrest⟩
    · rcases heroSpineStep_sound _ _ _ _ _ h1 with h2 | ⟨sk, hrest⟩
      · exact Or.inl h2
      · exact Or.inr ⟨e.1, e.2, sk, List.mem_cons_self _ _, hrest⟩
    · exact Or.inr ⟨h, skins, sk, List.mem_cons_of_mem _ hmem, hrest⟩

theorem heroSpine_mono (idx : SkinIndex) (m : GoMap Str Str) (k : Str)
    (hk : (goGet? m k).isSome = true) :
    (goGet? (idx.foldl (fun spine entry => entry.2.foldl (heroSpineStep entry.1) spine) m)
      k).isSome = true := by
  induction idx generalizing m with
  | nil => exact hk
  | cons e es ih =>
    rw [List.foldl_cons]
    exact ih _ (heroSpineStep_mono _ _ _ _ hk)

theorem heroSpine_complete (idx : SkinIndex) (m : GoMap Str Str) (h : HeroId)
    (skins : List (Option Skin)) (sk : Skin) (hmem : (h, skins) ∈ idx)
    (hsk : some sk ∈ skins) (hj : sk.FileExtension = "json".toList) :
    (goGet? (idx.foldl (fun spine entry => entry.2.foldl (heroSpineStep entry.1) spine) m)
      (lookupKey h sk.Number)).isSome = true := by
  induction idx generalizing m with
  | nil => cases hmem
  | cons e es ih =>
    rw [List.foldl_cons]
    rcases List.mem_cons.mp hmem with heq | hin
    · subst heq
      exact heroSpine_mono _ _ _ (heroSpineStep_complete _ _ _ sk hsk hj)
    · exact ih _ hin

/-- C9: for every `SkinIndex`, a string is a key of the `heroSpine` map exactly when it
is `<heroId>_<skinNumber>` for some skin of the index whose `FileExtension` is `json`;
so every json skin has its key, a skin with another extension contributes none, and the
value under a key is the `FileName` of a json skin with that hero id and number. -/
theorem heroSpine_keys (skinInfo : SkinIndex) :
    (∀ k : Str, (goGet? (heroSpine skinInfo) k).isSome = true ↔
      ∃ h skins sk, (h, skins) ∈ skinInfo ∧ some sk ∈ skins ∧
        sk.FileExtension = "json".toList ∧ k = lookupKey h sk.Number) ∧
    (∀ k v : Str, goGet? (heroSpine skinInfo) k = some v →
      ∃ h skins sk, (h, skins) ∈ skinInfo ∧ some sk ∈ skins ∧
        sk.FileExtension = "json".toList ∧ k = lookupKey h sk.Number ∧ v = sk.FileName) := by
  have hsound : ∀ k v : Str, goGet? (heroSpine skinInfo) k = some v →
      ∃ h skins sk, (h, skins) ∈ skinInfo ∧ some sk ∈ skins ∧
        sk.FileExtension = "json".toList ∧ k = lookupKey h sk.Number ∧ v = sk.FileName := by
    intro k v hk
    rcases heroSpine_sound skinInfo [] k v hk with h1 | h1
    · cases h1
    · exact h1
  refine ⟨fun k => ⟨fun hk => ?_, fun hk => ?_⟩, hsound⟩
  · obtain ⟨v, hv⟩ := Option.isSome_iff_exists.mp hk
    obtain ⟨h, skins, sk, h1, h2, h3, h4, _⟩ := hsound k v hv
    exact ⟨h, skins, sk, h1, h2, h3, h4⟩
  · obtain ⟨h, skins, sk, h1, h2, h3, h4⟩ := hk
    rw [h4]
    exact heroSpine_complete skinInfo [] h skins sk h1 h2 h3

/-- C9 at a concrete index: hero `0001` with a json, a png and an atlas file of skin 3
and hero `0002` with a png file only; the spine holds the one key `0001_3`, and its value
is the file name of the json skin. -/
theorem heroSpine_keys_witness :
    heroSpine
      [("0001".toList,
          [some { Number := 3, AbsolutePath := "a".toList, FileName := "Aurora".toList,
                  FileExtension := "json".toList },
           some { Number := 3, AbsolutePath := "b".toList, FileName := "Aurora".toList,
                  FileExtension := "png".toList },
           some { Number := 3, AbsolutePath := "c".toList, FileName := "Aurora".toList,
                  FileExtension := "atlas".toList }]),
       ("0002".toList,
          [some { Number := 1, AbsolutePath := "d".toList, FileName := "Bob".toList,
                  FileExtension := "png".toList }])]
      = [("0001_3".toList, "Aurora".toList)] ∧
    ∃ (h : HeroId) (skins : List (Option Skin)) (sk : Skin),
      (h, skins) ∈
        ([("0001".toList,
          [some { Number := 3, AbsolutePath := "a".toList, FileName := "Aurora".toList,
                  FileExtension := "json".toList },
           some { Number := 3, AbsolutePath := "b".toList, FileName := "Aurora".toList,
                  FileExtension := "png".toList },
           some { Number := 3, AbsolutePath := "c".toList, FileName := "Aurora".toList,
                  FileExtension := "atlas".toList }]),
         ("0002".toList,
          [some { Number := 1, AbsolutePath := "d".toList, FileName := "Bob".toList,
                  FileExtension := "png".toList }])] : SkinIndex) ∧
      some sk ∈ skins ∧ sk.FileExtension = "json".toList ∧
      "0001_3".toList = lookupKey h sk.Number ∧ "Aurora".toList = sk.FileName :=
  ⟨by decide, (heroSpine_keys _).2 "0001_3".toList "Aurora".toList (by decide)⟩

/-! ## The hero skill sequences -/

theorem hasSkillIcon_foldlM (skills : List (Option HeroSkill)) (m0 : GoMap Int Bool)
    (hnn : none ∉ skills) :
    ∃ m, skills.foldlM
        (fun m skill =>
          match skill with
          | some sk => some (goSet m sk.Number true)
          | none => none)
        m0 = some m ∧
      ∀ i, goGetD m i false = (goGetD m0 i false || hasIcon skills i) := by
  induction skills generalizing m0 with
  | nil => exact ⟨m0, rfl, fun i => by simp [hasIcon]⟩
  | cons skill rest ih =>
    cases skill with
    | none => exact absurd (List.mem_cons_self _ _) hnn
    | some sk =>
      have hrest : none ∉ rest := fun h => hnn (List.mem_cons_of_mem _ h)
      obtain ⟨m, hm, hget⟩ := ih (goSet m0 sk.Number true) hrest
      refine ⟨m, ?_, fun i => ?_⟩
      · rw [List.foldlM_cons]
        exact hm
      · rw [hget i]
        unfold goGetD
        rw [goGet?_goSet]
        by_cases hi : sk.Number = i
        · simp [hasIcon, hi]
        · simp [hasIcon, hi]

theorem hasSkillIconOf_spec (skills : List (Option HeroSkill)) (hnn : none ∉ skills) :
    ∃ m, hasSkillIconOf skills = some m ∧ ∀ i, goGetD m i false = hasIcon skills i := by
  obtain ⟨m, hm, hget⟩ := hasSkillIcon_foldlM skills [] hnn
  refine ⟨m, hm, fun i => ?_⟩
  rw [hget i]
  simp [goGetD, goGet?]

theorem skillNumberStep_heroSkill (heroId : HeroId) (skillName : GoMap Str Str)
    (icon : GoMap Int Bool) (st : SkillReport) (i : Int) :
    (skillNumberStep heroId skillName icon st i).heroSkill
      = goSet st.heroSkill heroId (goGetD st.heroSkill heroId [] ++
          [if goGetD icon i false = true then some (goGetD skillName (lookupKey heroId i) [])
           else none]) := by
  unfold skillNumberStep
  by_cases hi : goGetD icon i false = true
  · simp only [hi, if_true]
  · simp only [hi, if_false]; simp

/-- One hero's four turns: from a state with no sequence for `heroId`, the sequence is
the four entries in order, and no other hero's sequence changes. -/
theorem four_steps (heroId : HeroId) (skillName : GoMap Str Str) (icon : GoMap Int Bool)
    (st : SkillReport) (hfresh : goGet? st.heroSkill heroId = none) :
    goGet? ([1, 2, 3, 4].foldl (skillNumberStep heroId skillName icon) st).heroSkill heroId
      = some ([1, 2, 3, 4].map (fun i : Int =>
          if goGetD icon i false = true then some (goGetD skillName (lookupKey heroId i) [])
          else none)) ∧
    ∀ h, h ≠ heroId →
      goGet? ([1, 2, 3, 4].foldl (skillNumberStep heroId skillName icon) st).heroSkill h
        = goGet? st.heroSkill h := by
  constructor
  · simp only [List.foldl_cons, List.foldl_nil, skillNumberStep_heroSkill, goGetD, goGet?_goSet,
      if_true, hfresh, Option.getD_some, Option.getD_none, List.map_cons, List.map_nil,
      List.nil_append, List.cons_append]
  · intro h hne
    have hne2 : ¬ (heroId = h) := fun e => hne e.symm
    simp only [List.foldl_cons, List.foldl_nil, skillNumberStep_heroSkill, goGet?_goSet,
      if_neg hne2]

theorem heroSkillLoop_spec (idx : SkillIndex) (skillName : GoMap Str Str) (st : SkillReport)
    (hnodup : (idx.map Prod.fst).Nodup) (hnn : ∀ e ∈ idx, none ∉ e.2)
    (hfresh : ∀ e ∈ idx, goGet? st.heroSkill e.1 = none) :
    ∃ st', idx.foldlM
        (fun st entry => do
          let hasSkillIcon ← hasSkillIconOf entry.2
          some ([1, 2, 3, 4].foldl (skillNumberStep entry.1 skillName hasSkillIcon) st))
        st = some st' ∧
      (∀ e ∈ idx, goGet? st'.heroSkill e.1
        = some ([1, 2, 3, 4].map (heroSkillEntry e.2 skillName e.1))) ∧
      (∀ h, h ∉ idx.map Prod.fst → goGet? st'.heroSkill h = goGet? st.heroSkill h) := by
  induction idx generalizing st with
  | nil => exact ⟨st, rfl, fun e he => absurd he (List.not_mem_nil e), fun _ _ => rfl⟩
  | cons e es ih =>
    obtain ⟨icon, hicon, hget⟩ := hasSkillIconOf_spec e.2 (hnn e (List.mem_cons_self _ _))
    obtain ⟨h1, h2⟩ := four_steps e.1 skillName icon st (hfresh e (List.mem_cons_self _ _))
    rw [List.map_cons, List.nodup_cons] at hnodup
    obtain ⟨hnotin, hnd⟩ := hnodup
    have hfresh1 : ∀ e' ∈ es,
        goGet? ([1, 2, 3, 4].foldl (skillNumberStep e.1 skillName icon) st).heroSkill e'.1
          = none := by
      intro e' he'
      have hne : e'.1 ≠ e.1 := fun heq => hnotin (heq ▸ List.mem_map_of_mem Prod.fst he')
      rw [h2 _ hne]
      exact hfresh e' (List.mem_cons_of_mem _ he')
    obtain ⟨st', hfold, hall, hother⟩ :=
      ih _ hnd (fun e' he' => hnn e' (List.mem_cons_of_mem _ he')) hfresh1
    refine ⟨st', ?_, ?_, ?_⟩
    · rw [List.foldlM_cons, hicon]
      exact hfold
    · intro e' he'
      rcases List.mem_cons.mp he' with heq | hin
      · subst heq
        rw [hother _ hnotin, h1]
        simp only [hget]
        rfl
      · exact hall e' hin
    · intro h hh
      rw [List.map_cons, List.mem_cons, not_or] at hh
      rw [hother h hh.2, h2 h hh.1]

/-- C10, as stated, fails on the code.  Hero `0001` has an icon for skill 1 only and the
table has a name for `0001_2` only: the entry at index 1 is the nil marker although the
table has the name `Flame Strike` for `0001_2`, and the entry at index 0 is the empty
string, not the nil marker, although the table has no name for `0001_1`. -/
theorem heroSkill_entries_counterexample :
    goGet? [("0001_2".toList, "Flame Strike".toList)] "0001_2".toList
      = some "Flame Strike".toList ∧
    goGet? [("0001_2".toList, "Flame Strike".toList)] "0001_1".toList = none ∧
    heroSkillLoop
      [("0001".toList, [some { Number := 1, AbsolutePath := "a".toList }])]
      [("0001_2".toList, "Flame Strike".toList)]
      = some { heroSkill := [("0001".toList, [some [], none, none, none])],
               wrongSynchronizedData := ["0001".toList, "0001".toList] } := by
  decide

/-- C10, amended: for every `SkillIndex` (a map: no hero twice; no nil record) and
skill-name table, the loop returns, and for every hero of the index and every skill
number `n` in 1..4 the entry at index `n-1` of that hero's sequence in `heroSkill` is the
table's value for `<heroId>_<n>` (the empty string when the table has none) when the hero
has an icon with `Number = n`, and the nil marker otherwise. -/
theorem heroSkill_entries (skillInfo : SkillIndex) (skillName : GoMap Str Str)
    (hnodup : (skillInfo.map Prod.fst).Nodup) (hnn : ∀ e ∈ skillInfo, none ∉ e.2) :
    ∃ report, heroSkillLoop skillInfo skillName = some report ∧
      ∀ heroId skills, (heroId, skills) ∈ skillInfo → ∀ n : Nat, 1 ≤ n → n ≤ 4 →
        (goGetD report.heroSkill heroId [])[n - 1]?
          = some (heroSkillEntry skills skillName heroId (n : Int)) := by
  obtain ⟨st', hfold, hall, _⟩ :=
    heroSkillLoop_spec skillInfo skillName { heroSkill := [], wrongSynchronizedData := [] }
      hnodup hnn (fun _ _ => rfl)
  refine ⟨st', hfold, ?_⟩
  intro heroId skills hmem n h1 h4
  have := hall (heroId, skills) hmem
  simp only at this
  unfold goGetD
  rw [this]
  have hn : n = 1 ∨ n = 2 ∨ n = 3 ∨ n = 4 := by omega
  rcases hn with rfl | rfl | rfl | rfl <;> rfl

/-- C10 at a concrete index and table: hero `0001` has icons 1 and 3, the table names
`0001_1` and `0001_2`; the sequence is `Fire`, nil, the empty string, nil. -/
theorem heroSkill_entries_witness :
    ∃ report,
      heroSkillLoop
        [("0001".toList, [some { Number := 1, AbsolutePath := "a".toList },
                          some { Number := 3, AbsolutePath := "b".toList }])]
        [("0001_1".toList, "Fire".toList), ("0001_2".toList, "Flame Strike".toList)]
        = some report ∧
      ∀ heroId skills,
        (heroId, skills) ∈
          ([("0001".toList, [some { Number := 1, AbsolutePath := "a".toList },
                             some { Number := 3, AbsolutePath := "b".toList }])] : SkillIndex) →
        ∀ n : Nat, 1 ≤ n → n ≤ 4 →
          (goGetD report.heroSkill heroId [])[n - 1]?
            = some (heroSkillEntry skills
                [("0001_1".toList, "Fire".toList), ("0001_2".toList, "Flame Strike".toList)]
                heroId (n : Int)) :=
  heroSkill_entries
    [("0001".toList, [some { Number := 1, AbsolutePath := "a".toList },
                      some { Number := 3, AbsolutePath := "b".toList }])]
    [("0001_1".toList, "Fire".toList), ("0001_2".toList, "Flame Strike".toList)]
    (by decide) (by decide)

/-! ## The wrong-synchronized-data list and the keys of `heroSkill` -/

theorem goGetD_ne_nil_iff (skillName : GoMap Str Str) (key : Str) :
    goGetD skillName key [] ≠ [] ↔ namePresent skillName key = true := by
  unfold goGetD namePresent
  cases goGet? skillName key with
  | none => simp
  | some name => simp

theorem skillNumberStep_wrong (heroId : HeroId) (skillName : GoMap Str Str)
    (icon : GoMap Int Bool) (st : SkillReport) (i : Int) :
    (skillNumberStep heroId skillName icon st i).wrongSynchronizedData
      = st.wrongSynchronizedData ++
          (if (goGetD icon i false != namePresent skillName (lookupKey heroId i)) = true
           then [heroId] else []) := by
  have hname := goGetD_ne_nil_iff skillName (lookupKey heroId i)
  unfold skillNumberStep
  by_cases hi : goGetD icon i false = true
  · by_cases hv : goGetD skillName (lookupKey heroId i) [] = []
    · have hp : namePresent skillName (lookupKey heroId i) = false := by
        cases h : namePresent skillName (lookupKey heroId i) with
        | false => rfl
        | true => exact absurd hv (hname.mpr h)
      simp [hi, hv, hp]
    · have hp : namePresent skillName (lookupKey heroId i) = true := hname.mp hv
      simp [hi, hv, hp]
  · have hi2 : goGetD icon i false = false := by
      cases h : goGetD icon i false with
      | false => rfl
      | true => exact absurd h hi
    by_cases hv : goGetD skillName (lookupKey heroId i) [] = []
    · have hp : namePresent skillName (lookupKey heroId i) = false := by
        cases h : namePresent skillName (lookupKey heroId i) with
        | false => rfl
        | true => exact absurd hv (hname.mpr h)
      simp [hi2, hv, hp]
    · have hp : namePresent skillName (lookupKey heroId i) = true := hname.mp hv
      simp [hi2, hv, hp]

theorem foldl_skillNumberStep_wrong (heroId : HeroId) (skillName : GoMap Str Str)
    (icon : GoMap Int Bool) (ns : List Int) (st : SkillReport) :
    (ns.foldl (skillNumberStep heroId skillName icon) st).wrongSynchronizedData
      = st.wrongSynchronizedData ++
          List.replicate
            (ns.filter (fun i =>
              goGetD icon i false != namePresent skillName (lookupKey heroId i))).length
            heroId := by
  induction ns generalizing st with
  | nil => simp
  | cons n ns ih =>
    rw [List.foldl_cons, ih, skillNumberStep_wrong, List.filter_cons]
    by_cases hm : (goGetD icon n false != namePresent skillName (lookupKey heroId n)) = true
    · simp only [hm, if_true, List.length_cons, List.replicate_succ, List.append_assoc,
        List.singleton_append]
    · simp only [hm, if_false, List.append_nil, Bool.false_eq_true]

theorem heroSkillLoop_wrong (idx : SkillIndex) (skillName : GoMap Str Str) (st : SkillReport)
    (hnodup : (idx.map Prod.fst).Nodup) (hnn : ∀ e ∈ idx, none ∉ e.2) :
    ∃ st', idx.foldlM
        (fun st entry => do
          let hasSkillIcon ← hasSkillIconOf entry.2
          some ([1, 2, 3, 4].foldl (skillNumberStep entry.1 skillName hasSkillIcon) st))
        st = some st' ∧
      (∀ e ∈ idx, st'.wrongSynchronizedData.count e.1
        = st.wrongSynchronizedData.count e.1 + (mismatchNumbers e.2 skillName e.1).length) ∧
      (∀ h, h ∉ idx.map Prod.fst →
        st'.wrongSynchronizedData.count h = st.wrongSynchronizedData.count h) := by
  induction idx generalizing st with
  | nil => exact ⟨st, rfl, fun e he => absurd he (List.not_mem_nil e), fun _ _ => rfl⟩
  | cons e es ih =>
    obtain ⟨icon, hicon, hget⟩ := hasSkillIconOf_spec e.2 (hnn e (List.mem_cons_self _ _))
    have hw := foldl_skillNumberStep_wrong e.1 skillName icon [1, 2, 3, 4] st
    simp only [hget] at hw
    rw [List.map_cons, List.nodup_cons] at hnodup
    obtain ⟨hnotin, hnd⟩ := hnodup
    obtain ⟨st', hfold, hall, hother⟩ :=
      ih ([1, 2, 3, 4].foldl (skillNumberStep e.1 skillName icon) st) hnd
        (fun e' he' => hnn e' (List.mem_cons_of_mem _ he'))
    refine ⟨st', ?_, ?_, ?_⟩
    · rw [List.foldlM_cons, hicon]
      exact hfold
    · intro e' he'
      rcases List.mem_cons.mp he' with heq | hin
      · subst heq
        rw [hother _ hnotin, hw, List.count_append, List.count_replicate_self]
        rfl
      · have hne : e'.1 ≠ e.1 := fun heq => hnotin (heq ▸ List.mem_map_of_mem Prod.fst hin)
        rw [hall e' hin, hw, List.count_append, List.count_replicate]
        have : ¬ ((e.1 == e'.1) = true) := by
          simpa using fun h => hne h.symm
        simp only [this, if_false, Nat.add_zero, Bool.false_eq_true]
    · intro h hh
      rw [List.map_cons, List.mem_cons, not_or] at hh
      rw [hother h hh.2, hw, List.count_append, List.count_replicate]
      have : ¬ ((e.1 == h) = true) := by
        simpa using fun h' => hh.1 h'.symm
      simp only [this, if_false, Nat.add_zero, Bool.false_eq_true]

/-- C11: for every `SkillIndex` (a map: no hero twice; no nil record) and skill-name
table, the loop returns, and for every hero `h` of the index the number of occurrences of
`h` in the wrong-synchronized-data list is the number of skill numbers `n` in 1..4 for
which icon presence (`h` has a `HeroSkill` with `Number = n`) differs from name presence
(the table has a non-empty name for `<h>_<n>`); in particular `h` does not occur when the
two agree on every `n` in 1..4. -/
theorem wrongSynchronizedData_count (skillInfo : SkillIndex) (skillName : GoMap Str Str)
    (hnodup : (skillInfo.map Prod.fst).Nodup) (hnn : ∀ e ∈ skillInfo, none ∉ e.2) :
    ∃ report, heroSkillLoop skillInfo skillName = some report ∧
      ∀ heroId skills, (heroId, skills) ∈ skillInfo →
        report.wrongSynchronizedData.count heroId
          = (mismatchNumbers skills skillName heroId).length ∧
        ((∀ n ∈ ([1, 2, 3, 4] : List Int),
            hasIcon skills n = namePresent skillName (lookupKey heroId n)) →
          heroId ∉ report.wrongSynchronizedData) := by
  obtain ⟨st', hfold, hall, _⟩ :=
    heroSkillLoop_wrong skillInfo skillName { heroSkill := [], wrongSynchronizedData := [] }
      hnodup hnn
  refine ⟨st', hfold, ?_⟩
  intro heroId skills hmem
  have hc := hall (heroId, skills) hmem
  simp only [List.count_nil, Nat.zero_add] at hc
  refine ⟨hc, fun hagree => ?_⟩
  have hnil : mismatchNumbers skills skillName heroId = [] := by
    unfold mismatchNumbers
    rw [List.filter_eq_nil_iff]
    intro n hn
    rw [hagree n hn]
    simp
  rw [hnil] at hc
  exact List.count_eq_zero.mp hc

/-- C11 at a concrete index and table: hero `0001` has icons 1 and 3, the table names
`0001_1` and `0001_2`; numbers 2 and 3 disagree and `0001` is listed twice. -/
theorem wrongSynchronizedData_count_witness :
    heroSkillLoop
      [("0001".toList, [some { Number := 1, AbsolutePath := "a".toList },
                        some { Number := 3, AbsolutePath := "b".toList }])]
      [("0001_1".toList, "Fire".toList), ("0001_2".toList, "Flame Strike".toList)]
      = some { heroSkill :=
                 [("0001".toList, [some "Fire".toList, none, some [], none])],
               wrongSynchronizedData := ["0001".toList, "0001".toList] } ∧
    mismatchNumbers
      [some { Number := 1, AbsolutePath := "a".toList },
       some { Number := 3, AbsolutePath := "b".toList }]
      [("0001_1".toList, "Fire".toList), ("0001_2".toList, "Flame Strike".toList)]
      "0001".toList = [2, 3] ∧
    ∃ report,
      heroSkillLoop
        [("0001".toList, [some { Number := 1, AbsolutePath := "a".toList },
                          some { Number := 3, AbsolutePath := "b".toList }])]
        [("0001_1".toList, "Fire".toList), ("0001_2".toList, "Flame Strike".toList)]
        = some report ∧
      ∀ heroId skills,
        (heroId, skills) ∈
          ([("0001".toList, [some { Number := 1, AbsolutePath := "a".toList },
                             some { Number := 3, AbsolutePath := "b".toList }])] : SkillIndex) →
        report.wrongSynchronizedData.count heroId
          = (mismatchNumbers skills
              [("0001_1".toList, "Fire".toList), ("0001_2".toList, "Flame Strike".toList)]
              heroId).length ∧
        ((∀ n ∈ ([1, 2, 3, 4] : List Int),
            hasIcon skills n
              = namePresent
                  [("0001_1".toList, "Fire".toList), ("0001_2".toList, "Flame Strike".toList)]
                  (lookupKey heroId n)) →
          heroId ∉ report.wrongSynchronizedData) :=
  ⟨by decide, by decide,
   wrongSynchronizedData_count
    [("0001".toList, [some { Number := 1, AbsolutePath := "a".toList },
                      some { Number := 3, AbsolutePath := "b".toList }])]
    [("0001_1".toList, "Fire".toList), ("0001_2".toList, "Flame Strike".toList)]
    (by decide) (by decide)⟩

/-- C13: for every `SkillIndex` (a map: no hero twice; no nil record) and skill-name
table, the loop returns, the keys of the `heroSkill` map are exactly the hero ids of the
index, and every value is a sequence of exactly 4 entries, whatever the number of skills
of the hero and whatever numbers they carry. -/
theorem heroSkill_keys (skillInfo : SkillIndex) (skillName : GoMap Str Str)
    (hnodup : (skillInfo.map Prod.fst).Nodup) (hnn : ∀ e ∈ skillInfo, none ∉ e.2) :
    ∃ report, heroSkillLoop skillInfo skillName = some report ∧
      (∀ h, (goGet? report.heroSkill h).isSome = true ↔ h ∈ skillInfo.map Prod.fst) ∧
      (∀ h seq, goGet? report.heroSkill h = some seq → seq.length = 4) := by
  obtain ⟨st', hfold, hall, hother⟩ :=
    heroSkillLoop_spec skillInfo skillName { heroSkill := [], wrongSynchronizedData := [] }
      hnodup hnn (fun _ _ => rfl)
  have hkeys : ∀ h, (goGet? st'.heroSkill h).isSome = true ↔ h ∈ skillInfo.map Prod.fst := by
    intro h
    constructor
    · intro hs
      by_contra hnot
      rw [hother h hnot] at hs
      cases hs
    · intro hin
      obtain ⟨e, he, rfl⟩ := List.mem_map.mp hin
      rw [hall e he]
      rfl
  refine ⟨st', hfold, hkeys, ?_⟩
  intro h seq hseq
  have hin : h ∈ skillInfo.map Prod.fst := (hkeys h).mp (by rw [hseq]; rfl)
  obtain ⟨e, he, rfl⟩ := List.mem_map.mp hin
  rw [hall e he] at hseq
  rw [← Option.some.inj hseq]
  rfl

/-- C13 at a concrete index: hero `0001` with six skill records (numbers 1, 1, 7, 9, 0
and -2) and hero `0002` with none; both get a sequence of 4 entries. -/
theorem heroSkill_keys_witness :
    heroSkillLoop
      [("0001".toList, [some { Number := 1, AbsolutePath := "a".toList },
                        some { Number := 1, AbsolutePath := "b".toList },
                        some { Number := 7, AbsolutePath := "c".toList },
                        some { Number := 9, AbsolutePath := "d".toList },
                        some { Number := 0, AbsolutePath := "e".toList },
                        some { Number := -2, AbsolutePath := "f".toList }]),
       ("0002".toList, [])]
      []
      = some { heroSkill :=
                 [("0001".toList, [some [], none, none, none]),
                  ("0002".toList, [none, none, none, none])],
               wrongSynchronizedData := ["0001".toList] } ∧
    ∃ report,
      heroSkillLoop
        [("0001".toList, [some { Number := 1, AbsolutePath := "a".toList },
                          some { Number := 1, AbsolutePath := "b".toList },
                          some { Number := 7, AbsolutePath := "c".toList },
                          some { Number := 9, AbsolutePath := "d".toList },
                          some { Number := 0, AbsolutePath := "e".toList },
                          some { Number := -2, AbsolutePath := "f".toList }]),
         ("0002".toList, [])]
        []
        = some report ∧
      (∀ h, (goGet? report.heroSkill h).isSome = true ↔
        h ∈ ([("0001".toList, [some { Number := 1, AbsolutePath := "a".toList },
                          some { Number := 1, AbsolutePath := "b".toList },
                          some { Number := 7, AbsolutePath := "c".toList },
                          some { Number := 9, AbsolutePath := "d".toList },
                          some { Number := 0, AbsolutePath := "e".toList },
                          some { Number := -2, AbsolutePath := "f".toList }]),
              ("0002".toList, [])] : SkillIndex).map Prod.fst) ∧
      (∀ h seq, goGet? report.heroSkill h = some seq → seq.length = 4) :=
  ⟨by decide,
   heroSkill_keys
    [("0001".toList, [some { Number := 1, AbsolutePath := "a".toList },
                      some { Number := 1, AbsolutePath := "b".toList },
                      some { Number := 7, AbsolutePath := "c".toList },
                      some { Number := 9, AbsolutePath := "d".toList },
                      some { Number := 0, AbsolutePath := "e".toList },
                      some { Number := -2, AbsolutePath := "f".toList }]),
     ("0002".toList, [])]
    [] (by decide) (by decide)⟩

/-! ## The classification loops -/

theorem map_fst_goSet {K V : Type} [DecidableEq K] (m : GoMap K V) (k : K) (v : V) :
    (goSet m k v).map Prod.fst
      = if k ∈ m.map Prod.fst then m.map Prod.fst else m.map Prod.fst ++ [k] := by
  induction m with
  | nil => simp [goSet]
  | cons e rest ih =>
    obtain ⟨a, b⟩ := e
    by_cases hak : a = k
    · subst hak
      simp [goSet]
    · have hka : ¬ (k = a) := fun h => hak h.symm
      simp only [goSet, if_neg hak, List.map_cons, ih, List.mem_cons, hka, false_or]
      by_cases hin : k ∈ rest.map Prod.fst
      · simp only [if_pos hin]
      · simp only [if_neg hin, List.cons_append]

theorem nodup_goSet {K V : Type} [DecidableEq K] (m : GoMap K V) (k : K) (v : V)
    (h : (m.map Prod.fst).Nodup) : ((goSet m k v).map Prod.fst).Nodup := by
  rw [map_fst_goSet]
  by_cases hin : k ∈ m.map Prod.fst
  · rw [if_pos hin]; exact h
  · rw [if_neg hin]
    exact List.Nodup.append h (List.nodup_singleton k)
      (by
        intro a ha hk
        rw [List.mem_singleton] at hk
        exact hin (hk ▸ ha))

theorem totalRecords_goSet_append {R : Type} (idx : GoMap HeroId (List (Option R)))
    (h : HeroId) (x : Option R) :
    totalRecords (goSet idx h (goGetD idx h [] ++ [x])) = totalRecords idx + 1 := by
  induction idx with
  | nil => simp [totalRecords, goSet, goGetD, goGet?]
  | cons e rest ih =>
    obtain ⟨a, b⟩ := e
    by_cases hak : a = h
    · subst hak
      simp [totalRecords, goSet, goGetD, goGet?]
      omega
    · have e1 : goGetD ((a, b) :: rest) h [] = goGetD rest h [] := by
        simp [goGetD, goGet?, hak]
      rw [e1]
      simp only [goSet, if_neg hak]
      simp only [totalRecords, List.map_cons, List.sum_cons] at ih ⊢
      rw [ih]
      omega

theorem classifyLoop_spec {R : Type} (quote : Str → Str)
    (fromPath : Str → Option (HeroId × Option R × Option GoError))
    (hf : ∀ p, ∃ r, fromPath p = some r) (paths : List Str)
    (idx0 : GoMap HeroId (List (Option R))) (unk0 : List Str)
    (hnd0 : (idx0.map Prod.fst).Nodup)
    (hne0 : ∀ h v, goGet? idx0 h = some v → v ≠ []) :
    ∃ idx unk, paths.foldlM (classifyStep quote fromPath) (idx0, unk0) = some (idx, unk) ∧
      unk = unk0 ++ paths.filterMap (failureLine quote fromPath) ∧
      (∀ h, goGetD idx h [] = goGetD idx0 h [] ++ paths.filterMap (recordFor fromPath h)) ∧
      (idx.map Prod.fst).Nodup ∧
      (∀ h v, goGet? idx h = some v → v ≠ []) ∧
      totalRecords idx + unk.length = totalRecords idx0 + unk0.length + paths.length := by
  induction paths generalizing idx0 unk0 with
  | nil => exact ⟨idx0, unk0, rfl, by simp, by simp, hnd0, hne0, by simp⟩
  | cons p ps ih =>
    obtain ⟨⟨h, r, err⟩, hr⟩ := hf p
    cases err with
    | some e =>
      have hstep : classifyStep quote fromPath (idx0, unk0) p
          = some (idx0, unk0 ++ [p ++ " (".toList ++ errorText quote e ++ ")".toList]) := by
        simp [classifyStep, hr]
      have hline : failureLine quote fromPath p
          = some (p ++ " (".toList ++ errorText quote e ++ ")".toList) := by
        simp [failureLine, hr]
      have hrec : ∀ h', recordFor fromPath h' p = none := by
        intro h'; simp [recordFor, hr]
      obtain ⟨idx, unk, hfold, hunk, hget, hnd, hne, htot⟩ := ih idx0 _ hnd0 hne0
      refine ⟨idx, unk, ?_, ?_, ?_, hnd, hne, ?_⟩
      · rw [List.foldlM_cons, hstep]; exact hfold
      · rw [hunk, List.filterMap_cons, hline, List.append_assoc]; rfl
      · intro h'
        rw [hget h', List.filterMap_cons, hrec h']
      · rw [htot, List.length_append, List.length_cons, List.length_cons, List.length_nil]
        omega
    | none =>
      have hstep : classifyStep quote fromPath (idx0, unk0) p
          = some (goSet idx0 h (goGetD idx0 h [] ++ [r]), unk0) := by
        simp [classifyStep, hr]
      have hline : failureLine quote fromPath p = none := by
        simp [failureLine, hr]
      have hrec : ∀ h', recordFor fromPath h' p = if h = h' then some r else none := by
        intro h'; simp [recordFor, hr]
      have hne1 : ∀ h' v, goGet? (goSet idx0 h (goGetD idx0 h [] ++ [r])) h' = some v →
          v ≠ [] := by
        intro h' v hv
        rw [goGet?_goSet] at hv
        by_cases hh : h = h'
        · rw [if_pos hh] at hv
          rw [← Option.some.inj hv]
          simp
        · rw [if_neg hh] at hv
          exact hne0 h' v hv
      obtain ⟨idx, unk, hfold, hunk, hget, hnd, hne, htot⟩ :=
        ih (goSet idx0 h (goGetD idx0 h [] ++ [r])) unk0 (nodup_goSet _ _ _ hnd0) hne1
      refine ⟨idx, unk, ?_, ?_, ?_, hnd, hne, ?_⟩
      · rw [List.foldlM_cons, hstep]; exact hfold
      · rw [hunk, List.filterMap_cons, hline]
      · intro h'
        rw [hget h', List.filterMap_cons, hrec h']
        by_cases hh : h = h'
        · subst hh
          simp [goGetD, goGet?_goSet]
        · simp [goGetD, goGet?_goSet, hh]
      · rw [htot, totalRecords_goSet_append, List.length_cons]
        omega

theorem skillFromPath_total (p : Str) :
    ∃ h r err, skillFromPath p = some (h, r, err) ∧
      ((err = none ∧ ∃ sk : HeroSkill, r = some sk ∧ sk.AbsolutePath = p) ∨
       ∃ e, err = some e) := by
  rcases skillFromPath_cases p with ⟨_, h⟩ | ⟨_, _, h⟩ | ⟨_, _, _, k, h⟩ | ⟨_, _, _, h⟩
  · exact ⟨_, _, _, h, Or.inr ⟨_, rfl⟩⟩
  · exact ⟨_, _, _, h, Or.inr ⟨_, rfl⟩⟩
  · exact ⟨_, _, _, h, Or.inr ⟨_, rfl⟩⟩
  · exact ⟨_, _, _, h, Or.inl ⟨rfl, _, rfl, rfl⟩⟩

theorem skinFromPath_total (p : Str) :
    ∃ h r err, skinFromPath p = some (h, r, err) ∧
      ((err = none ∧ ∃ sk : Skin, r = some sk ∧ sk.AbsolutePath = p) ∨
       ∃ e, err = some e) := by
  rcases skinFromPath_cases p with ⟨_, h⟩ | ⟨_, _, _, _, _, _, _, _, ⟨_, h⟩ | ⟨_, h⟩⟩
  · exact ⟨_, _, _, h, Or.inr ⟨_, rfl⟩⟩
  · exact ⟨_, _, _, h, Or.inr ⟨_, rfl⟩⟩
  · exact ⟨_, _, _, h, Or.inl ⟨rfl, _, rfl, rfl⟩⟩

theorem classifyLoop_partition {R : Type} (quote : Str → Str)
    (fromPath : Str → Option (HeroId × Option R × Option GoError))
    (absolutePath : R → Str)
    (hf : ∀ p, ∃ h r err, fromPath p = some (h, r, err) ∧
      ((err = none ∧ ∃ rec : R, r = some rec ∧ absolutePath rec = p) ∨ ∃ e, err = some e))
    (paths : List Str) :
    ∃ idx unk, classifyLoop quote fromPath paths = some (idx, unk) ∧
      ClassificationPartition quote fromPath absolutePath paths idx unk := by
  have hf' : ∀ p, ∃ r, fromPath p = some r := by
    intro p
    obtain ⟨h, r, err, hp, _⟩ := hf p
    exact ⟨_, hp⟩
  obtain ⟨idx, unk, hfold, hunk, hget, hnd, hne, htot⟩ :=
    classifyLoop_spec quote fromPath hf' paths [] [] List.nodup_nil
      (fun h v hv => by cases hv)
  refine ⟨idx, unk, hfold, ?_, ?_, hnd, ?_, ?_, ?_⟩
  · rw [hunk]; rfl
  · intro h
    rw [hget h]; rfl
  · intro h hs
    obtain ⟨v, hv⟩ := Option.isSome_iff_exists.mp hs
    unfold goGetD
    rw [hv]
    exact hne h v hv
  · rw [htot]
    simp [totalRecords]
  · intro p _
    obtain ⟨h, r, err, hp, hcase⟩ := hf p
    rcases hcase with ⟨herr, rec, hrec, habs⟩ | ⟨e, herr⟩
    · subst herr hrec
      refine Or.inl ⟨h, rec, ?_, ?_, habs, ?_⟩
      · simp [failureLine, hp]
      · simp [recordFor, hp]
      · intro h' hne'
        have : ¬ (h = h') := fun e => hne' e.symm
        simp [recordFor, hp, this]
    · subst herr
      refine Or.inr ⟨e, ?_, ?_⟩
      · simp [failureLine, hp]
      · intro h'
        simp [recordFor, hp]

/-- C14: for every list of walked skill paths the classification loop returns and
partitions the list: each path gives either one `HeroSkill`, with `AbsolutePath` that
path, appended under its hero id, or one report line `path + " (" + error message + ")"`,
never both and never neither; the records of `SkillIndex` and the report lines are
together as many as the paths, the report lines are those of the failing paths in walk
order, and each hero's sequence lists its records in walk order.  The same holds for the
skin paths with `SkinIndex` and the unknown-skin report.  (`quote` is `strconv.Quote`,
which the message of a `strconv.Atoi` error applies to the offending text.) -/
theorem classification_partitions (quote : Str → Str) (lstSkillPath lstSkinPath : List Str) :
    (∃ skillInfo unknownSkillPath,
      classifySkills quote lstSkillPath = some (skillInfo, unknownSkillPath) ∧
      ClassificationPartition quote skillFromPath HeroSkill.AbsolutePath lstSkillPath
        skillInfo unknownSkillPath) ∧
    (∃ skinInfo unknownSkinPath,
      classifySkins quote lstSkinPath = some (skinInfo, unknownSkinPath) ∧
      ClassificationPartition quote skinFromPath Skin.AbsolutePath lstSkinPath
        skinInfo unknownSkinPath) :=
  ⟨classifyLoop_partition quote skillFromPath HeroSkill.AbsolutePath skillFromPath_total _,
   classifyLoop_partition quote skinFromPath Skin.AbsolutePath skinFromPath_total _⟩

/-- C14 at a concrete walk of five skill paths and two skin paths: three skill records
under two heroes in walk order, two skill report lines in walk order, one skin record and
one skin report line. -/
theorem classification_partitions_witness :
    classifySkills quotePlain
      ["C:\\icon_skill_1_2.png".toList, "C:\\x.txt".toList, "C:\\icon_skill_1_x.png".toList,
       "C:\\icon_skill_0002_1.png".toList, "C:\\icon_skill_1_3.png".toList]
      = some
          ([("1".toList,
              [some { Number := 2, AbsolutePath := "C:\\icon_skill_1_2.png".toList },
               some { Number := 3, AbsolutePath := "C:\\icon_skill_1_3.png".toList }]),
            ("0002".toList,
              [some { Number := 1, AbsolutePath := "C:\\icon_skill_0002_1.png".toList }])],
           ["C:\\x.txt (undefined path)".toList,
            "C:\\icon_skill_1_x.png (strconv.Atoi: parsing \"x\": invalid syntax)".toList]) ∧
    classifySkins quotePlain
      ["C:\\hero_1_A\\Skin2\\A.json".toList, "C:\\hero_1_A\\SkinX\\A.json".toList]
      = some
          ([("1".toList,
              [some { Number := 2, AbsolutePath := "C:\\hero_1_A\\Skin2\\A.json".toList,
                      FileName := "A".toList, FileExtension := "json".toList }])],
           [("C:\\hero_1_A\\SkinX\\A.json (wrong format: can't convert skin number, " ++
             "folder should be in form 'SkinX')").toList]) ∧
    ∃ skillInfo unknownSkillPath,
      classifySkills quotePlain
        ["C:\\icon_skill_1_2.png".toList, "C:\\x.txt".toList,
         "C:\\icon_skill_1_x.png".toList, "C:\\icon_skill_0002_1.png".toList,
         "C:\\icon_skill_1_3.png".toList]
        = some (skillInfo, unknownSkillPath) ∧
      ClassificationPartition quotePlain skillFromPath HeroSkill.AbsolutePath
        ["C:\\icon_skill_1_2.png".toList, "C:\\x.txt".toList,
         "C:\\icon_skill_1_x.png".toList, "C:\\icon_skill_0002_1.png".toList,
         "C:\\icon_skill_1_3.png".toList]
        skillInfo unknownSkillPath :=
  ⟨by decide, by decide, (classification_partitions quotePlain _ []).1⟩

/-! ## A name without an icon -/

theorem mem_of_goGet? {K V : Type} [DecidableEq K] (m : GoMap K V) (k : K) (v : V)
    (h : goGet? m k = some v) : (k, v) ∈ m := by
  induction m with
  | nil => cases h
  | cons e rest ih =>
    obtain ⟨a, b⟩ := e
    by_cases hak : a = k
    · subst hak
      simp only [goGet?, if_true] at h
      rw [← Option.some.inj h]
      exact List.mem_cons_self _ _
    · simp only [goGet?, if_neg hak] at h
      exact List.mem_cons_of_mem _ (ih h)

theorem goGet?_of_mem_nodup {K V : Type} [DecidableEq K] (m : GoMap K V) (k : K) (v : V)
    (hnd : (m.map Prod.fst).Nodup) (h : (k, v) ∈ m) : goGet? m k = some v := by
  induction m with
  | nil => cases h
  | cons e rest ih =>
    obtain ⟨a, b⟩ := e
    rw [List.map_cons, List.nodup_cons] at hnd
    rcases List.mem_cons.mp h with heq | hin
    · cases heq
      simp [goGet?]
    · have hk : k ∈ rest.map Prod.fst := List.mem_map_of_mem Prod.fst hin
      have hak : a ≠ k := fun e => hnd.1 (by rw [e]; exact hk)
      simp only [goGet?, if_neg hak]
      exact ih hnd.2 hin

/-- The index the skill classification loop builds: a map with no nil record, in which
each hero's sequence is the records of its paths. -/
theorem classifySkills_index (quote : Str → Str) (paths : List Str) :
    ∃ idx unk, classifySkills quote paths = some (idx, unk) ∧
      (idx.map Prod.fst).Nodup ∧
      (∀ e ∈ idx, none ∉ e.2) ∧
      (∀ e ∈ idx, e.2 = paths.filterMap (recordFor skillFromPath e.1)) ∧
      (∀ h, paths.filterMap (recordFor skillFromPath h) ≠ [] →
        (h, paths.filterMap (recordFor skillFromPath h)) ∈ idx) := by
  obtain ⟨idx, unk, hfold, _, hget, hnd, _, _⟩ :=
    classifyLoop_spec quote skillFromPath
      (fun p => by obtain ⟨h, r, err, hp, _⟩ := skillFromPath_total p; exact ⟨_, hp⟩)
      paths [] [] List.nodup_nil (fun h v hv => by cases hv)
  have hval : ∀ e ∈ idx, e.2 = paths.filterMap (recordFor skillFromPath e.1) := by
    intro e he
    have := hget e.1
    unfold goGetD at this
    rw [goGet?_of_mem_nodup idx e.1 e.2 hnd he] at this
    exact this
  refine ⟨idx, unk, hfold, hnd, ?_, hval, ?_⟩
  · intro e he hnone
    rw [hval e he, List.mem_filterMap] at hnone
    obtain ⟨p, _, hp⟩ := hnone
    obtain ⟨h, r, err, hres, hcase⟩ := skillFromPath_total p
    unfold recordFor at hp
    rw [hres] at hp
    rcases hcase with ⟨herr, sk, hr, _⟩ | ⟨e', herr⟩
    · subst herr hr
      by_cases hh : h = e.1
      · simp [hh] at hp
      · simp [hh] at hp
    · subst herr
      simp at hp
  · intro h hne
    have := hget h
    unfold goGetD at this
    cases hg : goGet? idx h with
    | none =>
      rw [hg] at this
      exact absurd this.symm hne
    | some v =>
      rw [hg] at this
      have hv : v = paths.filterMap (recordFor skillFromPath h) := this
      rw [← hv]
      exact mem_of_goGet? idx h v hg

/-- C12, as stated, fails on the code.  In the first run the CSV has the data row
`0001_2,Flame Strike` and no skill path was walked: hero `0001` is not a key of
`SkillIndex`, the loop never visits it, and the list is empty.  In the second run the CSV
has the data row `0001_2,Flame Strike` and a later row `0001_2,` that overwrites it; hero
`0001` has the icon 1 and the name `Fire` for it, no icon 2, and the list is empty. -/
theorem name_without_icon_counterexample :
    (csvEntries "key,name\n0001_2,Flame Strike".toList
        = [("0001_2".toList, "Flame Strike".toList)] ∧
     classifySkills quotePlain [] = some ([], []) ∧
     getSkillId (.ok "key,name\n0001_2,Flame Strike".toList)
        = .ok [("0001_2".toList, "Flame Strike".toList)] ∧
     heroSkillLoop [] [("0001_2".toList, "Flame Strike".toList)]
        = some { heroSkill := [], wrongSynchronizedData := [] }) ∧
    (csvEntries "key,name\n0001_1,Fire\n0001_2,Flame Strike\n0001_2,".toList
        = [("0001_1".toList, "Fire".toList), ("0001_2".toList, "Flame Strike".toList),
           ("0001_2".toList, [])] ∧
     classifySkills quotePlain ["C:\\icon_skill_0001_1.png".toList]
        = some ([("0001".toList,
                  [some { Number := 1, AbsolutePath := "C:\\icon_skill_0001_1.png".toList }])],
                []) ∧
     getSkillId (.ok "key,name\n0001_1,Fire\n0001_2,Flame Strike\n0001_2,".toList)
        = .ok [("0001_1".toList, "Fire".toList), ("0001_2".toList, [])] ∧
     heroSkillLoop
        [("0001".toList,
          [some { Number := 1, AbsolutePath := "C:\\icon_skill_0001_1.png".toList }])]
        [("0001_1".toList, "Fire".toList), ("0001_2".toList, [])]
        = some { heroSkill := [("0001".toList, [some "Fire".toList, none, none, none])],
                 wrongSynchronizedData := [] }) :=
  ⟨⟨by decide, by decide,
    (getSkillId_eq_spec _).trans (congrArg Except.ok (by decide)), by decide⟩,
   ⟨by decide, by decide,
    (getSkillId_eq_spec _).trans (congrArg Except.ok (by decide)), by decide⟩⟩

/-- C12, amended: for every run (walked skill paths, CSV text, and order in which the
last loop visits `SkillIndex`) in which the last data row of the CSV with key `<h>_<n>`
(`n` in 1..4) has a non-empty name, hero `h` has at least one classified skill icon, and
no skill icon was classified for hero `h` with skill number `n`, the hero id `h` appears
in the wrong-synchronized-data list. -/
theorem name_without_icon_listed (quote : Str → Str) (paths : List Str) (csv : Str)
    (h : HeroId) (n : Int) (name : Str)
    (hn : n ∈ ([1, 2, 3, 4] : List Int))
    (hrow : ((csvEntries csv).filter (fun e => decide (e.1 = lookupKey h n))).getLast?
      = some (lookupKey h n, name))
    (hname : name ≠ [])
    (hhero : paths.filterMap (recordFor skillFromPath h) ≠ [])
    (hnoicon : hasIcon (paths.filterMap (recordFor skillFromPath h)) n = false) :
    ∃ skillInfo unknown skillName,
      classifySkills quote paths = some (skillInfo, unknown) ∧
      getSkillId (.ok csv) = .ok skillName ∧
      ∀ order : SkillIndex, order.Perm skillInfo →
        ∃ report, heroSkillLoop order skillName = some report ∧
          h ∈ report.wrongSynchronizedData := by
  obtain ⟨idx, unk, hcls, hnd, hnn, _, hmem⟩ := classifySkills_index quote paths
  refine ⟨idx, unk, csvTableSpec csv, hcls, getSkillId_eq_spec csv, ?_⟩
  intro order hperm
  have hnd' : (order.map Prod.fst).Nodup := (hperm.map Prod.fst).nodup_iff.mpr hnd
  have hnn' : ∀ e ∈ order, none ∉ e.2 := fun e he => hnn e (hperm.mem_iff.mp he)
  have hin : (h, paths.filterMap (recordFor skillFromPath h)) ∈ order :=
    hperm.mem_iff.mpr (hmem h hhero)
  obtain ⟨st', hfold, hall, _⟩ :=
    heroSkillLoop_wrong order (csvTableSpec csv)
      { heroSkill := [], wrongSynchronizedData := [] } hnd' hnn'
  refine ⟨st', hfold, ?_⟩
  have hc := hall _ hin
  simp only [List.count_nil, Nat.zero_add] at hc
  have hpres : namePresent (csvTableSpec csv) (lookupKey h n) = true := by
    unfold namePresent csvTableSpec
    rw [goGet?_foldl_goSet, hrow]
    exact decide_eq_true hname
  have hmis : n ∈ mismatchNumbers (paths.filterMap (recordFor skillFromPath h))
      (csvTableSpec csv) h := by
    unfold mismatchNumbers
    rw [List.mem_filter]
    refine ⟨hn, ?_⟩
    rw [hnoicon, hpres]
    rfl
  have hpos : 0 < (mismatchNumbers (paths.filterMap (recordFor skillFromPath h))
      (csvTableSpec csv) h).length := List.length_pos_of_mem hmis
  rw [← hc] at hpos
  exact List.count_pos_iff.mp hpos

/-- C12, the example of the specification completed: the CSV row `0001_2,Flame Strike`,
an icon for skill 1 of hero `0001` and none for skill 2 put `0001` in the list. -/
theorem name_without_icon_listed_witness :
    ∃ skillInfo unknown skillName,
      classifySkills quotePlain ["C:\\icon_skill_0001_1.png".toList]
        = some (skillInfo, unknown) ∧
      getSkillId (.ok "key,name\n0001_2,Flame Strike".toList) = .ok skillName ∧
      ∀ order : SkillIndex, order.Perm skillInfo →
        ∃ report, heroSkillLoop order skillName = some report ∧
          "0001".toList ∈ report.wrongSynchronizedData :=
  name_without_icon_listed quotePlain ["C:\\icon_skill_0001_1.png".toList]
    "key,name\n0001_2,Flame Strike".toList "0001".toList 2 "Flame Strike".toList
    (by decide) (by decide) (by decide) (by decide) (by decide)

/-! ## Last match wins -/

theorem getLast?_filter_split {α : Type} (p : α → Bool) (l : List α) (x : α)
    (h : (l.filter p).getLast? = some x) :
    ∃ pre post, l = pre ++ x :: post ∧ p x = true ∧ ∀ c ∈ post, p c = false := by
  induction l with
  | nil => cases h
  | cons a l ih =>
    cases hl : (l.filter p).getLast? with
    | some y =>
      have hx : x = y := by
        rw [List.filter_cons] at h
        by_cases hp : p a = true
        · rw [if_pos hp, List.getLast?_cons, hl] at h
          exact (Option.some.inj h).symm
        · rw [if_neg hp, hl] at h
          exact (Option.some.inj h).symm
      subst hx
      obtain ⟨pre, post, hsplit, hpx, hpost⟩ := ih hl
      exact ⟨a :: pre, post, by rw [hsplit]; rfl, hpx, hpost⟩
    | none =>
      have hnil : l.filter p = [] := List.getLast?_eq_none_iff.mp hl
      rw [List.filter_cons] at h
      by_cases hp : p a = true
      · rw [if_pos hp, List.getLast?_cons, hl] at h
        have hx : a = x := Option.some.inj h
        subst hx
        refine ⟨[], l, rfl, hp, fun c hc => ?_⟩
        have := List.filter_eq_nil_iff.mp hnil c hc
        simpa using this
      · rw [if_neg hp, hl] at h
        cases h

theorem betweenUnderscores_hero (hero : Str) (h : "hero_".toList <+: hero) :
    betweenUnderscores hero = heroIdText hero := by
  obtain ⟨t, rfl⟩ := h
  have e : "hero_".toList ++ t = 'h' :: 'e' :: 'r' :: 'o' :: '_' :: t := rfl
  rw [e]
  simp [betweenUnderscores, heroIdText, List.dropWhile_cons]

/-- C15: last match wins in the skin rule.  For every path on which `skinFromPath`
succeeds, the components of the path split as `pre ++ hero :: post` where `hero` starts
with `hero_` and has exactly two underscores and no component of `post` does, and as
`pre' ++ comp :: post'` where `comp` starts with `Skin` and is longer than 4 bytes and no
component of `post'` is; the returned `HeroId` is the text between the first and the
second underscore of `hero`, and the returned `Number` is what `strconv.Atoi` makes of the
text after `Skin` in `comp`.  The components before `hero` and before `comp` do not enter
the result. -/
theorem skinFromPath_last_match (path : Str) (id : HeroId) (skin : Skin)
    (h : skinFromPath path = some (id, some skin, none)) :
    ∃ pre hero post pre' comp post',
      stringsSplit '\\' path = pre ++ hero :: post ∧
      isHeroComponent hero = true ∧ (∀ c ∈ post, isHeroComponent c = false) ∧
      stringsSplit '\\' path = pre' ++ comp :: post' ∧
      isSkinComponent comp = true ∧ (∀ c ∈ post', isSkinComponent c = false) ∧
      id = betweenUnderscores hero ∧
      atoi (comp.drop 4) = .ok skin.Number ∧
      skin.Number = decimalIntegerValue (comp.drop 4) := by
  rcases skinFromPath_cases path with ⟨_, h2⟩ |
      ⟨hero, comp, fileName, _, _, hh, hs, _, ⟨_, h2⟩ | ⟨hN, h2⟩⟩
  · rw [h2] at h; simp at h
  · rw [h2] at h; simp at h
  · rw [h2] at h
    simp only [Option.some.injEq, Prod.mk.injEq, and_true] at h
    obtain ⟨hid, hskin⟩ := h
    subst hskin
    obtain ⟨pre, post, e1, p1, q1⟩ := getLast?_filter_split _ _ _ hh
    obtain ⟨pre', post', e2, p2, q2⟩ := getLast?_filter_split _ _ _ hs
    have hpre : "hero_".toList <+: hero := by
      simp only [isHeroComponent, Bool.and_eq_true, List.isPrefixOf_iff_prefix] at p1
      exact p1.1
    refine ⟨pre, hero, post, pre', comp, post', e1, p1, q1, e2, p2, q2, ?_, atoi_ok _ hN, rfl⟩
    rw [betweenUnderscores_hero hero hpre]
    exact hid.symm

/-- C15 at a concrete path with two qualifying components of each kind:
`C:\hero_1_A\Skin1\hero_2_B\Skin7\x.png` gives hero id `2` and skin number 7. -/
theorem skinFromPath_last_match_witness :
    skinFromPath "C:\\hero_1_A\\Skin1\\hero_2_B\\Skin7\\x.png".toList
      = some ("2".toList,
          some { Number := 7,
                 AbsolutePath := "C:\\hero_1_A\\Skin1\\hero_2_B\\Skin7\\x.png".toList,
                 FileName := "x".toList, FileExtension := "png".toList },
          none) ∧
    ∃ pre hero post pre' comp post',
      stringsSplit '\\' "C:\\hero_1_A\\Skin1\\hero_2_B\\Skin7\\x.png".toList
        = pre ++ hero :: post ∧
      isHeroComponent hero = true ∧ (∀ c ∈ post, isHeroComponent c = false) ∧
      stringsSplit '\\' "C:\\hero_1_A\\Skin1\\hero_2_B\\Skin7\\x.png".toList
        = pre' ++ comp :: post' ∧
      isSkinComponent comp = true ∧ (∀ c ∈ post', isSkinComponent c = false) ∧
      "2".toList = betweenUnderscores hero ∧
      atoi (comp.drop 4) = .ok 7 ∧
      (7 : Int) = decimalIntegerValue (comp.drop 4) :=
  ⟨by decide,
   skinFromPath_last_match "C:\\hero_1_A\\Skin1\\hero_2_B\\Skin7\\x.png".toList
     "2".toList
     { Number := 7,
       AbsolutePath := "C:\\hero_1_A\\Skin1\\hero_2_B\\Skin7\\x.png".toList,
       FileName := "x".toList, FileExtension := "png".toList }
     (by decide)⟩

/-! ## Failures of `skinFromPath` -/

theorem getLast?_filter_eq_none {α : Type} (p : α → Bool) (l : List α) :
    (l.filter p).getLast? = none ↔ ∀ c ∈ l, p c = false := by
  rw [List.getLast?_eq_none_iff, List.filter_eq_nil_iff]
  constructor
  · intro h c hc
    simpa using h c hc
  · intro h c hc
    simp [h c hc]

theorem getExtensionType_undefined (path : Str) :
    getExtensionType path = .UNDEFINED ↔
      ¬ (".json".toList <:+ path ∨ ".atlas".toList <:+ path ∨ ".png".toList <:+ path) := by
  unfold getExtensionType hasSuffix
  simp only [List.isSuffixOf_iff_suffix]
  by_cases hj : ".json".toList <:+ path
  · rw [if_pos hj]
    constructor
    · intro h; cases h
    · intro h; exact absurd (Or.inl hj) h
  · rw [if_neg hj]
    by_cases ha : ".atlas".toList <:+ path
    · rw [if_pos ha]
      constructor
      · intro h; cases h
      · intro h; exact absurd (Or.inr (Or.inl ha)) h
    · rw [if_neg ha]
      by_cases hp : ".png".toList <:+ path
      · rw [if_pos hp]
        constructor
        · intro h; cases h
        · intro h; exact absurd (Or.inr (Or.inr hp)) h
      · rw [if_neg hp]
        constructor
        · rintro _ (h | h | h)
          · exact hj h
          · exact ha h
          · exact hp h
        · intro _; rfl

theorem atoi_error_iff (s : Str) : (∃ e, atoi s = .error e) ↔ isIntNumeral s = false := by
  constructor
  · rintro ⟨e, he⟩
    cases hN : isIntNumeral s with
    | false => rfl
    | true => rw [atoi_ok s hN] at he; cases he
  · intro hN
    obtain ⟨k, hk⟩ := atoi_error s hN
    exact ⟨_, hk⟩

/-- C16, as stated, fails on the code: in `C:\hero_1_A\Skin99999999999999999999\a.json`
every "undefined path" test passes (4 components, `.json`, the hero component `hero_1_A`,
the skin component `Skin99999999999999999999`), the text after `Skin` is a base-10 integer
(20 decimal digits), and `skinFromPath` returns the wrong-format error: `strconv.Atoi`
rejects the value as out of range. -/
theorem skinFromPath_failures_counterexample :
    (stringsSplit '\\' "C:\\hero_1_A\\Skin99999999999999999999\\a.json".toList).length = 4 ∧
    getExtensionType "C:\\hero_1_A\\Skin99999999999999999999\\a.json".toList = .JSON ∧
    heroComponentOf "C:\\hero_1_A\\Skin99999999999999999999\\a.json".toList
      = some "hero_1_A".toList ∧
    skinComponentOf "C:\\hero_1_A\\Skin99999999999999999999\\a.json".toList
      = some "Skin99999999999999999999".toList ∧
    "Skin99999999999999999999".toList.drop 4 = "99999999999999999999".toList ∧
    isDecimalInteger "99999999999999999999".toList = true ∧
    skinFromPath "C:\\hero_1_A\\Skin99999999999999999999\\a.json".toList
      = some ([], none, some (.errorsNew
          "wrong format: can't convert skin number, folder should be in form 'SkinX'".toList)) := by
  decide

/-- C16, amended: for every path, `skinFromPath` returns "undefined path" if and only if
the path has fewer than 3 backslash-separated components, or does not end in `.json`,
`.atlas` or `.png`, or no component starts with `hero_` and has exactly 2 underscores, or
no component starts with `Skin` and is longer than 4 bytes; otherwise it returns the
wrong-format error if and only if the text after the 4 bytes `Skin` of the chosen (last)
skin component is not a base-10 integer (optional sign `+` or `-`, then one or more
decimal digits) whose value fits the `int` type; otherwise it succeeds.  Such a text is
exactly one on which `strconv.Atoi` does not return an error. -/
theorem skinFromPath_failures (path : Str) :
    (skinFromPath path = some ([], none, some (.errorsNew "undefined path".toList)) ↔
      ((stringsSplit '\\' path).length < 3 ∨
       ¬ (".json".toList <:+ path ∨ ".atlas".toList <:+ path ∨ ".png".toList <:+ path) ∨
       (∀ c ∈ stringsSplit '\\' path, isHeroComponent c = false) ∨
       (∀ c ∈ stringsSplit '\\' path, isSkinComponent c = false))) ∧
    (skinFromPath path = some ([], none, some (.errorsNew
        "wrong format: can't convert skin number, folder should be in form 'SkinX'".toList)) ↔
      (¬ ((stringsSplit '\\' path).length < 3 ∨
         ¬ (".json".toList <:+ path ∨ ".atlas".toList <:+ path ∨ ".png".toList <:+ path) ∨
         (∀ c ∈ stringsSplit '\\' path, isHeroComponent c = false) ∨
         (∀ c ∈ stringsSplit '\\' path, isSkinComponent c = false)) ∧
       ∃ comp, skinComponentOf path = some comp ∧ isIntNumeral (comp.drop 4) = false)) ∧
    ((∃ id skin, skinFromPath path = some (id, some skin, none)) ↔
      (¬ ((stringsSplit '\\' path).length < 3 ∨
         ¬ (".json".toList <:+ path ∨ ".atlas".toList <:+ path ∨ ".png".toList <:+ path) ∨
         (∀ c ∈ stringsSplit '\\' path, isHeroComponent c = false) ∨
         (∀ c ∈ stringsSplit '\\' path, isSkinComponent c = false)) ∧
       ∃ comp, skinComponentOf path = some comp ∧ isIntNumeral (comp.drop 4) = true)) ∧
    (∀ s, (∃ e, atoi s = .error e) ↔ isIntNumeral s = false) := by
  have hU : ((stringsSplit '\\' path).length < 3 ∨ getExtensionType path = .UNDEFINED ∨
        heroComponentOf path = none ∨ skinComponentOf path = none) ↔
      ((stringsSplit '\\' path).length < 3 ∨
       ¬ (".json".toList <:+ path ∨ ".atlas".toList <:+ path ∨ ".png".toList <:+ path) ∨
       (∀ c ∈ stringsSplit '\\' path, isHeroComponent c = false) ∨
       (∀ c ∈ stringsSplit '\\' path, isSkinComponent c = false)) := by
    rw [getExtensionType_undefined]
    unfold heroComponentOf skinComponentOf
    rw [getLast?_filter_eq_none, getLast?_filter_eq_none]
  have d1 : (GoError.errorsNew "undefined path".toList) ≠ .errorsNew
      "wrong format: can't convert skin number, folder should be in form 'SkinX'".toList := by
    decide
  refine ⟨?_, ?_, ?_, atoi_error_iff⟩
  · rw [← hU]
    rcases skinFromPath_cases path with ⟨hA, h⟩ |
        ⟨hero, comp, fileName, hlen, hext, hh, hs, _, ⟨_, h⟩ | ⟨_, h⟩⟩
    · exact ⟨fun _ => hA, fun _ => h⟩
    · rw [h]
      refine ⟨fun e => ?_, fun c => ?_⟩
      · simp only [Option.some.injEq, Prod.mk.injEq, true_and] at e
        exact absurd e.symm d1
      · rcases c with c | c | c | c
        · omega
        · exact absurd c hext
        · rw [hh] at c; cases c
        · rw [hs] at c; cases c
    · rw [h]
      refine ⟨fun e => ?_, fun c => ?_⟩
      · simp at e
      · rcases c with c | c | c | c
        · omega
        · exact absurd c hext
        · rw [hh] at c; cases c
        · rw [hs] at c; cases c
  · rw [← hU]
    rcases skinFromPath_cases path with ⟨hA, h⟩ |
        ⟨hero, comp, fileName, hlen, hext, hh, hs, _, ⟨hN, h⟩ | ⟨hN, h⟩⟩
    · rw [h]
      refine ⟨fun e => ?_, fun c => absurd hA c.1⟩
      simp only [Option.some.injEq, Prod.mk.injEq, true_and] at e
      exact absurd e d1
    · have hnA : ¬ ((stringsSplit '\\' path).length < 3 ∨
          getExtensionType path = .UNDEFINED ∨
          heroComponentOf path = none ∨ skinComponentOf path = none) := by
        rintro (c | c | c | c)
        · omega
        · exact absurd c hext
        · rw [hh] at c; cases c
        · rw [hs] at c; cases c
      exact ⟨fun _ => ⟨hnA, comp, hs, hN⟩, fun _ => h⟩
    · rw [h]
      refine ⟨fun e => ?_, fun c => ?_⟩
      · simp at e
      · obtain ⟨_, comp', hs', hfalse⟩ := c
        rw [hs] at hs'
        cases hs'
        rw [hN] at hfalse
        cases hfalse
  · rw [← hU]
    rcases skinFromPath_cases path with ⟨hA, h⟩ |
        ⟨hero, comp, fileName, hlen, hext, hh, hs, _, ⟨hN, h⟩ | ⟨hN, h⟩⟩
    · rw [h]
      refine ⟨fun e => ?_, fun c => absurd hA c.1⟩
      obtain ⟨_, _, e⟩ := e
      simp at e
    · rw [h]
      refine ⟨fun e => ?_, fun c => ?_⟩
      · obtain ⟨_, _, e⟩ := e
        simp at e
      · obtain ⟨_, comp', hs', htrue⟩ := c
        rw [hs] at hs'
        cases hs'
        rw [hN] at htrue
        cases htrue
    · have hnA : ¬ ((stringsSplit '\\' path).length < 3 ∨
          getExtensionType path = .UNDEFINED ∨
          heroComponentOf path = none ∨ skinComponentOf path = none) := by
        rintro (c | c | c | c)
        · omega
        · exact absurd c hext
        · rw [hh] at c; cases c
        · rw [hs] at c; cases c
      exact ⟨fun _ => ⟨hnA, comp, hs, hN⟩, fun _ => ⟨_, _, h⟩⟩

/-- C16 at two concrete paths: in `C:\hero_1_A\SkinX\A.json` the text `X` after `Skin`
is not a base-10 integer and the wrong-format error is returned; in
`C:\hero_1_A\Skin-7\A.json` the text `-7` is one that fits `int` and the rule
succeeds. -/
theorem skinFromPath_failures_witness :
    skinFromPath "C:\\hero_1_A\\SkinX\\A.json".toList
      = some ([], none, some (.errorsNew
          "wrong format: can't convert skin number, folder should be in form 'SkinX'".toList)) ∧
    ∃ id skin, skinFromPath "C:\\hero_1_A\\Skin-7\\A.json".toList
      = some (id, some skin, none) :=
  ⟨(skinFromPath_failures "C:\\hero_1_A\\SkinX\\A.json".toList).2.1.mpr
     ⟨by decide, "SkinX".toList, by decide, by decide⟩,
   (skinFromPath_failures "C:\\hero_1_A\\Skin-7\\A.json".toList).2.2.1.mpr
     ⟨by decide, "Skin-7".toList, by decide, by decide⟩⟩

/-! ## Lookup keys -/

theorem digitChar_digit (k : Nat) (h : k < 10) :
    isDecimalDigit (Nat.digitChar k) = true ∧ (Nat.digitChar k).toNat - 48 = k := by
  interval_cases k <;> decide

theorem toDigitsCore_append (fuel n : Nat) (ds : List Char) :
    Nat.toDigitsCore 10 fuel n ds = Nat.toDigitsCore 10 fuel n [] ++ ds := by
  induction fuel generalizing n ds with
  | zero => rfl
  | succ fuel ih =>
    unfold Nat.toDigitsCore
    by_cases h0 : n / 10 = 0
    · simp only [h0, if_true, List.singleton_append]
    · simp only [h0, if_false]
      rw [ih (n / 10) (Nat.digitChar (n % 10) :: ds), ih (n / 10) [Nat.digitChar (n % 10)],
        List.append_assoc, List.singleton_append]

theorem decimalValue_append_singleton (xs : Str) (d : Char) :
    decimalValue (xs ++ [d]) = decimalValue xs * 10 + (d.toNat - 48) := by
  simp [decimalValue, List.foldl_append]

theorem decimalValue_toDigitsCore (fuel n : Nat) (h : n < fuel) :
    decimalValue (Nat.toDigitsCore 10 fuel n []) = n := by
  induction fuel generalizing n with
  | zero => omega
  | succ fuel ih =>
    have hd := (digitChar_digit (n % 10) (Nat.mod_lt n (by norm_num))).2
    unfold Nat.toDigitsCore
    by_cases h0 : n / 10 = 0
    · simp only [h0, if_true]
      have : decimalValue [Nat.digitChar (n % 10)] = (Nat.digitChar (n % 10)).toNat - 48 := by
        simp [decimalValue]
      rw [this, hd]
      omega
    · simp only [h0, if_false]
      rw [toDigitsCore_append, decimalValue_append_singleton, ih (n / 10) (by omega), hd]
      omega

theorem all_digits_toDigitsCore (fuel n : Nat) (ds : List Char)
    (hds : ds.all isDecimalDigit = true) :
    (Nat.toDigitsCore 10 fuel n ds).all isDecimalDigit = true := by
  induction fuel generalizing n ds with
  | zero => exact hds
  | succ fuel ih =>
    have hd := (digitChar_digit (n % 10) (Nat.mod_lt n (by norm_num))).1
    have hcons : (Nat.digitChar (n % 10) :: ds).all isDecimalDigit = true := by
      rw [List.all_cons, hd, hds]; rfl
    unfold Nat.toDigitsCore
    by_cases h0 : n / 10 = 0
    · simp only [h0, if_true]; exact hcons
    · simp only [h0, if_false]; exact ih _ _ hcons

theorem all_digits_toDigits (n : Nat) : (Nat.toDigits 10 n).all isDecimalDigit = true :=
  all_digits_toDigitsCore (n + 1) n [] rfl

theorem decimalValue_toDigits (n : Nat) : decimalValue (Nat.toDigits 10 n) = n :=
  decimalValue_toDigitsCore (n + 1) n (Nat.lt_succ_self n)

theorem formatInt_injective (a b : Int) (h : formatInt a = formatInt b) : a = b := by
  have hminus : ∀ m, '-' ∉ Nat.toDigits 10 m := fun m =>
    not_mem_of_all_digits _ (all_digits_toDigits m) '-' (by decide)
  cases a with
  | ofNat m =>
    cases b with
    | ofNat k =>
      have : m = k := by
        rw [← decimalValue_toDigits m, ← decimalValue_toDigits k]
        exact congrArg decimalValue h
      rw [this]
    | negSucc k =>
      exfalso
      apply hminus m
      have h' : Nat.toDigits 10 m = '-' :: Nat.toDigits 10 (k + 1) := h
      rw [h']
      exact List.mem_cons_self _ _
  | negSucc m =>
    cases b with
    | ofNat k =>
      exfalso
      apply hminus k
      have h' : '-' :: Nat.toDigits 10 (m + 1) = Nat.toDigits 10 k := h
      rw [← h']
      exact List.mem_cons_self _ _
    | negSucc k =>
      have h' : '-' :: Nat.toDigits 10 (m + 1) = '-' :: Nat.toDigits 10 (k + 1) := h
      have h2 := List.tail_eq_of_cons_eq h'
      have : m + 1 = k + 1 := by
        rw [← decimalValue_toDigits (m + 1), ← decimalValue_toDigits (k + 1)]
        exact congrArg decimalValue h2
      have hmk : m = k := by omega
      rw [hmk]

theorem underscore_not_mem_formatInt (n : Int) : '_' ∉ formatInt n := by
  have hd : ∀ m, '_' ∉ Nat.toDigits 10 m := fun m =>
    not_mem_of_all_digits _ (all_digits_toDigits m) '_' (by decide)
  cases n with
  | ofNat m => exact hd m
  | negSucc m =>
    intro hmem
    rcases List.mem_cons.mp hmem with h | h
    · exact absurd h (by decide)
    · exact hd _ h

theorem sep_not_mem_of_mem_stringsSplit (sep : Char) (s : Str) :
    ∀ c ∈ stringsSplit sep s, sep ∉ c := by
  induction s with
  | nil =>
    intro c hc
    simp only [stringsSplit, List.mem_singleton] at hc
    rw [hc]
    exact List.not_mem_nil _
  | cons a s ih =>
    intro c hc
    by_cases ha : a = sep
    · rw [stringsSplit, if_pos ha] at hc
      rcases List.mem_cons.mp hc with h | h
      · rw [h]; exact List.not_mem_nil _
      · exact ih c h
    · rw [stringsSplit, if_neg ha] at hc
      cases hs : stringsSplit sep s with
      | nil => exact absurd hs (stringsSplit_ne_nil sep s)
      | cons piece rest =>
        rw [hs] at hc ih
        rcases List.mem_cons.mp hc with h | h
        · rw [h]
          intro hmem
          rcases List.mem_cons.mp hmem with h1 | h1
          · exact ha h1.symm
          · exact ih piece (List.mem_cons_self _ _) h1
        · exact ih c (List.mem_cons_of_mem _ h)

theorem backslash_not_mem_lastComponentOf (path : Str) : '\\' ∉ lastComponentOf path := by
  unfold lastComponentOf
  rw [List.getLast?_eq_getLast _ (stringsSplit_ne_nil _ _)]
  exact sep_not_mem_of_mem_stringsSplit _ _ _ (List.getLast_mem _)

theorem underscore_not_mem_takeWhile (s : Str) : '_' ∉ s.takeWhile (fun c => c != '_') := by
  intro h
  have := List.mem_takeWhile_imp h
  simp at this

/-- C17: lookup keys never collide across heroes.  Every `HeroId` that `skillFromPath`
or `skinFromPath` returns on success holds no underscore and no backslash, and for hero
ids without underscore the key `heroId + "_" + decimal(number)` determines both the hero
id and the number: equal keys imply equal hero ids and equal numbers. -/
theorem lookupKey_injective :
    (∀ (path : Str) (id : HeroId) (skill : HeroSkill),
      skillFromPath path = some (id, some skill, none) → '_' ∉ id ∧ '\\' ∉ id) ∧
    (∀ (path : Str) (id : HeroId) (skin : Skin),
      skinFromPath path = some (id, some skin, none) → '_' ∉ id ∧ '\\' ∉ id) ∧
    (∀ (h1 h2 : HeroId) (n1 n2 : Int), '_' ∉ h1 → '_' ∉ h2 →
      lookupKey h1 n1 = lookupKey h2 n2 → h1 = h2 ∧ n1 = n2) := by
  refine ⟨?_, ?_, ?_⟩
  · intro path id skill h
    rcases skillFromPath_cases path with ⟨_, h2⟩ | ⟨_, _, h2⟩ | ⟨_, _, _, k, h2⟩ |
        ⟨_, _, _, h2⟩
    · rw [h2] at h; simp at h
    · rw [h2] at h; simp at h
    · rw [h2] at h; simp at h
    · rw [h2] at h
      simp only [Option.some.injEq, Prod.mk.injEq, and_true] at h
      rw [← h.1]
      refine ⟨underscore_not_mem_takeWhile _, fun hmem => ?_⟩
      have h1 := (List.takeWhile_prefix (fun c => c != '_')).subset hmem
      have h3 := List.mem_of_mem_take (List.mem_of_mem_drop h1)
      exact backslash_not_mem_lastComponentOf path h3
  · intro path id skin h
    rcases skinFromPath_cases path with ⟨_, h2⟩ |
        ⟨hero, comp, fileName, _, _, hh, _, _, ⟨_, h2⟩ | ⟨_, h2⟩⟩
    · rw [h2] at h; simp at h
    · rw [h2] at h; simp at h
    · rw [h2] at h
      simp only [Option.some.injEq, Prod.mk.injEq, and_true] at h
      rw [← h.1]
      refine ⟨underscore_not_mem_takeWhile _, fun hmem => ?_⟩
      have h1 := (List.takeWhile_prefix (fun c => c != '_')).subset hmem
      have h3 := List.mem_of_mem_drop h1
      have hin : hero ∈ stringsSplit '\\' path :=
        (List.mem_filter.mp (List.mem_of_getLast?_eq_some hh)).1
      exact sep_not_mem_of_mem_stringsSplit _ _ hero hin h3
  · intro h1 h2 n1 n2 hu1 hu2 hkey
    have e1 : lookupKey h1 n1 = h1 ++ '_' :: formatInt n1 := by
      simp [lookupKey]
    have e2 : lookupKey h2 n2 = h2 ++ '_' :: formatInt n2 := by
      simp [lookupKey]
    rw [e1, e2] at hkey
    have hh : h1 = h2 := by
      have := congrArg (List.takeWhile (fun c => c != '_')) hkey
      rw [takeWhile_underscore_append _ _ hu1, takeWhile_underscore_append _ _ hu2] at this
      exact this
    subst hh
    have hf := List.append_cancel_left hkey
    exact ⟨rfl, formatInt_injective _ _ (List.tail_eq_of_cons_eq hf)⟩

/-- C17 at two classified pairs: the skill path `C:\icon_skill_0001_2.png` and the skin
path `C:\hero_0001_A\Skin2\A.json` give the same hero id and number and the same key
`0001_2`; the key of number 12 under hero `1` differs from the key of number 2 under hero
`11`. -/
theorem lookupKey_injective_witness :
    lookupKey "0001".toList 2 = "0001_2".toList ∧
    lookupKey "1".toList 12 ≠ lookupKey "11".toList 2 ∧
    ('_' ∉ "0001".toList ∧ '\\' ∉ "0001".toList) ∧
    ('_' ∉ "0001".toList ∧ '\\' ∉ "0001".toList) :=
  ⟨by decide, by decide,
   lookupKey_injective.1 "C:\\icon_skill_0001_2.png".toList "0001".toList
     { Number := 2, AbsolutePath := "C:\\icon_skill_0001_2.png".toList } (by decide),
   lookupKey_injective.2.1 "C:\\hero_0001_A\\Skin2\\A.json".toList "0001".toList
     { Number := 2, AbsolutePath := "C:\\hero_0001_A\\Skin2\\A.json".toList,
       FileName := "A".toList, FileExtension := "json".toList } (by decide)⟩

/-- C18: the two rules treat an empty hero id differently.  `skillFromPath` never
returns an empty `HeroId` on success, whereas `skinFromPath` succeeds with an empty
`HeroId` on `C:\hero__x\Skin1\a.png`, whose hero component is `hero__x`. -/
theorem empty_hero_id :
    (∀ (path : Str) (id : HeroId) (skill : HeroSkill),
      skillFromPath path = some (id, some skill, none) → id ≠ []) ∧
    skinFromPath "C:\\hero__x\\Skin1\\a.png".toList
      = some ([],
          some { Number := 1, AbsolutePath := "C:\\hero__x\\Skin1\\a.png".toList,
                 FileName := "a".toList, FileExtension := "png".toList },
          none) := by
  refine ⟨?_, by decide⟩
  intro path id skill h
  rcases skillFromPath_cases path with ⟨_, h2⟩ | ⟨_, _, h2⟩ | ⟨_, _, _, k, h2⟩ |
      ⟨_, hB, _, h2⟩
  · rw [h2] at h; simp at h
  · rw [h2] at h; simp at h
  · rw [h2] at h; simp at h
  · rw [h2] at h
    simp only [Option.some.injEq, Prod.mk.injEq, and_true] at h
    rw [← h.1]
    exact fun e => hB (Or.inr (Or.inr e))

/-- C18 at a concrete skill path: the shortest hero id text, one byte, in
`C:\icon_skill_7_1.png`, is returned as the non-empty hero id `7`; with an empty hero id
text, `C:\icon_skill__1.png`, the rule fails with "wrong format". -/
theorem empty_hero_id_witness :
    "7".toList ≠ [] ∧
    skillFromPath "C:\\icon_skill__1.png".toList
      = some ([], none, some (.errorsNew "wrong format".toList)) :=
  ⟨empty_hero_id.1 "C:\\icon_skill_7_1.png".toList "7".toList
     { Number := 1, AbsolutePath := "C:\\icon_skill_7_1.png".toList } (by decide),
   by decide⟩

/-! ## The branch that is never taken -/

theorem isHeroComponent_scanComponents (components : List Str)
    (h : (scanComponents components).1 ≠ []) :
    isHeroComponent (scanComponents components).1 = true := by
  have e := foldl_scanComponents components [] []
  have e1 : (scanComponents components).1
      = ((components.filter isHeroComponent).getLast?).getD [] := congrArg Prod.fst e
  rw [e1] at h ⊢
  cases hl : (components.filter isHeroComponent).getLast? with
  | none => rw [hl] at h; exact absurd rfl h
  | some hero => exact (List.mem_filter.mp (List.mem_of_getLast?_eq_some hl)).2

/-- C19: the second "undefined path" branch of `skinFromPath` is unreachable.  For every
`heroComponent` that starts with `hero_` and holds exactly 2 underscores, the first scan
stops at `i = 4`, the second stops at an index `j` with `i < j < len(heroComponent)`,
both positions hold an underscore, and so the condition that guards the return,
`i >= len || j >= len || heroComponent[i] != '_' || heroComponent[j] != '_'`, is false.
The `heroComponent` the loop leaves is such a component whenever it is not `""`. -/
theorem second_undefined_unreachable (heroComponent : Str)
    (h : isHeroComponent heroComponent = true) :
    scanUnderscore heroComponent 0 = 4 ∧
    scanUnderscore heroComponent 0
      < scanUnderscore (heroComponent.drop (scanUnderscore heroComponent 0 + 1))
          (scanUnderscore heroComponent 0 + 1) ∧
    scanUnderscore (heroComponent.drop (scanUnderscore heroComponent 0 + 1))
        (scanUnderscore heroComponent 0 + 1) < heroComponent.length ∧
    goIndex heroComponent (scanUnderscore heroComponent 0 : Nat) = some '_' ∧
    goIndex heroComponent
      (scanUnderscore (heroComponent.drop (scanUnderscore heroComponent 0 + 1))
        (scanUnderscore heroComponent 0 + 1) : Nat) = some '_' ∧
    ¬ (scanUnderscore heroComponent 0 ≥ heroComponent.length ∨
       scanUnderscore (heroComponent.drop (scanUnderscore heroComponent 0 + 1))
         (scanUnderscore heroComponent 0 + 1) ≥ heroComponent.length ∨
       goIndex heroComponent (scanUnderscore heroComponent 0 : Nat) ≠ some '_' ∨
       goIndex heroComponent
         (scanUnderscore (heroComponent.drop (scanUnderscore heroComponent 0 + 1))
           (scanUnderscore heroComponent 0 + 1) : Nat) ≠ some '_') ∧
    (∀ components : List Str, (scanComponents components).1 ≠ [] →
      isHeroComponent (scanComponents components).1 = true) := by
  simp only [isHeroComponent, Bool.and_eq_true, List.isPrefixOf_iff_prefix, beq_iff_eq] at h
  obtain ⟨⟨t, ht⟩, hcount⟩ := h
  have htc : 0 < t.count '_' := by
    rw [← ht, List.count_append] at hcount
    have c1 : "hero_".toList.count '_' = 1 := by decide
    omega
  obtain ⟨hi, hj, hjlt, hci, hcj, _⟩ := hero_scan t htc
  rw [ht] at hi hjlt hci
  rw [hi]
  rw [ht] at hj hcj
  rw [hj]
  refine ⟨rfl, by omega, hjlt, hci, hcj, ?_, isHeroComponent_scanComponents⟩
  rintro (c | c | c | c)
  · omega
  · omega
  · exact c hci
  · exact c hcj

/-- C19 at the hero component of the specification's example, `hero_0001_Aurora`: the
scans stop at 4 and at 9, and the length is 16. -/
theorem second_undefined_unreachable_witness :
    scanUnderscore "hero_0001_Aurora".toList 0 = 4 ∧
    scanUnderscore ("hero_0001_Aurora".toList.drop 5) 5 = 9 ∧
    "hero_0001_Aurora".toList.length = 16 ∧
    ¬ (scanUnderscore "hero_0001_Aurora".toList 0 ≥ "hero_0001_Aurora".toList.length ∨
       scanUnderscore
         ("hero_0001_Aurora".toList.drop (scanUnderscore "hero_0001_Aurora".toList 0 + 1))
         (scanUnderscore "hero_0001_Aurora".toList 0 + 1) ≥ "hero_0001_Aurora".toList.length ∨
       goIndex "hero_0001_Aurora".toList (scanUnderscore "hero_0001_Aurora".toList 0 : Nat)
         ≠ some '_' ∨
       goIndex "hero_0001_Aurora".toList
         (scanUnderscore
           ("hero_0001_Aurora".toList.drop (scanUnderscore "hero_0001_Aurora".toList 0 + 1))
           (scanUnderscore "hero_0001_Aurora".toList 0 + 1) : Nat) ≠ some '_') :=
  ⟨by decide, by decide, by decide,
   (second_undefined_unreachable "hero_0001_Aurora".toList (by decide)).2.2.2.2.2.1⟩

end RefactorAssets
